import Mathlib

/-!
# gouwu: the seeded generator and the uwuifier passes

A shallow embedding of `seed.go`, `utils.go` and `uwuifier.go`.

Conventions of the embedding.

* A Go `string` is its sequence of bytes, `List (Fin 256)`; `len` is the
  length of that list and `s[i]` its `i`-th byte.
* A `uint32` is a natural number; every Go operation that can leave the
  32-bit range is followed by an explicit `% 2 ^ 32`.
* A Go `int` is 64 bits wide (as on amd64 and arm64) and is an `Int` here.
* A `float64` is the rational number it denotes.  The draw `t / 2^32` is
  exact in `float64` (`t < 2^32`, the divisor a power of two).  The
  conversion `float64(n)` of an `int` rounds to 53 significant bits, ties
  to even, as the Go specification prescribes, and is modelled so.  The
  products and sums of `denormalize` are taken as exact.
* A Go result `(v, err)` is a pair of the value and an optional error;
  a method with a pointer receiver also returns the new state.
* A run-time panic (an index out of range) is the result `none`.
* A compiled regular expression of the source is modelled by the scanner that
  computes the same matches on bytes; every expression of the source has
  ASCII classes only, so matching on bytes and on runes agree.
* The Unicode tables of the Go library above ASCII (letters, upper case, case
  mappings) are a parameter, `UnicodeTables`; on ASCII they are written out.
-/

namespace Gouwu

/-! ## seed.go -/

/-- Truncation of a natural number to `uint32`. -/
def u32 (n : Nat) : Nat := n % 2 ^ 32

/-- Go `x << k` on `uint32`. -/
def shl32 (x k : Nat) : Nat := u32 (x <<< k)

/-- Go `x + y` on `uint32`. -/
def add32 (x y : Nat) : Nat := u32 (x + y)

/-- Go `int32(x)` for a `uint32` value `x`: the same 32 bits read as two's complement. -/
def toInt32 (x : Nat) : Int := if x < 2 ^ 31 then (x : Int) else (x : Int) - 2 ^ 32

/-- Wraparound of an integer product to `int32`. -/
def wrapInt32 (z : Int) : Int := (z + 2 ^ 31) % 2 ^ 32 - 2 ^ 31

/-- Go `uint32(z)` for an `int32` value `z`. -/
def ofInt32 (z : Int) : Nat := (z % 2 ^ 32).toNat

/-- The method `imul32`: `uint32(int32(a) * int32(b))`. -/
def imul32 (a b : Nat) : Nat := ofInt32 (wrapInt32 (toInt32 a * toInt32 b))

/-- The generator state: `type Seed struct { a, b, c, d uint32 }`. -/
structure Seed where
  a : Nat
  b : Nat
  c : Nat
  d : Nat
deriving DecidableEq, Repr

/-- The method `xmur3Hash`: returns the new `*h`, which is also the value returned. -/
def xmur3Hash (h : Nat) : Nat :=
  let h1 := imul32 (h ^^^ (h >>> 16)) 2246822507
  let h2 := imul32 (h1 ^^^ (h1 >>> 13)) 3266489909
  h2 ^^^ (h2 >>> 16)

/-- One iteration of the loop of `initXmur3` over the byte `b`. -/
def absorb (h : Nat) (b : Fin 256) : Nat :=
  let h1 := imul32 (h ^^^ b.val) 3432918353
  shl32 h1 13 ||| (h1 >>> 19)

/-- The accumulator of `initXmur3` after its loop. -/
def xmur3Acc (str : List (Fin 256)) : Nat :=
  str.foldl absorb (1779033703 ^^^ u32 str.length)

/-- The method `initXmur3`, returning the state it stores. -/
def initXmur3 (str : List (Fin 256)) : Seed :=
  let h := xmur3Acc str
  let a := xmur3Hash h
  let b := xmur3Hash a
  let c := xmur3Hash b
  let d := xmur3Hash c
  { a := a, b := b, c := c, d := d }

/-- The constructor `NewSeed`. -/
def NewSeed (seed : List (Fin 256)) : Seed := initXmur3 seed

/-- The word `t` computed by `sfc32`. -/
def sfc32T (s : Seed) : Nat := add32 (add32 s.a s.b) (add32 s.d 1)

/-- The state `sfc32` leaves behind. -/
def sfc32Next (s : Seed) : Seed :=
  let t := add32 s.a s.b
  let a := s.b ^^^ (s.b >>> 9)
  let b := add32 s.c (shl32 s.c 3)
  let c := shl32 s.c 21 ||| (s.c >>> 11)
  let d := add32 s.d 1
  let t := add32 t d
  let c := add32 c t
  { a := a, b := b, c := c, d := d }

/-- The method `sfc32`: the draw `float64(t) / 4294967296.0` and the new state. -/
def sfc32 (s : Seed) : ℚ × Seed := ((sfc32T s : ℚ) / 4294967296, sfc32Next s)

/-- The method `denormalize`, the arithmetic taken as exact.  `denormalizeFloat64` is the
same expression with each operation rounded to `float64`; the two agree on the bounds
the passes use (`denormalizeFloat64_exact`). -/
def denormalize (value min max : ℚ) : ℚ := value * (max - min) + min

/-- The two errors of `seed.go`, each created by `errors.New`. -/
inductive RangeError where
  /-- The message "minimum value must be below maximum value". -/
  | mustBeBelow
  /-- The message "minimum value cannot equal maximum value". -/
  | cannotEqual
deriving DecidableEq, Repr

/-- A Go result `(value, error)`; `err = none` is the `nil` error. -/
structure Res (α : Type) where
  val : α
  err : Option RangeError
deriving DecidableEq, Repr

/-- The method `Random`. -/
def Random (s : Seed) (min max : ℚ) : Res ℚ × Seed :=
  if min > max then (⟨0, some .mustBeBelow⟩, s)
  else if min = max then (⟨0, some .cannotEqual⟩, s)
  else (⟨denormalize (sfc32 s).1 min max, none⟩, (sfc32 s).2)

/-- The number of bits of `m`, for `m` below `2 ^ fuel`. -/
def bitLength : Nat → Nat → Nat
  | 0, _ => 0
  | fuel + 1, m => if m = 0 then 0 else bitLength fuel (m / 2) + 1

/-- Go `float64(n)` for an `int` (64 bits): the nearest number with a 53-bit
significand, ties to the even significand. -/
def float64OfInt (n : Int) : ℚ :=
  let m := n.natAbs
  if m < 2 ^ 53 then (n : ℚ)
  else
    let e := bitLength 64 m - 53
    let q := m / 2 ^ e
    let r := m % 2 ^ e
    let q1 := if 2 ^ (e - 1) < r ∨ (r = 2 ^ (e - 1) ∧ q % 2 = 1) then q + 1 else q
    if 0 ≤ n then ((q1 * 2 ^ e : Nat) : ℚ) else -((q1 * 2 ^ e : Nat) : ℚ)

/-- Go `math.Round`: nearest integer, halfway cases away from zero. -/
def mathRound (x : ℚ) : Int := if 0 ≤ x then ⌊x + 1 / 2⌋ else -⌊-x + 1 / 2⌋

/-- The method `RandomInt`. -/
def RandomInt (s : Seed) (min max : Int) : Res Int × Seed :=
  if min > max then (⟨0, some .mustBeBelow⟩, s)
  else if min = max then (⟨0, some .cannotEqual⟩, s)
  else
    let r := Random s (float64OfInt min) (float64OfInt max)
    if r.1.err ≠ none then (⟨0, r.1.err⟩, r.2)
    else (⟨mathRound r.1.val, none⟩, r.2)

/-! ## Go strings and the library functions the passes call -/

/-- A Go string: its bytes. -/
abbrev Str := List (Fin 256)

/-- Go `string(rune(r))`: the UTF-8 encoding of the code point `r`; a surrogate or a
value above `U+10FFFF` is encoded as `U+FFFD`. -/
def utf8Encode (r : Nat) : Str :=
  if (0xD800 ≤ r ∧ r ≤ 0xDFFF) ∨ 0x10FFFF < r then [0xEF, 0xBF, 0xBD]
  else if r < 0x80 then [Fin.ofNat r]
  else if r < 0x800 then [Fin.ofNat (0xC0 + r / 64), Fin.ofNat (0x80 + r % 64)]
  else if r < 0x10000 then
    [Fin.ofNat (0xE0 + r / 4096), Fin.ofNat (0x80 + r / 64 % 64), Fin.ofNat (0x80 + r % 64)]
  else
    [Fin.ofNat (0xF0 + r / 262144), Fin.ofNat (0x80 + r / 4096 % 64),
      Fin.ofNat (0x80 + r / 64 % 64), Fin.ofNat (0x80 + r % 64)]

/-- The bytes of a string literal of the source. -/
def str (s : String) : Str := (s.data.map (fun c => utf8Encode c.toNat)).flatten

/-- Go `strings.Split(s, " ")`. -/
def Split : Str → List Str
  | [] => [[]]
  | b :: rest =>
    if b = 32 then [] :: Split rest
    else
      match Split rest with
      | [] => [[b]]
      | w :: ws => (b :: w) :: ws

/-- Go `strings.Join(words, " ")`. -/
def Join : List Str → Str
  | [] => []
  | [w] => w
  | w :: w1 :: ws => w ++ 32 :: Join (w1 :: ws)

/-- Whether the bytes `c1`, `c2`, ... after a lead byte are `n` continuation bytes,
the first of them within `lo..hi`. -/
def contOk (lo hi : Nat) (n : Nat) (rest : Str) : Bool :=
  match n, rest with
  | 1, c1 :: _ => decide (lo ≤ c1.val ∧ c1.val ≤ hi)
  | 2, c1 :: c2 :: _ => decide (lo ≤ c1.val ∧ c1.val ≤ hi ∧ 0x80 ≤ c2.val ∧ c2.val ≤ 0xBF)
  | 3, c1 :: c2 :: c3 :: _ =>
    decide (lo ≤ c1.val ∧ c1.val ≤ hi ∧ 0x80 ≤ c2.val ∧ c2.val ≤ 0xBF ∧
      0x80 ≤ c3.val ∧ c3.val ≤ 0xBF)
  | _, _ => false

/-- Go `utf8.DecodeRuneInString` on `b :: rest`: the rune and its width; an
invalid or truncated encoding gives `U+FFFD` and width 1. -/
def decodeRune (b : Fin 256) (rest : Str) : Nat × Nat :=
  let v := b.val
  let c (i : Nat) : Nat := (rest.getD i 0).val % 64
  if v < 0x80 then (v, 1)
  else if 0xC2 ≤ v ∧ v ≤ 0xDF then
    if contOk 0x80 0xBF 1 rest then ((v % 32) * 64 + c 0, 2) else (0xFFFD, 1)
  else if 0xE0 ≤ v ∧ v ≤ 0xEF then
    let lo := if v = 0xE0 then 0xA0 else 0x80
    let hi := if v = 0xED then 0x9F else 0xBF
    if contOk lo hi 2 rest then ((v % 16) * 4096 + c 0 * 64 + c 1, 3) else (0xFFFD, 1)
  else if 0xF0 ≤ v ∧ v ≤ 0xF4 then
    let lo := if v = 0xF0 then 0x90 else 0x80
    let hi := if v = 0xF4 then 0x8F else 0xBF
    if contOk lo hi 3 rest then ((v % 8) * 262144 + c 0 * 4096 + c 1 * 64 + c 2, 4)
    else (0xFFFD, 1)
  else (0xFFFD, 1)

/-- The runes of `for _, r := range s`, skipping the `skip` bytes already consumed. -/
def runesFrom : Nat → Str → List Nat
  | _, [] => []
  | skip + 1, _ :: rest => runesFrom skip rest
  | 0, b :: rest => (decodeRune b rest).1 :: runesFrom ((decodeRune b rest).2 - 1) rest

/-- The runes of a Go string. -/
def runes (s : Str) : List Nat := runesFrom 0 s

/-- The Unicode tables of the Go library for the code points above ASCII:
letters, upper-case letters and the simple case mappings. -/
structure UnicodeTables where
  isLetter : Nat → Bool
  isUpper : Nat → Bool
  toUpper : Nat → Nat
  toLower : Nat → Nat

/-- Go `unicode.IsLetter`. -/
def IsLetter (U : UnicodeTables) (r : Nat) : Bool :=
  if r < 128 then decide ((65 ≤ r ∧ r ≤ 90) ∨ (97 ≤ r ∧ r ≤ 122)) else U.isLetter r

/-- Go `unicode.IsUpper`. -/
def IsUpper (U : UnicodeTables) (r : Nat) : Bool :=
  if r < 128 then decide (65 ≤ r ∧ r ≤ 90) else U.isUpper r

/-- Go `unicode.ToUpper`. -/
def ToUpper (U : UnicodeTables) (r : Nat) : Nat :=
  if r < 128 then (if 97 ≤ r ∧ r ≤ 122 then r - 32 else r) else U.toUpper r

/-- Go `unicode.ToLower`. -/
def ToLower (U : UnicodeTables) (r : Nat) : Nat :=
  if r < 128 then (if 65 ≤ r ∧ r ≤ 90 then r + 32 else r) else U.toLower r

/-- Go `unicode.IsSpace`: the code points with the White_Space property. -/
def IsSpace (r : Nat) : Bool :=
  decide ((9 ≤ r ∧ r ≤ 13) ∨ r = 32 ∨ r = 0x85 ∨ r = 0xA0 ∨ r = 0x1680 ∨
    (0x2000 ≤ r ∧ r ≤ 0x200A) ∨ r = 0x2028 ∨ r = 0x2029 ∨ r = 0x202F ∨ r = 0x205F ∨
    r = 0x3000)

/-- A compiled regular expression that is a sequence of single-byte classes
(`ove`, `[rl]`, `n([aeiou])`): the bytes each position accepts. -/
abbrev Pattern := List (List (Fin 256))

/-- Whether the text starts with a match of the pattern. -/
def matchesAt : Pattern → Str → Bool
  | [], _ => true
  | _ :: _, [] => false
  | cls :: p, b :: rest => decide (b ∈ cls) && matchesAt p rest

/-- Go `Pattern.ReplaceAllString`: every non-overlapping match, leftmost first,
is replaced by `expand` of the matched text; `skip` bytes of the last match are
still to be passed over. -/
def replaceAllFrom (p : Pattern) (expand : Str → Str) : Nat → Str → Str
  | _, [] => []
  | skip + 1, _ :: rest => replaceAllFrom p expand skip rest
  | 0, b :: rest =>
    if p ≠ [] ∧ matchesAt p (b :: rest) then
      expand ((b :: rest).take p.length) ++ replaceAllFrom p expand (p.length - 1) rest
    else b :: replaceAllFrom p expand 0 rest

/-- Go `Pattern.ReplaceAllString(word, Replacement)`. -/
def ReplaceAllString (p : Pattern) (expand : Str → Str) (word : Str) : Str :=
  replaceAllFrom p expand 0 word

/-! ## utils.go -/

/-- The function `isAt`. -/
def isAt (value : Str) : Bool :=
  match value with
  | [] => false
  | b :: _ => decide (b = 64)

/-- The function `getCapitalPercentage`. -/
def getCapitalPercentage (U : UnicodeTables) (s : Str) : ℚ :=
  let letters := (runes s).filter (IsLetter U)
  let totalLetters := letters.length
  let upperLetters := (letters.filter (IsUpper U)).length
  if totalLetters = 0 then 0 else (upperLetters : ℚ) / (totalLetters : ℚ)

/-- The function `isBreak`: `strings.TrimSpace(word) == ""`. -/
def isBreak (word : Str) : Bool := (runes word).all IsSpace

/-- The class `[0-9a-fA-F]`. -/
def isHexDigit (b : Fin 256) : Bool :=
  decide ((48 ≤ b.val ∧ b.val ≤ 57) ∨ (97 ≤ b.val ∧ b.val ≤ 102) ∨ (65 ≤ b.val ∧ b.val ≤ 70))

/-- The class `[a-zA-Z]`. -/
def isAsciiLetter (b : Fin 256) : Bool :=
  decide ((97 ≤ b.val ∧ b.val ≤ 122) ∨ (65 ≤ b.val ∧ b.val ≤ 90))

/-- The class `[a-zA-Z0-9:/?#\[\]@!$&'()*+,;=.\-_~%]` of `illegalChars`, not negated. -/
def isLegalChar (b : Fin 256) : Bool :=
  isAsciiLetter b || decide (48 ≤ b.val ∧ b.val ≤ 57) || decide (b ∈ str ":/?#[]@!$&'()*+,;=.-_~%")

/-- Whether `%[^0-9a-fA-F]` matches somewhere in the text. -/
def incompleteHex1 : Str → Bool
  | b :: c :: rest => (decide (b = 37) && !isHexDigit c) || incompleteHex1 (c :: rest)
  | _ => false

/-- Whether `%[0-9a-fA-F]([^0-9a-fA-F]|$)` matches somewhere in the text. -/
def incompleteHex2 : Str → Bool
  | b :: c :: rest =>
    (decide (b = 37) && isHexDigit c &&
      (match rest with
       | [] => true
       | d :: _ => !isHexDigit d)) || incompleteHex2 (c :: rest)
  | _ => false

/-- The class `[^:/?#]` of `uriRegex`. -/
def notSchemeStop (b : Fin 256) : Bool := !decide (b ∈ str ":/?#")

/-- The class `[^/?#]` of `uriRegex`. -/
def notAuthorityStop (b : Fin 256) : Bool := !decide (b ∈ str "/?#")

/-- The class `[^?#]` of `uriRegex`. -/
def notPathStop (b : Fin 256) : Bool := !decide (b ∈ str "?#")

/-- The submatches 1, 2 and 3 (scheme, authority, path) of `uriRegex`
`(?:([^:/?#]+):)?(?://([^/?#]*))?([^?#]*)(?:\?([^#]*))?(?:#(.*))?` found in `value`; the
expression matches at offset 0 of every text, and a group that takes no part in the
match is the empty string. -/
def uriSubmatch (value : Str) : Str × Str × Str :=
  let run := value.takeWhile notSchemeStop
  let afterRun := value.dropWhile notSchemeStop
  let hasScheme := decide (run ≠ []) && decide (afterRun.head? = some 58)
  let scheme := if hasScheme then run else []
  let rest1 := if hasScheme then afterRun.tail else value
  let hasAuthority := matchesAt [str "/", str "/"] rest1
  let authority := if hasAuthority then (rest1.drop 2).takeWhile notAuthorityStop else []
  let rest2 := if hasAuthority then (rest1.drop 2).dropWhile notAuthorityStop else rest1
  (scheme, authority, rest2.takeWhile notPathStop)

/-- Go `strings.HasPrefix`. -/
def HasPrefix (s pre : Str) : Bool := decide (s.take pre.length = pre)

/-- Whether `schemeRegex`, `^[a-zA-Z][a-zA-Z0-9+\-.]*$`, matches. -/
def schemeRegex (scheme : Str) : Bool :=
  match scheme with
  | [] => false
  | b :: rest =>
    isAsciiLetter b &&
      rest.all (fun c => isAsciiLetter c || decide (48 ≤ c.val ∧ c.val ≤ 57) || decide (c ∈ str "+-."))

/-- The function `isURI`. -/
def isURI (value : Str) : Bool :=
  if value = [] then false
  else if value.any (fun b => !isLegalChar b) then false
  else if incompleteHex1 value || incompleteHex2 value then false
  else
    let scheme := (uriSubmatch value).1
    let authority := (uriSubmatch value).2.1
    let path := (uriSubmatch value).2.2
    if !(decide (scheme ≠ []) && decide (path.length ≥ 0)) then false
    else if (if authority ≠ [] then !(decide (path.length = 0) || HasPrefix path (str "/"))
        else HasPrefix path (str "//")) then false
    else if !schemeRegex scheme then false
    else true

/-! ## float64 values -/

/-- A Go `float64`: a finite number, an infinity or NaN.  The two zeros are one value:
they compare equal, and the code only adds, multiplies and compares these values. -/
inductive Float64 where
  | num (q : ℚ)
  | inf (negative : Bool)
  | nan
deriving DecidableEq

instance (n : Nat) : OfNat Float64 n := ⟨Float64.num n⟩

/-- Go `a < b` on `float64`: false when either side is NaN. -/
def Float64.lt : Float64 → Float64 → Bool
  | .num a, .num b => decide (a < b)
  | .num _, .inf negative => !negative
  | .inf negative, .num _ => negative
  | .inf n1, .inf n2 => n1 && !n2
  | _, _ => false

/-- Go `a <= b` on `float64`: false when either side is NaN. -/
def Float64.le : Float64 → Float64 → Bool
  | .num a, .num b => decide (a ≤ b)
  | .num _, .inf negative => !negative
  | .inf negative, .num _ => negative
  | .inf n1, .inf n2 => n1 || !n2
  | _, _ => false

instance : LT Float64 := ⟨fun a b => Float64.lt a b = true⟩

instance : LE Float64 := ⟨fun a b => Float64.le a b = true⟩

instance (a b : Float64) : Decidable (a < b) :=
  inferInstanceAs (Decidable (Float64.lt a b = true))

instance (a b : Float64) : Decidable (a ≤ b) :=
  inferInstanceAs (Decidable (Float64.le a b = true))

/-- The integer `⌊log₂ x⌋` of a rational `x ≥ 1`, found in at most `fuel` halvings. -/
def log2Up : Nat → ℚ → Int
  | 0, _ => 0
  | fuel + 1, x => if 2 ≤ x then log2Up fuel (x / 2) + 1 else 0

/-- The integer `⌊log₂ x⌋` of a rational `0 < x < 1`, found in at most `fuel` doublings. -/
def log2Down : Nat → ℚ → Int
  | 0, _ => 0
  | fuel + 1, x => if x < 1 then log2Down fuel (x * 2) - 1 else 0

/-- The integer `⌊log₂ x⌋` of a positive rational. -/
def floorLog2 (x : ℚ) : Int :=
  if 1 ≤ x then log2Up x.num.natAbs x else log2Down x.den x

/-- The nearest integer, a tie going to the even one. -/
def roundHalfEven (x : ℚ) : Int :=
  if x - ⌊x⌋ < 1 / 2 then ⌊x⌋
  else if 1 / 2 < x - ⌊x⌋ then ⌊x⌋ + 1
  else if ⌊x⌋ % 2 = 0 then ⌊x⌋ else ⌊x⌋ + 1

/-- The exponent of the spacing of the `float64` values around a positive `x`: 53
significant bits, and `2^-1074` in the subnormal range. -/
def ulpExponent (x : ℚ) : Int := max (floorLog2 x - 52) (-1074)

/-- The spacing of the `float64` values around a positive `x`. -/
def ulp (x : ℚ) : ℚ := 2 ^ ulpExponent x

/-- The multiple of the spacing nearest to a positive `x`, a tie going to the even
multiple. -/
def nearest (x : ℚ) : ℚ := (roundHalfEven (x / ulp x) : ℚ) * ulp x

/-- The `float64` nearest to a rational, a tie going to the even significand; beyond
the largest finite value the result is an infinity. -/
def round64 (q : ℚ) : Float64 :=
  if q = 0 then .num 0
  else if 2 ^ 1024 ≤ nearest |q| then .inf (decide (q < 0))
  else .num (if q < 0 then -nearest |q| else nearest |q|)

/-- Go `a + b` on `float64`: the exact sum rounded to the nearest `float64`. -/
def Float64.add : Float64 → Float64 → Float64
  | .num a, .num b => round64 (a + b)
  | .num _, .inf negative => .inf negative
  | .inf negative, .num _ => .inf negative
  | .inf n1, .inf n2 => if n1 = n2 then .inf n1 else .nan
  | _, _ => .nan

instance : Add Float64 := ⟨Float64.add⟩

/-- The value is one a `float64` can hold, as every value of the Go type is: a finite
number is its own rounding. -/
def Float64.IsValue : Float64 → Prop
  | .num q => round64 q = .num q
  | _ => True

/-! ## uwuifier.go -/

/-- The type `SpacesModifier`. -/
structure SpacesModifier where
  Faces : Float64
  Actions : Float64
  Stutters : Float64
deriving DecidableEq

/-- The type `UwuReplacement`: the compiled pattern, and the replacement template as
the function from the matched text to its expansion. -/
structure UwuReplacement where
  Pattern : Pattern
  Replacement : Str → Str

/-- The type `Uwuifier`. -/
structure Uwuifier where
  Faces : List Str
  Exclamations : List Str
  Actions : List Str
  uwuMap : List UwuReplacement
  wordsModifier : Float64
  spacesModifier : SpacesModifier
  exclamationsModifier : Float64

/-- The variable `DefaultWords`, `0.9`: the `float64` nearest to `0.9`. -/
def DefaultWords : Float64 := .num (8106479329266893 / 9007199254740992)

/-- The variable `DefaultSpaces`, `{0.04, 0.02, 0.1}`: the `float64` values nearest to
these decimals. -/
def DefaultSpaces : SpacesModifier :=
  { Faces := .num (5764607523034235 / 144115188075855872)
    Actions := .num (5764607523034235 / 288230376151711744)
    Stutters := .num (3602879701896397 / 36028797018963968) }

/-- The variable `DefaultExclamations`. -/
def DefaultExclamations : Float64 := 1

/-- The method `SetWordsModifier`: the new state and whether an error is returned. -/
def SetWordsModifier (u : Uwuifier) (value : Float64) : Uwuifier × Bool :=
  if value < 0 ∨ value > 1 then (u, true) else ({ u with wordsModifier := value }, false)

/-- The method `SetSpacesModifier`. -/
def SetSpacesModifier (u : Uwuifier) (value : SpacesModifier) : Uwuifier × Bool :=
  let sum := value.Faces + value.Actions + value.Stutters
  if sum < 0 ∨ sum > 1 then (u, true) else ({ u with spacesModifier := value }, false)

/-- The method `SetExclamationsModifier`. -/
def SetExclamationsModifier (u : Uwuifier) (value : Float64) : Uwuifier × Bool :=
  if value < 0 ∨ value > 1 then (u, true) else ({ u with exclamationsModifier := value }, false)

/-- The option `WithWords`; the error of the setter is dropped. -/
def WithWords (probability : Float64) : Uwuifier → Uwuifier := fun u => (SetWordsModifier u probability).1

/-- The option `WithSpaces`. -/
def WithSpaces (spaces : SpacesModifier) : Uwuifier → Uwuifier :=
  fun u => (SetSpacesModifier u spaces).1

/-- The option `WithExclamations`. -/
def WithExclamations (probability : Float64) : Uwuifier → Uwuifier :=
  fun u => (SetExclamationsModifier u probability).1

/-- The six rules `New` stores in `uwuMap`, in order. -/
def defaultUwuMap : List UwuReplacement :=
  [ ⟨[str "o", str "v", str "e"], fun _ => str "uv"⟩,
    ⟨[str "rl"], fun _ => str "w"⟩,
    ⟨[str "RL"], fun _ => str "W"⟩,
    ⟨[str "n", str "aeiou"], fun m => str "ny" ++ m.drop 1⟩,
    ⟨[str "N", str "aeiou"], fun m => str "Ny" ++ m.drop 1⟩,
    ⟨[str "N", str "AEIOU"], fun m => str "NY" ++ m.drop 1⟩ ]

/-- The constructor `New`. -/
def New (opts : List (Uwuifier → Uwuifier)) : Uwuifier :=
  opts.foldl (fun u opt => opt u)
    { Faces := [str "(・\x60ω´・)", str ";;w;;", str "OwO", str "UwU", str ">w<",
        str "^w^", str "ÚwÚ", str "^-^", str ":3", str "x3"]
      Exclamations := [str "!?", str "?!!", str "?!?1", str "!!11", str "?!?!"]
      Actions := [str "*blushes*", str "*whispers to self*", str "*cries*", str "*screams*",
        str "*sweats*", str "*twerks*", str "*runs away*", str "*screeches*",
        str "*walks away*", str "*sees bulge*", str "*looks at you*",
        str "*notices buldge*", str "*starts twerking*", str "*huggles tightly*",
        str "*boops your nose*"]
      uwuMap := defaultUwuMap
      wordsModifier := DefaultWords
      spacesModifier := DefaultSpaces
      exclamationsModifier := DefaultExclamations }

/-- The inner loop of `UwuifyWords` over the rules still to run. -/
def uwuifyWordRules (wordsModifier : Float64) : List UwuReplacement → Seed → Str → Str
  | [], _, word => word
  | replacement :: rules, seed, word =>
    let r := Random seed 0 1
    if Float64.num r.1.val > wordsModifier then uwuifyWordRules wordsModifier rules r.2 word
    else
      uwuifyWordRules wordsModifier rules r.2
        (ReplaceAllString replacement.Pattern replacement.Replacement word)

/-- The body of the loop of `UwuifyWords` for one word. -/
def uwuifyWord (u : Uwuifier) (word : Str) : Str :=
  if isAt word || isURI word then word
  else uwuifyWordRules u.wordsModifier u.uwuMap (NewSeed word) word

/-- The method `UwuifyWords`. -/
def UwuifyWords (u : Uwuifier) (sentence : Str) : Str :=
  Join ((Split sentence).map (uwuifyWord u))

/-- Go indexing `lexicon[i]` by an `int`; `none` is the run-time panic of an index
out of range. -/
def index (lexicon : List Str) (i : Int) : Option Str :=
  if 0 ≤ i then lexicon.get? i.toNat else none

/-- A loop `for i, word := range words` whose body may panic: the words it stores. -/
def mapWords (body : Str → Option Str) : List Str → Option (List Str)
  | [] => some []
  | word :: words =>
    match body word with
    | none => none
    | some w =>
      match mapWords body words with
      | none => none
      | some ws => some (w :: ws)

/-- The class `[?!]`. -/
def isExclamationChar (b : Fin 256) : Bool := decide (b ∈ str "?!")

/-- Whether `[?!]+$` matches: the text ends in `?` or `!`. -/
def exclamationMatch (word : Str) : Bool :=
  match word.getLast? with
  | none => false
  | some b => isExclamationChar b

/-- The text with the match of `[?!]+$`, its whole trailing run, replaced by "". -/
def exclamationStrip (word : Str) : Str := (word.reverse.dropWhile isExclamationChar).reverse

/-- The body of the loop of `UwuifyExclamations` for one word. -/
def uwuifyExclamationWord (u : Uwuifier) (word : Str) : Option Str :=
  let r := Random (NewSeed word) 0 1
  if !exclamationMatch word || decide (Float64.num r.1.val > u.exclamationsModifier) || isBreak word then
    some word
  else
    let exclamationIdx := (RandomInt r.2 0 ((u.Exclamations.length : Int) - 1)).1.val
    match index u.Exclamations exclamationIdx with
    | none => none
    | some e => some (exclamationStrip word ++ e)

/-- The method `UwuifyExclamations`; `none` is a panic. -/
def UwuifyExclamations (u : Uwuifier) (sentence : Str) : Option Str :=
  (mapWords (uwuifyExclamationWord u) (Split sentence)).map Join

/-- The closure `checkCapital` of `UwuifySpaces`, called once `word` has its face or
action appended: `firstChar` is the rune of `string(word[0])`, `first` is `i == 0` and
`prevWord` is `words[i-1]` as the loop left it. -/
def checkCapital (U : UnicodeTables) (first : Bool) (prevWord : Str) (firstChar : Nat)
    (word : Str) : Str :=
  if utf8Encode firstChar ≠ utf8Encode (ToUpper U firstChar) then word
  else if getCapitalPercentage U word > 1 / 2 then word
  else if first then utf8Encode (ToLower U firstChar) ++ word.drop 1
  else
    match prevWord.getLast? with
    | none => word
    | some lastChar =>
      if lastChar ∈ str ".!?-" then utf8Encode (ToLower U firstChar) ++ word.drop 1 else word

/-- Go `strings.Repeat(s, count)` for `count ≥ 0`. -/
def Repeat (s : Str) (count : Nat) : Str := (List.replicate count s).flatten

/-- The body of the loop of `UwuifySpaces` for one word; `none` is a panic. -/
def uwuifySpaceWord (U : UnicodeTables) (u : Uwuifier) (first : Bool) (prevWord : Str)
    (word : Str) : Option Str :=
  match word with
  | [] => some word
  | b0 :: _ =>
    let faceThreshold := u.spacesModifier.Faces
    let actionThreshold := u.spacesModifier.Actions + faceThreshold
    let stutterThreshold := u.spacesModifier.Stutters + actionThreshold
    let r := Random (NewSeed word) 0 1
    let firstChar := b0.val
    if Float64.num r.1.val ≤ faceThreshold ∧ u.Faces.length > 0 ∧ isBreak word = false then
      let faceIdx := (RandomInt r.2 0 ((u.Faces.length : Int) - 1)).1.val
      match index u.Faces faceIdx with
      | none => none
      | some face => some (checkCapital U first prevWord firstChar (word ++ 32 :: face))
    else if Float64.num r.1.val ≤ actionThreshold ∧ u.Actions.length > 0 ∧ isBreak word = false then
      let actionIdx := (RandomInt r.2 0 ((u.Actions.length : Int) - 1)).1.val
      match index u.Actions actionIdx with
      | none => none
      | some action => some (checkCapital U first prevWord firstChar (word ++ 32 :: action))
    else if Float64.num r.1.val ≤ stutterThreshold ∧ isURI word = false ∧ isBreak word = false then
      let stutterCount := (RandomInt r.2 0 2).1.val
      if stutterCount < 0 then none
      else some (Repeat (utf8Encode firstChar ++ str "-") stutterCount.toNat ++ word)
    else some word

/-- The loop of `UwuifySpaces`, which stores each result in `words[i]` before the next
word reads `words[i-1]`. -/
def uwuifySpaceLoop (U : UnicodeTables) (u : Uwuifier) : Bool → Str → List Str →
    Option (List Str)
  | _, _, [] => some []
  | first, prevWord, word :: words =>
    match uwuifySpaceWord U u first prevWord word with
    | none => none
    | some w =>
      match uwuifySpaceLoop U u false w words with
      | none => none
      | some ws => some (w :: ws)

/-- The method `UwuifySpaces`; `none` is a panic. -/
def UwuifySpaces (U : UnicodeTables) (u : Uwuifier) (sentence : Str) : Option Str :=
  (uwuifySpaceLoop U u true [] (Split sentence)).map Join

/-- The method `UwuifySentence`; `none` is a panic. -/
def UwuifySentence (U : UnicodeTables) (u : Uwuifier) (sentence : Str) : Option Str :=
  (UwuifyExclamations u (UwuifyWords u sentence)).bind (UwuifySpaces U u)

/-! ## The generator as the specification words it -/

/-- Rotation of a 32-bit word to the left by `k` bits: the bits that leave at the top
come back at the bottom. -/
def rotl32 (x k : Nat) : Nat := (x * 2 ^ k) % 2 ^ 32 + x / 2 ^ (32 - k)

/-- The absorbing step of the specification, `h <- rotl32(((h XOR byte) * 3432918353) mod 2^32, 13)`. -/
def specAbsorb (h : Nat) (b : Fin 256) : Nat :=
  rotl32 (((h ^^^ b.val) * 3432918353) % 2 ^ 32) 13

/-- The finalising mix of the specification. -/
def specMix (h : Nat) : Nat :=
  let h1 := ((h ^^^ (h >>> 16)) * 2246822507) % 2 ^ 32
  let h2 := ((h1 ^^^ (h1 >>> 13)) * 3266489909) % 2 ^ 32
  h2 ^^^ (h2 >>> 16)

/-- The state the specification defines for a seed string. -/
def specNewSeed (s : Str) : Seed :=
  let h := s.foldl specAbsorb (1779033703 ^^^ (s.length % 2 ^ 32))
  let a := specMix h
  let b := specMix a
  let c := specMix b
  let d := specMix c
  { a := a, b := b, c := c, d := d }

/-- The word `t` of a draw as the specification gives it. -/
def specT (s : Seed) : Nat := (s.a + s.b + s.d + 1) % 2 ^ 32

/-- The state after a draw as the specification gives it. -/
def specNext (s : Seed) : Seed :=
  { a := s.b ^^^ (s.b >>> 9)
    b := (s.c + s.c <<< 3) % 2 ^ 32
    c := (rotl32 s.c 21 + specT s) % 2 ^ 32
    d := (s.d + 1) % 2 ^ 32 }

/-- The four words of a state are `uint32` values. -/
def Seed.Valid (s : Seed) : Prop := s.a < 2 ^ 32 ∧ s.b < 2 ^ 32 ∧ s.c < 2 ^ 32 ∧ s.d < 2 ^ 32

/-! ## Call sequences on a generator -/

/-- One call of a public method of `Seed`, with its arguments. -/
inductive Call where
  | random (min max : ℚ)
  | randomInt (min max : Int)
deriving DecidableEq

/-- What a call returns: the value and the error of `Random` or of `RandomInt`. -/
inductive Outcome where
  | float (r : Res ℚ)
  | int (r : Res Int)
deriving DecidableEq

/-- One call on a generator: what it returns and the state it leaves. -/
def Seed.call (s : Seed) : Call → Outcome × Seed
  | .random min max => (.float (Random s min max).1, (Random s min max).2)
  | .randomInt min max => (.int (RandomInt s min max).1, (RandomInt s min max).2)

/-- A sequence of calls made on two generators in step, as `TestSeedDeterminism` does:
each call goes to the first generator and then to the second, and the two results are
paired. -/
def lockstep : Seed → Seed → List Call → List (Outcome × Outcome)
  | _, _, [] => []
  | g1, g2, c :: cs => ((g1.call c).1, (g2.call c).1) :: lockstep (g1.call c).2 (g2.call c).2 cs

/-! ## The word pass as the specification words it -/

/-- Global substitution: the leftmost match is replaced by its expansion and the search
goes on right after the match, so the matches replaced do not overlap. -/
def specReplaceAll (p : Pattern) (expand : Str → Str) (s : Str) : Str :=
  match s with
  | [] => []
  | b :: rest =>
    if p ≠ [] ∧ matchesAt p (b :: rest) then
      expand ((b :: rest).take p.length) ++ specReplaceAll p expand ((b :: rest).drop p.length)
    else b :: specReplaceAll p expand rest
termination_by s.length
decreasing_by
  all_goals simp_wf
  · rename_i h
    have : 0 < p.length := List.length_pos.mpr h.1
    omega

/-- The six substitutions in lexicon order, each on the output of the one before:
`ove -> uv`, `[rl] -> w`, `[RL] -> W`, `n` + lower-case vowel `-> ny` + vowel,
`N` + lower-case vowel `-> Ny` + vowel, `N` + upper-case vowel `-> NY` + vowel. -/
def specUwuifyWord (w : Str) : Str :=
  let w1 := specReplaceAll [str "o", str "v", str "e"] (fun _ => str "uv") w
  let w2 := specReplaceAll [str "rl"] (fun _ => str "w") w1
  let w3 := specReplaceAll [str "RL"] (fun _ => str "W") w2
  let w4 := specReplaceAll [str "n", str "aeiou"] (fun m => str "ny" ++ m.drop 1) w3
  let w5 := specReplaceAll [str "N", str "aeiou"] (fun m => str "Ny" ++ m.drop 1) w4
  specReplaceAll [str "N", str "AEIOU"] (fun m => str "NY" ++ m.drop 1) w5

/-! ## The configuration and the word pass as the specification words them -/

/-- The threshold `faceThreshold` of `UwuifySpaces`. -/
def faceThreshold (m : SpacesModifier) : Float64 := m.Faces

/-- The threshold `actionThreshold` of `UwuifySpaces`. -/
def actionThreshold (m : SpacesModifier) : Float64 := m.Actions + faceThreshold m

/-- The threshold `stutterThreshold` of `UwuifySpaces`. -/
def stutterThreshold (m : SpacesModifier) : Float64 := m.Stutters + actionThreshold m

/-- The state of a generator after `k` draws. -/
def afterDraws (g : Seed) (k : Nat) : Seed := Nat.iterate (fun s => (sfc32 s).2) k g

/-- The draw number `k + 1` of a generator (`nthDraw g 0` is its first draw). -/
def nthDraw (g : Seed) (k : Nat) : ℚ := (sfc32 (afterDraws g k)).1

/-- The gated fold of the word pass: the rules in order, rule number `k + 1` applied
globally to the current text if and only if draw number `k + 1` of the generator `g`
is at most `p`. -/
def specGatedRules (p : Float64) (g : Seed) : Nat → List UwuReplacement → Str → Str
  | _, [], text => text
  | k, rule :: rules, text =>
    specGatedRules p g (k + 1) rules
      (if Float64.num (nthDraw g k) ≤ p then specReplaceAll rule.Pattern rule.Replacement text else text)

/-! ## The URI check as the specification words it -/

/-- Well-formed percent-escapes: every `%` is immediately followed by two hexadecimal
digits. -/
def wellFormedEscapes : Str → Bool
  | [] => true
  | b :: rest =>
    (decide (b ≠ 37) ||
      (match rest with
       | h1 :: h2 :: _ => isHexDigit h1 && isHexDigit h2
       | _ => false)) && wellFormedEscapes rest

/-- The components of the generic parse; a component that is absent is `none`. -/
structure URIParts where
  scheme : Option Str
  authority : Option Str
  path : Str

/-- The generic parse: the scheme is the text before the first `:` if that text is not
empty and has no `/`, `?`, `#`; the authority is the text after a following `//` up to
the next `/`, `?`, `#`; the path is the remainder up to `?` or `#`. -/
def specParse (w : Str) : URIParts :=
  let pre := w.takeWhile (fun b => decide (b ≠ 58))
  let schemeOk := decide (pre.length < w.length) && decide (pre ≠ []) &&
    pre.all (fun b => !decide (b ∈ str "/?#"))
  let rest := if schemeOk then w.drop (pre.length + 1) else w
  let hasSlashes := HasPrefix rest (str "//")
  let auth := (rest.drop 2).takeWhile (fun b => !decide (b ∈ str "/?#"))
  let rest2 := if hasSlashes then (rest.drop 2).drop auth.length else rest
  { scheme := if schemeOk then some pre else none
    authority := if hasSlashes then some auth else none
    path := rest2.takeWhile (fun b => !decide (b ∈ str "?#")) }

/-- The shape `[A-Za-z][A-Za-z0-9+.-]*`. -/
def specSchemeShape (scheme : Str) : Bool :=
  match scheme with
  | [] => false
  | b :: rest =>
    isAsciiLetter b &&
      rest.all (fun c => isAsciiLetter c || decide (48 ≤ c.val ∧ c.val ≤ 57) || decide (c ∈ str "+.-"))

/-- Acceptance as the claim words it: a non-empty scheme of the right shape; if an
authority is present the path is empty or begins with `/`; if none is present the path
does not begin with `//`. -/
def specAcceptAsClaimed (w : Str) : Bool :=
  match (specParse w).scheme with
  | none => false
  | some scheme =>
    decide (scheme ≠ []) && specSchemeShape scheme &&
      (match (specParse w).authority with
       | some _ => decide ((specParse w).path = []) || HasPrefix (specParse w).path (str "/")
       | none => !HasPrefix (specParse w).path (str "//"))

/-- Acceptance with an empty authority counted as none: a non-empty scheme of the right
shape; if the authority is present and its text is not empty the path is empty or
begins with `/`; if the authority is absent or empty the path does not begin with
`//`. -/
def specAccept (w : Str) : Bool :=
  match (specParse w).scheme with
  | none => false
  | some scheme =>
    decide (scheme ≠ []) && specSchemeShape scheme &&
      (match (specParse w).authority with
       | some (_ :: _) => decide ((specParse w).path = []) || HasPrefix (specParse w).path (str "/")
       | _ => !HasPrefix (specParse w).path (str "//"))

/-! ## The exclamation pass as the specification words it -/

/-- The Unicode tables of the Go library on `U+0080 .. U+00FF` (Latin-1): the letters,
the upper-case letters and the simple case mappings. Above `U+00FF` this instance has
no letter and no case mapping, so it stands for the library on the texts whose runes
all lie below `U+0100`. -/
def latin1Tables : UnicodeTables :=
  { isLetter := fun r => decide (r = 0xAA ∨ r = 0xB5 ∨ r = 0xBA ∨ (0xC0 ≤ r ∧ r ≤ 0xD6) ∨
      (0xD8 ≤ r ∧ r ≤ 0xF6) ∨ (0xF8 ≤ r ∧ r ≤ 0xFF))
    isUpper := fun r => decide ((0xC0 ≤ r ∧ r ≤ 0xD6) ∨ (0xD8 ≤ r ∧ r ≤ 0xDE))
    toUpper := fun r =>
      if (0xE0 ≤ r ∧ r ≤ 0xF6) ∨ (0xF8 ≤ r ∧ r ≤ 0xFE) then r - 32
      else if r = 0xB5 then 0x39C
      else if r = 0xFF then 0x178
      else r
    toLower := fun r =>
      if (0xC0 ≤ r ∧ r ≤ 0xD6) ∨ (0xD8 ≤ r ∧ r ≤ 0xDE) then r + 32 else r }

/-- Whether the first draw of the generator seeded with the word lies above the three
thresholds of the space pass. -/
def drawAbove (u : Uwuifier) (word : Str) : Bool :=
  decide (faceThreshold u.spacesModifier < Float64.num (Random (NewSeed word) 0 1).1.val ∧
    actionThreshold u.spacesModifier < Float64.num (Random (NewSeed word) 0 1).1.val ∧
    stutterThreshold u.spacesModifier < Float64.num (Random (NewSeed word) 0 1).1.val)

/-! ## The space pass on the slice it rewrites, with every index checked -/

/-- Go byte indexing `s[i]` by an `int`; `none` is the run-time panic of an index out
of range. -/
def byteAt (s : Str) (i : Int) : Option (Fin 256) :=
  if 0 ≤ i then s.get? i.toNat else none

/-- Go slicing `s[i:]`; `none` is the run-time panic of slice bounds out of range. -/
def sliceFrom (s : Str) (i : Nat) : Option Str :=
  if i ≤ s.length then some (s.drop i) else none

/-- The assignment `word = strings.ToLower(firstChar) + word[1:]` of `checkCapital`. -/
def lowerFirst (U : UnicodeTables) (firstChar : Nat) (word : Str) : Option Str :=
  match sliceFrom word 1 with
  | none => none
  | some tail => some (utf8Encode (ToLower U firstChar) ++ tail)

/-- The closure `checkCapital` as the source writes it, reading the slice `words` at the
loop index `i`: `word[1:]`, `words[i-1]` and `prevWord[len(prevWord)-1]` are checked
accesses. -/
def checkCapitalInPlace (U : UnicodeTables) (words : List Str) (i : Nat) (firstChar : Nat)
    (word : Str) : Option Str :=
  if utf8Encode firstChar ≠ utf8Encode (ToUpper U firstChar) then some word
  else if getCapitalPercentage U word > 1 / 2 then some word
  else if i = 0 then lowerFirst U firstChar word
  else
    match index words ((i : Int) - 1) with
    | none => none
    | some prevWord =>
      if prevWord.length > 0 then
        match byteAt prevWord ((prevWord.length : Int) - 1) with
        | none => none
        | some lastChar =>
          if lastChar ∈ str ".!?-" then lowerFirst U firstChar word else some word
      else some word

/-- One turn of the loop of `UwuifySpaces` at index `i`: the slice `words` after the
turn, `words[i] = word` being written in place; `none` is a panic. -/
def uwuifySpaceWordInPlace (U : UnicodeTables) (u : Uwuifier) (words : List Str) (i : Nat) :
    Option (List Str) :=
  match index words (i : Int) with
  | none => none
  | some word =>
    if word = [] then some words
    else
      match byteAt word 0 with
      | none => none
      | some b0 =>
        let faceThreshold := u.spacesModifier.Faces
        let actionThreshold := u.spacesModifier.Actions + faceThreshold
        let stutterThreshold := u.spacesModifier.Stutters + actionThreshold
        let r := Random (NewSeed word) 0 1
        let firstChar := b0.val
        let stored : Option Str :=
          if Float64.num r.1.val ≤ faceThreshold ∧ u.Faces.length > 0 ∧ isBreak word = false then
            let faceIdx := (RandomInt r.2 0 ((u.Faces.length : Int) - 1)).1.val
            match index u.Faces faceIdx with
            | none => none
            | some face => checkCapitalInPlace U words i firstChar (word ++ 32 :: face)
          else if Float64.num r.1.val ≤ actionThreshold ∧ u.Actions.length > 0 ∧ isBreak word = false then
            let actionIdx := (RandomInt r.2 0 ((u.Actions.length : Int) - 1)).1.val
            match index u.Actions actionIdx with
            | none => none
            | some action => checkCapitalInPlace U words i firstChar (word ++ 32 :: action)
          else if Float64.num r.1.val ≤ stutterThreshold ∧ isURI word = false ∧ isBreak word = false then
            let stutterCount := (RandomInt r.2 0 2).1.val
            if stutterCount < 0 then none
            else some (Repeat (utf8Encode firstChar ++ str "-") stutterCount.toNat ++ word)
          else some word
        match stored with
        | none => none
        | some w => some (words.set i w)

/-- The loop `for i, word := range words` of `UwuifySpaces`: `n` turns from index `i`. -/
def uwuifySpacesInPlaceLoop (U : UnicodeTables) (u : Uwuifier) :
    Nat → Nat → List Str → Option (List Str)
  | 0, _, words => some words
  | n + 1, i, words =>
    match uwuifySpaceWordInPlace U u words i with
    | none => none
    | some words1 => uwuifySpacesInPlaceLoop U u n (i + 1) words1

/-- The method `UwuifySpaces` on the slice it rewrites; `none` is a panic. -/
def UwuifySpacesInPlace (U : UnicodeTables) (u : Uwuifier) (sentence : Str) : Option Str :=
  (uwuifySpacesInPlaceLoop U u (Split sentence).length 0 (Split sentence)).map Join

/-! ## The passes with their generator calls logged -/

/-- The error a call returned. -/
def Outcome.err : Outcome → Option RangeError
  | .float r => r.err
  | .int r => r.err

/-- Whether a call is made with `min < max`. -/
def Call.minBelowMax : Call → Bool
  | .random min max => decide (min < max)
  | .randomInt min max => decide (min < max)

/-- The inner loop of `UwuifyWords` with each call on the generator logged: the word it
leaves, and the calls with what they returned, in order. -/
def uwuifyWordRulesLogged (wordsModifier : Float64) :
    List UwuReplacement → Seed → Str → Str × List (Call × Outcome)
  | [], _, word => (word, [])
  | replacement :: rules, seed, word =>
    let r := Random seed 0 1
    let t :=
      if Float64.num r.1.val > wordsModifier then
        uwuifyWordRulesLogged wordsModifier rules r.2 word
      else
        uwuifyWordRulesLogged wordsModifier rules r.2
          (ReplaceAllString replacement.Pattern replacement.Replacement word)
    (t.1, (Call.random 0 1, Outcome.float r.1) :: t.2)

/-- The body of the loop of `UwuifyWords` for one word, with the calls logged. -/
def uwuifyWordLogged (u : Uwuifier) (word : Str) : Str × List (Call × Outcome) :=
  if isAt word || isURI word then (word, [])
  else uwuifyWordRulesLogged u.wordsModifier u.uwuMap (NewSeed word) word

/-- The body of the loop of `UwuifyExclamations` for one word, with the calls logged. -/
def uwuifyExclamationWordLogged (u : Uwuifier) (word : Str) :
    Option Str × List (Call × Outcome) :=
  let r := Random (NewSeed word) 0 1
  if !exclamationMatch word || decide (Float64.num r.1.val > u.exclamationsModifier) || isBreak word then
    (some word, [(Call.random 0 1, Outcome.float r.1)])
  else
    let ri := RandomInt r.2 0 ((u.Exclamations.length : Int) - 1)
    let exclamationIdx := ri.1.val
    let log := [(Call.random 0 1, Outcome.float r.1),
      (Call.randomInt 0 ((u.Exclamations.length : Int) - 1), Outcome.int ri.1)]
    match index u.Exclamations exclamationIdx with
    | none => (none, log)
    | some e => (some (exclamationStrip word ++ e), log)

/-- The body of the loop of `UwuifySpaces` for one word, with the calls logged. -/
def uwuifySpaceWordLogged (U : UnicodeTables) (u : Uwuifier) (first : Bool) (prevWord : Str)
    (word : Str) : Option Str × List (Call × Outcome) :=
  match word with
  | [] => (some word, [])
  | b0 :: _ =>
    let faceThreshold := u.spacesModifier.Faces
    let actionThreshold := u.spacesModifier.Actions + faceThreshold
    let stutterThreshold := u.spacesModifier.Stutters + actionThreshold
    let r := Random (NewSeed word) 0 1
    let firstChar := b0.val
    if Float64.num r.1.val ≤ faceThreshold ∧ u.Faces.length > 0 ∧ isBreak word = false then
      let ri := RandomInt r.2 0 ((u.Faces.length : Int) - 1)
      let log := [(Call.random 0 1, Outcome.float r.1),
        (Call.randomInt 0 ((u.Faces.length : Int) - 1), Outcome.int ri.1)]
      match index u.Faces ri.1.val with
      | none => (none, log)
      | some face => (some (checkCapital U first prevWord firstChar (word ++ 32 :: face)), log)
    else if Float64.num r.1.val ≤ actionThreshold ∧ u.Actions.length > 0 ∧ isBreak word = false then
      let ri := RandomInt r.2 0 ((u.Actions.length : Int) - 1)
      let log := [(Call.random 0 1, Outcome.float r.1),
        (Call.randomInt 0 ((u.Actions.length : Int) - 1), Outcome.int ri.1)]
      match index u.Actions ri.1.val with
      | none => (none, log)
      | some action =>
        (some (checkCapital U first prevWord firstChar (word ++ 32 :: action)), log)
    else if Float64.num r.1.val ≤ stutterThreshold ∧ isURI word = false ∧ isBreak word = false then
      let ri := RandomInt r.2 0 2
      let stutterCount := ri.1.val
      let log := [(Call.random 0 1, Outcome.float r.1), (Call.randomInt 0 2, Outcome.int ri.1)]
      if stutterCount < 0 then (none, log)
      else (some (Repeat (utf8Encode firstChar ++ str "-") stutterCount.toNat ++ word), log)
    else (some word, [(Call.random 0 1, Outcome.float r.1)])

/-! ## The arithmetic of the generator in float64 -/

/-- Go `-a` on `float64`. -/
def Float64.neg : Float64 → Float64
  | .num q => .num (-q)
  | .inf negative => .inf (!negative)
  | .nan => .nan

/-- Go `a - b` on `float64`. -/
def Float64.sub (a b : Float64) : Float64 := a + Float64.neg b

/-- Go `a * b` on `float64`: the exact product rounded to the nearest `float64`. -/
def Float64.mul : Float64 → Float64 → Float64
  | .num a, .num b => round64 (a * b)
  | .num a, .inf negative => if a = 0 then .nan else .inf (negative != decide (a < 0))
  | .inf negative, .num b => if b = 0 then .nan else .inf (negative != decide (b < 0))
  | .inf n1, .inf n2 => .inf (n1 != n2)
  | _, _ => .nan

/-- The method `denormalize` with each operation rounded to `float64`, as the machine
computes `value*(max-min) + min`. -/
def denormalizeFloat64 (value min max : Float64) : Float64 :=
  Float64.mul value (Float64.sub max min) + min

/-! ## Theorems -/

/-! ### float64 comparisons -/

theorem Float64.num_lt_num (a b : ℚ) : Float64.num a < Float64.num b ↔ a < b := by
  show Float64.lt (.num a) (.num b) = true ↔ _
  simp [Float64.lt]

theorem Float64.num_le_num (a b : ℚ) : Float64.num a ≤ Float64.num b ↔ a ≤ b := by
  show Float64.le (.num a) (.num b) = true ↔ _
  simp [Float64.le]

theorem Float64.one_eq : (1 : Float64) = Float64.num 1 := by
  show Float64.num ((1 : ℕ) : ℚ) = _
  rw [Nat.cast_one]

theorem Float64.zero_eq : (0 : Float64) = Float64.num 0 := by
  show Float64.num ((0 : ℕ) : ℚ) = _
  rw [Nat.cast_zero]

/-- Go `a < b` excludes `b <= a`. -/
theorem Float64.not_le_of_lt (a b : Float64) (h : a < b) : ¬ b ≤ a := by
  have h1 : Float64.lt a b = true := h
  show ¬ Float64.le b a = true
  cases a <;> cases b <;> simp_all [Float64.lt, Float64.le]

/-- Against a modifier that is not NaN, `draw <= p` is the negation of `draw > p`. -/
theorem Float64.le_iff_not_gt (x : ℚ) (p : Float64) (hp : p ≠ Float64.nan) :
    Float64.num x ≤ p ↔ ¬ (Float64.num x > p) := by
  show Float64.le (.num x) p = true ↔ ¬ Float64.lt p (.num x) = true
  cases p with
  | num q => simp [Float64.lt, Float64.le]
  | inf negative => cases negative <;> simp [Float64.lt, Float64.le]
  | nan => exact absurd rfl hp

/-- Against NaN every comparison is false. -/
theorem Float64.nan_cmp (x : Float64) :
    ¬ (x < Float64.nan) ∧ ¬ (Float64.nan < x) ∧ ¬ (x ≤ Float64.nan) ∧ ¬ (Float64.nan ≤ x) := by
  cases x <;> exact ⟨Bool.false_ne_true, Bool.false_ne_true, Bool.false_ne_true,
    Bool.false_ne_true⟩

/-! ### Rounding to float64 -/

theorem two_zpow_pos (z : Int) : (0 : ℚ) < 2 ^ z := zpow_pos (by norm_num) z

theorem log2Up_spec : ∀ (fuel : Nat) (x : ℚ), 1 ≤ x → x < 2 ^ fuel →
    (2 : ℚ) ^ (log2Up fuel x) ≤ x ∧ x < 2 ^ (log2Up fuel x + 1) := by
  intro fuel
  induction fuel with
  | zero =>
    intro x h1 h2
    rw [pow_zero] at h2
    linarith
  | succ fuel ih =>
    intro x h1 h2
    rw [log2Up]
    by_cases h : 2 ≤ x
    · rw [if_pos h]
      have h3 := ih (x / 2) (by linarith) (by rw [pow_succ] at h2; linarith)
      have e1 : (2 : ℚ) ^ (log2Up fuel (x / 2) + 1) = 2 ^ log2Up fuel (x / 2) * 2 :=
        zpow_add_one₀ (by norm_num) _
      have e2 : (2 : ℚ) ^ (log2Up fuel (x / 2) + 1 + 1) =
          2 ^ (log2Up fuel (x / 2) + 1) * 2 := zpow_add_one₀ (by norm_num) _
      constructor
      · linarith [h3.1]
      · linarith [h3.2]
    · rw [if_neg h]
      norm_num
      exact ⟨h1, lt_of_not_le h⟩

theorem log2Down_spec : ∀ (fuel : Nat) (x : ℚ), 0 < x → x < 2 → 1 ≤ x * 2 ^ fuel →
    (2 : ℚ) ^ (log2Down fuel x) ≤ x ∧ x < 2 ^ (log2Down fuel x + 1) := by
  intro fuel
  induction fuel with
  | zero =>
    intro x h0 h2 h1
    rw [pow_zero, mul_one] at h1
    rw [log2Down]
    norm_num
    exact ⟨h1, h2⟩
  | succ fuel ih =>
    intro x h0 h2 h1
    rw [log2Down]
    by_cases h : x < 1
    · rw [if_pos h]
      have h3 := ih (x * 2) (by linarith) (by linarith)
        (by rw [pow_succ] at h1; linarith)
      rw [sub_add_cancel, zpow_sub_one₀ (by norm_num)]
      rw [zpow_add_one₀ (by norm_num)] at h3
      constructor
      · have := h3.1
        have h4 : (2 : ℚ) ^ log2Down fuel (x * 2) * 2⁻¹ ≤ x * 2 * 2⁻¹ :=
          mul_le_mul_of_nonneg_right this (by norm_num)
        rw [mul_assoc x, mul_inv_cancel₀ (by norm_num), mul_one] at h4
        exact h4
      · linarith [h3.2]
    · rw [if_neg h]
      norm_num
      exact ⟨le_of_not_lt h, h2⟩

/-- The exponent `floorLog2 x` is the one with `2^L ≤ x < 2^(L+1)`. -/
theorem floorLog2_spec (x : ℚ) (hx : 0 < x) :
    (2 : ℚ) ^ floorLog2 x ≤ x ∧ x < 2 ^ (floorLog2 x + 1) := by
  have hnum : 0 < x.num := Rat.num_pos.mpr hx
  have hden : (0 : ℚ) < x.den := by exact_mod_cast x.den_pos
  have hxe : x * x.den = x.num := Rat.mul_den_eq_num x
  unfold floorLog2
  by_cases h1 : 1 ≤ x
  · rw [if_pos h1]
    apply log2Up_spec _ _ h1
    have h2 : x ≤ (x.num.natAbs : ℚ) := by
      have : ((x.num.natAbs : Int) : ℚ) = (x.num : ℚ) := by
        rw [Int.natAbs_of_nonneg hnum.le]
      rw [← Int.cast_natCast, this]
      have hd1 : (1 : ℚ) ≤ x.den := by exact_mod_cast x.den_pos
      nlinarith
    have h3 : (x.num.natAbs : ℚ) < 2 ^ x.num.natAbs := by
      exact_mod_cast Nat.lt_two_pow x.num.natAbs
    linarith
  · rw [if_neg h1]
    apply log2Down_spec _ _ hx (by linarith)
    have h2 : (x.den : ℚ) < 2 ^ x.den := by exact_mod_cast Nat.lt_two_pow x.den
    have h3 : (1 : ℚ) ≤ x.num := by exact_mod_cast hnum
    have hx0 : 0 ≤ x := hx.le
    nlinarith

theorem floorLog2_unique (x : ℚ) (hx : 0 < x) (k : Int) (h1 : (2 : ℚ) ^ k ≤ x)
    (h2 : x < 2 ^ (k + 1)) : floorLog2 x = k := by
  have hs := floorLog2_spec x hx
  have a1 : (2 : ℚ) ^ floorLog2 x < 2 ^ (k + 1) := lt_of_le_of_lt hs.1 h2
  have a2 : (2 : ℚ) ^ k < 2 ^ (floorLog2 x + 1) := lt_of_le_of_lt h1 hs.2
  rw [zpow_lt_zpow_iff_right₀ (by norm_num)] at a1 a2
  omega

theorem floorLog2_mono (x y : ℚ) (hx : 0 < x) (h : x ≤ y) : floorLog2 x ≤ floorLog2 y := by
  have hs := floorLog2_spec x hx
  have ht := floorLog2_spec y (lt_of_lt_of_le hx h)
  have a1 : (2 : ℚ) ^ floorLog2 x < 2 ^ (floorLog2 y + 1) :=
    lt_of_le_of_lt hs.1 (lt_of_le_of_lt h ht.2)
  rw [zpow_lt_zpow_iff_right₀ (by norm_num)] at a1
  omega

theorem roundHalfEven_int (n : Int) : roundHalfEven (n : ℚ) = n := by
  unfold roundHalfEven
  rw [Int.floor_intCast, sub_self, if_pos (by norm_num)]

theorem roundHalfEven_bounds (x : ℚ) : ⌊x⌋ ≤ roundHalfEven x ∧ roundHalfEven x ≤ ⌊x⌋ + 1 := by
  unfold roundHalfEven
  split
  · omega
  · split
    · omega
    · split <;> omega

theorem roundHalfEven_mono (x y : ℚ) (h : x ≤ y) : roundHalfEven x ≤ roundHalfEven y := by
  have hf : ⌊x⌋ ≤ ⌊y⌋ := Int.floor_mono h
  have bx := roundHalfEven_bounds x
  have bY := roundHalfEven_bounds y
  by_cases he : ⌊x⌋ = ⌊y⌋
  · unfold roundHalfEven
    rw [← he]
    have hxy : x - ⌊x⌋ ≤ y - ⌊x⌋ := by linarith
    by_cases h1 : x - ⌊x⌋ < 1 / 2
    · rw [if_pos h1]
      split
      · exact le_refl _
      · split
        · omega
        · split <;> omega
    · rw [if_neg h1]
      have h1y : ¬ y - (⌊x⌋ : ℚ) < 1 / 2 := by linarith
      rw [if_neg h1y]
      by_cases h2 : 1 / 2 < x - ⌊x⌋
      · rw [if_pos h2, if_pos (by linarith)]
      · rw [if_neg h2]
        by_cases h3 : 1 / 2 < y - (⌊x⌋ : ℚ)
        · rw [if_pos h3]
          split <;> omega
        · rw [if_neg h3]
  · have : ⌊x⌋ + 1 ≤ ⌊y⌋ := by omega
    omega

theorem ulp_pos (x : ℚ) : 0 < ulp x := two_zpow_pos _

theorem ulpExponent_mono (x y : ℚ) (hx : 0 < x) (h : x ≤ y) :
    ulpExponent x ≤ ulpExponent y := by
  unfold ulpExponent
  have := floorLog2_mono x y hx h
  omega

theorem two_zpow_eq_cast (k : Int) (hk : 0 ≤ k) :
    (2 : ℚ) ^ k = (((2 ^ k.toNat : Nat) : Int) : ℚ) := by
  obtain ⟨n, rfl⟩ := Int.eq_ofNat_of_zero_le hk
  simp

theorem roundHalfEven_two_zpow (k : Int) (hk : 0 ≤ k) :
    (roundHalfEven ((2 : ℚ) ^ k) : ℚ) = 2 ^ k := by
  rw [two_zpow_eq_cast k hk, roundHalfEven_int]

/-- A multiple of the spacing by a power of two stays where it is. -/
theorem nearest_two_zpow (x : ℚ) (k : Int) (hk : ulpExponent x ≤ k) :
    (roundHalfEven ((2 : ℚ) ^ k / ulp x) : ℚ) * ulp x = 2 ^ k := by
  unfold ulp
  rw [← zpow_sub₀ (by norm_num), roundHalfEven_two_zpow _ (by omega),
    ← zpow_add₀ (by norm_num), sub_add_cancel]

theorem nearest_mono (x y : ℚ) (hx : 0 < x) (h : x ≤ y) : nearest x ≤ nearest y := by
  have hy : 0 < y := lt_of_lt_of_le hx h
  have he := ulpExponent_mono x y hx h
  rcases he.lt_or_eq with hlt | heq
  · -- the two lie in different binades: the power of two between them is fixed
    have hLy : ulpExponent y = floorLog2 y - 52 := by
      unfold ulpExponent at hlt ⊢
      omega
    have hLx : floorLog2 x < floorLog2 y := by
      unfold ulpExponent at hlt
      omega
    have hxB : x ≤ 2 ^ floorLog2 y := by
      have h1 := (floorLog2_spec x hx).2
      have h2 : (2 : ℚ) ^ (floorLog2 x + 1) ≤ 2 ^ floorLog2 y :=
        zpow_le_zpow_right₀ (by norm_num) (by omega)
      linarith
    have hBy : (2 : ℚ) ^ floorLog2 y ≤ y := (floorLog2_spec y hy).1
    have h1 : nearest x ≤ 2 ^ floorLog2 y := by
      rw [← nearest_two_zpow x (floorLog2 y) (by unfold ulpExponent at hlt ⊢; omega)]
      unfold nearest
      apply mul_le_mul_of_nonneg_right _ (ulp_pos x).le
      exact_mod_cast roundHalfEven_mono _ _ (div_le_div_of_nonneg_right hxB (ulp_pos x).le)
    have h2 : (2 : ℚ) ^ floorLog2 y ≤ nearest y := by
      rw [← nearest_two_zpow y (floorLog2 y) (by omega)]
      unfold nearest
      apply mul_le_mul_of_nonneg_right _ (ulp_pos y).le
      exact_mod_cast roundHalfEven_mono _ _ (div_le_div_of_nonneg_right hBy (ulp_pos y).le)
    linarith
  · unfold nearest ulp
    rw [heq]
    apply mul_le_mul_of_nonneg_right _ (two_zpow_pos _).le
    exact_mod_cast roundHalfEven_mono _ _ (div_le_div_of_nonneg_right h (two_zpow_pos _).le)

theorem nearest_nonneg (x : ℚ) (hx : 0 < x) : 0 ≤ nearest x := by
  unfold nearest
  apply mul_nonneg _ (ulp_pos x).le
  have h1 : (0 : ℚ) ≤ x / ulp x := (div_pos hx (ulp_pos x)).le
  have h2 := roundHalfEven_mono 0 _ h1
  have h3 : roundHalfEven 0 = 0 := by
    have := roundHalfEven_int 0
    simpa using this
  rw [h3] at h2
  exact_mod_cast h2

theorem floorLog2_two_zpow (k : Int) : floorLog2 ((2 : ℚ) ^ k) = k :=
  floorLog2_unique _ (two_zpow_pos k) k (le_refl _)
    (zpow_lt_zpow_right₀ (by norm_num) (by omega))

/-- A power of two from `2^-1074` on is a `float64` value. -/
theorem nearest_pow (k : Int) (hk : -1074 ≤ k) : nearest ((2 : ℚ) ^ k) = 2 ^ k := by
  unfold nearest
  apply nearest_two_zpow
  unfold ulpExponent
  rw [floorLog2_two_zpow]
  omega

theorem nearest_same_exponent (x : ℚ) (h : ulpExponent (nearest x) = ulpExponent x) :
    nearest (nearest x) = nearest x := by
  have hu : ulp (nearest x) = ulp x := by unfold ulp; rw [h]
  have hq : nearest x / ulp x = ((roundHalfEven (x / ulp x) : Int) : ℚ) := by
    unfold nearest
    rw [mul_div_cancel_right₀ _ (ulp_pos x).ne']
  have h1 : nearest (nearest x) =
      (roundHalfEven (nearest x / ulp (nearest x)) : ℚ) * ulp (nearest x) := rfl
  rw [h1, hu, hq, roundHalfEven_int]
  rfl

/-- Rounding a rounded value changes nothing. -/
theorem nearest_idem (x : ℚ) (hx : 0 < x) (hr : 0 < nearest x) :
    nearest (nearest x) = nearest x := by
  have hs := floorLog2_spec x hx
  by_cases hn : -1074 ≤ floorLog2 x - 52
  · -- the normal range
    have he : ulpExponent x = floorLog2 x - 52 := by unfold ulpExponent; omega
    have hlo : (2 : ℚ) ^ floorLog2 x ≤ nearest x := by
      rw [← nearest_pow (floorLog2 x) (by omega)]
      exact nearest_mono _ _ (two_zpow_pos _) hs.1
    have hhi : nearest x ≤ 2 ^ (floorLog2 x + 1) := by
      rw [← nearest_pow (floorLog2 x + 1) (by omega)]
      exact nearest_mono _ _ hx hs.2.le
    rcases hhi.lt_or_eq with hlt | heq
    · apply nearest_same_exponent
      unfold ulpExponent
      rw [floorLog2_unique _ hr _ hlo hlt]
    · rw [heq]
      exact nearest_pow _ (by omega)
  · -- the subnormal range
    have he : ulpExponent x = -1074 := by unfold ulpExponent; omega
    have hx2 : x ≤ 2 ^ (-1022 : Int) := by
      have : (2 : ℚ) ^ (floorLog2 x + 1) ≤ 2 ^ (-1022 : Int) :=
        zpow_le_zpow_right₀ (by norm_num) (by omega)
      linarith [hs.2]
    have hhi : nearest x ≤ 2 ^ (-1022 : Int) := by
      rw [← nearest_pow (-1022) (by norm_num)]
      exact nearest_mono _ _ hx hx2
    have hl : floorLog2 (nearest x) ≤ -1022 := by
      have := floorLog2_mono _ _ hr hhi
      rwa [floorLog2_two_zpow] at this
    apply nearest_same_exponent
    rw [he]
    unfold ulpExponent
    omega

/-! ### Rounded sums -/

theorem round64_pos (q : ℚ) (hq : 0 < q) :
    round64 q = if 2 ^ 1024 ≤ nearest q then .inf false else .num (nearest q) := by
  unfold round64
  rw [if_neg hq.ne', abs_of_pos hq]
  have h : ¬ q < 0 := not_lt.mpr hq.le
  simp [h]

theorem round64_zero : round64 0 = Float64.num 0 := by
  unfold round64
  rw [if_pos rfl]

/-- Rounding keeps the order of non-negative numbers. -/
theorem round64_mono (x y : ℚ) (hx : 0 ≤ x) (h : x ≤ y) : round64 x ≤ round64 y := by
  show Float64.le (round64 x) (round64 y) = true
  rcases hx.lt_or_eq with hx0 | hx0
  · have hy0 : 0 < y := lt_of_lt_of_le hx0 h
    have hm := nearest_mono x y hx0 h
    rw [round64_pos x hx0, round64_pos y hy0]
    by_cases h1 : (2 : ℚ) ^ 1024 ≤ nearest x
    · rw [if_pos h1, if_pos (le_trans h1 hm)]
      rfl
    · rw [if_neg h1]
      by_cases h2 : (2 : ℚ) ^ 1024 ≤ nearest y
      · rw [if_pos h2]
        rfl
      · rw [if_neg h2]
        simpa [Float64.le] using hm
  · subst hx0
    rw [round64_zero]
    rcases h.lt_or_eq with hy0 | hy0
    · rw [round64_pos y hy0]
      by_cases h2 : (2 : ℚ) ^ 1024 ≤ nearest y
      · rw [if_pos h2]
        rfl
      · rw [if_neg h2]
        simpa [Float64.le] using nearest_nonneg y hy0
    · subst hy0
      rw [round64_zero]
      simp [Float64.le]

/-- What rounding returns is a `float64` value. -/
theorem round64_isValue (q : ℚ) (hq : 0 ≤ q) : (round64 q).IsValue := by
  rcases hq.lt_or_eq with hq0 | hq0
  · rw [round64_pos q hq0]
    by_cases h1 : (2 : ℚ) ^ 1024 ≤ nearest q
    · rw [if_pos h1]
      trivial
    · rw [if_neg h1]
      show round64 (nearest q) = Float64.num (nearest q)
      rcases (nearest_nonneg q hq0).lt_or_eq with hr | hr
      · rw [round64_pos _ hr, nearest_idem q hq0 hr, if_neg h1]
      · rw [← hr, round64_zero]
  · subst hq0
    rw [round64_zero]
    exact round64_zero

/-! ### 32-bit arithmetic -/

theorem toInt32_modEq (x : Nat) : toInt32 x ≡ (x : Int) [ZMOD 2 ^ 32] := by
  unfold toInt32
  split
  · exact Int.ModEq.refl _
  · have : ((x : Int) - 2 ^ 32) % 2 ^ 32 = (x : Int) % 2 ^ 32 := by
      rw [Int.sub_emod]; simp
    exact this

theorem wrapInt32_modEq (z : Int) : wrapInt32 z ≡ z [ZMOD 2 ^ 32] := by
  unfold wrapInt32 Int.ModEq
  omega

theorem imul32_eq (a b : Nat) : imul32 a b = (a * b) % 2 ^ 32 := by
  unfold imul32 ofInt32
  have h : wrapInt32 (toInt32 a * toInt32 b) % 2 ^ 32 = ((a * b : Nat) : Int) % 2 ^ 32 := by
    have h1 := (wrapInt32_modEq (toInt32 a * toInt32 b)).trans
      ((toInt32_modEq a).mul (toInt32_modEq b))
    simpa [Int.ModEq] using h1
  rw [h]
  have : (((a * b : Nat) : Int) % 2 ^ 32) = (((a * b) % 2 ^ 32 : Nat) : Int) := by
    push_cast; rfl
  rw [this, Int.toNat_ofNat]

theorem imul32_lt (a b : Nat) : imul32 a b < 2 ^ 32 := by
  rw [imul32_eq]; exact Nat.mod_lt _ (by norm_num)

/-- The Go idiom `(x << k) | (x >> (32 - k))` is the rotation, here for `k = 13`. -/
theorem rot13_eq (x : Nat) (hx : x < 2 ^ 32) : shl32 x 13 ||| (x >>> 19) = rotl32 x 13 := by
  unfold shl32 u32 rotl32
  rw [Nat.shiftLeft_eq, Nat.shiftRight_eq_div_pow]
  have h1 : x * 2 ^ 13 % 2 ^ 32 = 2 ^ 13 * (x % 2 ^ 19) := by omega
  have h2 : x / 2 ^ 19 < 2 ^ 13 := by omega
  rw [h1, ← Nat.mul_add_lt_is_or h2]

/-- The same for `k = 21`. -/
theorem rot21_eq (x : Nat) (hx : x < 2 ^ 32) : shl32 x 21 ||| (x >>> 11) = rotl32 x 21 := by
  unfold shl32 u32 rotl32
  rw [Nat.shiftLeft_eq, Nat.shiftRight_eq_div_pow]
  have h1 : x * 2 ^ 21 % 2 ^ 32 = 2 ^ 21 * (x % 2 ^ 11) := by omega
  have h2 : x / 2 ^ 11 < 2 ^ 21 := by omega
  rw [h1, ← Nat.mul_add_lt_is_or h2]

theorem absorb_eq (h : Nat) (b : Fin 256) : absorb h b = specAbsorb h b := by
  unfold absorb specAbsorb
  simp only []
  rw [rot13_eq _ (imul32_lt _ _), imul32_eq]

theorem xmur3Hash_eq (h : Nat) : xmur3Hash h = specMix h := by
  unfold xmur3Hash specMix
  simp only [imul32_eq]

theorem foldl_absorb_eq (s : Str) (h : Nat) : s.foldl absorb h = s.foldl specAbsorb h := by
  induction s generalizing h with
  | nil => rfl
  | cons b s ih => simp only [List.foldl_cons, absorb_eq, ih]

/-- C1. `NewSeed` builds exactly the state the specification defines (xmur3 absorbing
step per byte, then four chained finalising mixes), and `imul32` is the product
modulo `2^32`. -/
theorem C1_newSeed_is_xmur3 :
    (∀ s : Str, NewSeed s = specNewSeed s) ∧ (∀ x y : Nat, imul32 x y = (x * y) % 2 ^ 32) := by
  refine ⟨fun s => ?_, imul32_eq⟩
  unfold NewSeed initXmur3 specNewSeed xmur3Acc u32
  simp only [foldl_absorb_eq, xmur3Hash_eq]

/-! ### The draw -/

theorem sfc32T_eq (s : Seed) : sfc32T s = specT s := by
  unfold sfc32T specT add32 u32
  omega

theorem sfc32T_lt (s : Seed) : sfc32T s < 2 ^ 32 := by
  unfold sfc32T add32 u32
  exact Nat.mod_lt _ (by norm_num)

theorem sfc32Next_eq (s : Seed) (hc : s.c < 2 ^ 32) : sfc32Next s = specNext s := by
  have ht : add32 (add32 s.a s.b) (add32 s.d 1) = specT s := sfc32T_eq s
  unfold sfc32Next specNext
  simp only [ht, rot21_eq s.c hc]
  congr 1
  unfold add32 shl32 u32
  omega

theorem draw_nonneg (s : Seed) : 0 ≤ (sfc32 s).1 := by
  unfold sfc32
  positivity

theorem draw_lt_one (s : Seed) : (sfc32 s).1 < 1 := by
  unfold sfc32
  have h := sfc32T_lt s
  have h2 : ((sfc32T s : ℕ) : ℚ) < 4294967296 := by exact_mod_cast h
  simp only
  rw [div_lt_one (by norm_num)]
  exact h2

theorem Random_zero_one (s : Seed) : Random s 0 1 = (⟨(sfc32 s).1, none⟩, (sfc32 s).2) := by
  simp [Random, denormalize]

theorem xmur3Hash_lt (h : Nat) : xmur3Hash h < 2 ^ 32 := by
  unfold xmur3Hash
  simp only
  have h2 := imul32_lt (imul32 (h ^^^ h >>> 16) 2246822507 ^^^
    imul32 (h ^^^ h >>> 16) 2246822507 >>> 13) 3266489909
  refine Nat.xor_lt_two_pow h2 ?_
  rw [Nat.shiftRight_eq_div_pow]
  exact lt_of_le_of_lt (Nat.div_le_self _ _) h2

theorem NewSeed_valid (s : Str) : (NewSeed s).Valid :=
  ⟨xmur3Hash_lt _, xmur3Hash_lt _, xmur3Hash_lt _, xmur3Hash_lt _⟩

theorem sfc32Next_valid (s : Seed) (h : s.Valid) : (sfc32Next s).Valid := by
  refine ⟨?_, ?_, ?_, ?_⟩
  · show s.b ^^^ s.b >>> 9 < 2 ^ 32
    refine Nat.xor_lt_two_pow h.2.1 ?_
    rw [Nat.shiftRight_eq_div_pow]
    exact lt_of_le_of_lt (Nat.div_le_self _ _) h.2.1
  all_goals exact Nat.mod_lt _ (by norm_num)

/-- C2. On a state of four `uint32` words one draw returns `t / 2^32` with
`t = (a + b + d + 1) mod 2^32` and leaves the state the specification gives; every
draw, and every result of `Random(0, 1)`, lies in `[0, 1)`. -/
theorem C2_sfc32_draw (s : Seed) (h : s.Valid) :
    sfc32 s = ((specT s : ℚ) / 2 ^ 32, specNext s) ∧
    (0 ≤ (sfc32 s).1 ∧ (sfc32 s).1 < 1) ∧
    ((Random s 0 1).1.err = none ∧ 0 ≤ (Random s 0 1).1.val ∧ (Random s 0 1).1.val < 1) := by
  refine ⟨?_, ⟨draw_nonneg s, draw_lt_one s⟩, ?_⟩
  · unfold sfc32
    rw [sfc32T_eq, sfc32Next_eq s h.2.2.1]
    norm_num
  · rw [Random_zero_one]
    exact ⟨rfl, draw_nonneg s, draw_lt_one s⟩

theorem C2_sfc32_draw_witness :
    (NewSeed (str "test")).Valid ∧
    (sfc32 (NewSeed (str "test")) =
        ((specT (NewSeed (str "test")) : ℚ) / 2 ^ 32, specNext (NewSeed (str "test"))) ∧
      (0 ≤ (sfc32 (NewSeed (str "test"))).1 ∧ (sfc32 (NewSeed (str "test"))).1 < 1) ∧
      ((Random (NewSeed (str "test")) 0 1).1.err = none ∧
        0 ≤ (Random (NewSeed (str "test")) 0 1).1.val ∧
        (Random (NewSeed (str "test")) 0 1).1.val < 1)) :=
  ⟨NewSeed_valid _, C2_sfc32_draw (NewSeed (str "test")) (NewSeed_valid _)⟩

/-! ### Ranges -/

theorem float64OfInt_exact (n : Int) (h : n.natAbs ≤ 2 ^ 53) : float64OfInt n = (n : ℚ) := by
  unfold float64OfInt
  simp only
  split
  · rfl
  · have hn : n.natAbs = 2 ^ 53 := by omega
    have hl : bitLength 64 (2 ^ 53) = 54 := by decide
    rw [hn, hl]
    rcases Int.natAbs_eq n with h1 | h1
    · have : (0 : Int) ≤ n := by omega
      rw [if_pos this, h1, hn]
      norm_num
    · have : ¬ (0 : Int) ≤ n := by omega
      rw [if_neg this, h1, hn]
      norm_num

theorem denormalize_range (v min max : ℚ) (h0 : 0 ≤ v) (h1 : v < 1) (h : min < max) :
    min ≤ denormalize v min max ∧ denormalize v min max < max := by
  unfold denormalize
  constructor
  · nlinarith
  · nlinarith

theorem mathRound_range (x : ℚ) (lo hi : Int) (h1 : (lo : ℚ) ≤ x) (h2 : x ≤ (hi : ℚ)) :
    lo ≤ mathRound x ∧ mathRound x ≤ hi := by
  unfold mathRound
  split
  · constructor
    · rw [Int.le_floor]; linarith
    · have : ⌊x + 1 / 2⌋ < hi + 1 := by
        rw [Int.floor_lt]; push_cast; linarith
      omega
  · constructor
    · have : ⌊-x + 1 / 2⌋ < -lo + 1 := by
        rw [Int.floor_lt]; push_cast; linarith
      omega
    · have : -hi ≤ ⌊-x + 1 / 2⌋ := by
        rw [Int.le_floor]; push_cast; linarith
      omega

theorem Random_of_lt (s : Seed) (min max : ℚ) (h : min < max) :
    Random s min max = (⟨denormalize (sfc32 s).1 min max, none⟩, (sfc32 s).2) := by
  unfold Random
  rw [if_neg (not_lt.mpr h.le), if_neg h.ne]

theorem RandomInt_of_lt (s : Seed) (min max : Int) (h : min < max)
    (hf : float64OfInt min < float64OfInt max) :
    RandomInt s min max =
      (⟨mathRound (denormalize (sfc32 s).1 (float64OfInt min) (float64OfInt max)), none⟩,
        (sfc32 s).2) := by
  unfold RandomInt
  rw [if_neg (not_lt.mpr h.le), if_neg h.ne]
  simp [Random_of_lt s _ _ hf]

/-- With arithmetic taken as exact, `Random(min, max)` for `min < max` succeeds with a
value in `[min, max)`, and `RandomInt(min, max)` for integers `min < max` that `float64`
holds exactly succeeds with an integer in `[min, max]`. -/
theorem Random_RandomInt_in_range (s : Seed) :
    (∀ min max : ℚ, min < max →
      (Random s min max).1.err = none ∧
        min ≤ (Random s min max).1.val ∧ (Random s min max).1.val < max) ∧
    (∀ min max : Int, min < max → float64OfInt min = min → float64OfInt max = max →
      (RandomInt s min max).1.err = none ∧
        min ≤ (RandomInt s min max).1.val ∧ (RandomInt s min max).1.val ≤ max) := by
  constructor
  · intro min max h
    rw [Random_of_lt s min max h]
    exact ⟨rfl, denormalize_range _ _ _ (draw_nonneg s) (draw_lt_one s) h⟩
  · intro min max h e1 e2
    have hq : (min : ℚ) < (max : ℚ) := by exact_mod_cast h
    rw [RandomInt_of_lt s min max h (by rw [e1, e2]; exact hq), e1, e2]
    have hr := denormalize_range _ _ _ (draw_nonneg s) (draw_lt_one s) hq
    exact ⟨rfl, mathRound_range _ _ _ hr.1 hr.2.le⟩

/-- C3. `RandomInt(9007199254740993, 9007199254740995)` on the generator seeded with
"range_test" has `min < max` and returns `9007199254740992` with no error, an integer
below `min`: `float64(min)` is `2^53` and `float64(max)` is `2^53 + 4`, the draw is below
`1/8`, `draw * 4 + 2^53` computed in `float64` is `2^53`, and the exact value rounds to
that integer too.  On the same generator
`RandomInt(-9007199254740993, -9007199254740992)` has `min < max` and returns the error
"minimum value cannot equal maximum value".  The `Random` half of the claim holds, and
so does the `RandomInt` half for bounds of at most `2^53` in absolute value. -/
theorem C3_randomInt_leaves_range :
    ((9007199254740993 : Int) < 9007199254740995 ∧
      (RandomInt (NewSeed (str "range_test")) 9007199254740993 9007199254740995).1 =
        ⟨9007199254740992, none⟩ ∧
      (9007199254740992 : Int) < 9007199254740993) ∧
    (float64OfInt 9007199254740993 = 9007199254740992 ∧
      float64OfInt 9007199254740995 = 9007199254740996 ∧
      (sfc32 (NewSeed (str "range_test"))).1 < 1 / 8 ∧
      denormalizeFloat64 (Float64.num (sfc32 (NewSeed (str "range_test"))).1)
        (Float64.num 9007199254740992) (Float64.num 9007199254740996) =
          Float64.num 9007199254740992) ∧
    ((-9007199254740993 : Int) < -9007199254740992 ∧
      (RandomInt (NewSeed (str "range_test")) (-9007199254740993) (-9007199254740992)).1 =
        ⟨0, some RangeError.cannotEqual⟩) ∧
    (∀ (s : Seed) (min max : ℚ), min < max →
      (Random s min max).1.err = none ∧
        min ≤ (Random s min max).1.val ∧ (Random s min max).1.val < max) ∧
    (∀ (s : Seed) (min max : Int), min < max → min.natAbs ≤ 2 ^ 53 → max.natAbs ≤ 2 ^ 53 →
      (RandomInt s min max).1.err = none ∧
        min ≤ (RandomInt s min max).1.val ∧ (RandomInt s min max).1.val ≤ max) := by
  refine ⟨⟨by decide, by decide!, by decide⟩, ⟨by decide!, by decide!, by decide!, by decide!⟩,
    ⟨by decide, by decide!⟩, fun s => (Random_RandomInt_in_range s).1, ?_⟩
  intro s min max h h1 h2
  exact (Random_RandomInt_in_range s).2 min max h (float64OfInt_exact min h1)
    (float64OfInt_exact max h2)

/-! ### Errors -/

theorem Random_err_iff (s : Seed) (min max : ℚ) :
    (Random s min max).1.err ≠ none ↔ (min > max ∨ min = max) := by
  unfold Random
  by_cases h1 : min > max
  · simp [h1]
  · by_cases h2 : min = max
    · simp [h2]
    · simp [h1, h2]

/-- What `RandomInt` does: besides `min > max` and `min == max` it fails when the two
bounds convert to `float64` values that are not in increasing order. -/
theorem RandomInt_err_iff (s : Seed) (min max : Int) :
    (RandomInt s min max).1.err ≠ none ↔
      (min > max ∨ min = max ∨ float64OfInt max ≤ float64OfInt min) := by
  unfold RandomInt
  by_cases h1 : min > max
  · simp [h1]
  · by_cases h2 : min = max
    · simp [h2]
    · rw [if_neg h1, if_neg h2]
      have hr := Random_err_iff s (float64OfInt min) (float64OfInt max)
      by_cases h3 : (Random s (float64OfInt min) (float64OfInt max)).1.err ≠ none
      · have h4 := hr.mp h3
        rw [if_pos h3]
        constructor
        · intro _
          rcases h4 with h4 | h4
          · exact Or.inr (Or.inr h4.le)
          · exact Or.inr (Or.inr h4.ge)
        · intro _; exact h3
      · have h4 : ¬ (float64OfInt min > float64OfInt max ∨ float64OfInt min = float64OfInt max) :=
          fun h => h3 (hr.mpr h)
        rw [if_neg h3]
        push_neg at h4
        constructor
        · intro h; exact absurd rfl h
        · rintro (h | h | h)
          · exact absurd h h1
          · exact absurd h h2
          · exact absurd (le_antisymm h h4.1) (Ne.symm h4.2)

theorem float64OfInt_two_pow_53 : float64OfInt 9007199254740992 = 9007199254740992 := by
  decide!

theorem float64OfInt_two_pow_53_succ : float64OfInt 9007199254740993 = 9007199254740992 := by
  decide!

/-- C4. `Random` fails exactly when `min > max` or `min == max`.  `RandomInt` fails in
those cases and also when the two bounds convert to `float64` values that are not in
increasing order: `RandomInt(9007199254740992, 9007199254740993)` on the generator
seeded with "test" has `min < max`, yet returns the error "minimum value cannot equal
maximum value". -/
theorem C4_randomInt_error_on_distinct_bounds :
    (∀ (s : Seed) (min max : ℚ), (Random s min max).1.err ≠ none ↔ (min > max ∨ min = max)) ∧
    (∀ (s : Seed) (min max : Int), (RandomInt s min max).1.err ≠ none ↔
      (min > max ∨ min = max ∨ float64OfInt max ≤ float64OfInt min)) ∧
    (9007199254740992 : Int) < 9007199254740993 ∧
    (RandomInt (NewSeed (str "test")) 9007199254740992 9007199254740993).1.err =
      some RangeError.cannotEqual := by
  refine ⟨Random_err_iff, RandomInt_err_iff, by decide, ?_⟩
  unfold RandomInt
  simp [Random, float64OfInt_two_pow_53, float64OfInt_two_pow_53_succ]

/-- C5. On the same input `RandomInt` returns `0` with an error and leaves the state as
it was: no draw is consumed and no value of `Random` is rounded. -/
theorem C5_randomInt_no_draw_on_distinct_bounds :
    RandomInt (NewSeed (str "test")) 9007199254740992 9007199254740993 =
      (⟨0, some RangeError.cannotEqual⟩, NewSeed (str "test")) := by
  unfold RandomInt
  simp [Random, float64OfInt_two_pow_53, float64OfInt_two_pow_53_succ]

/-- `math.Round` sends the halfway cases away from zero. -/
theorem mathRound_half (k : Nat) :
    mathRound ((k : ℚ) + 1 / 2) = (k : Int) + 1 ∧ mathRound (-((k : ℚ) + 1 / 2)) = -((k : Int) + 1) := by
  unfold mathRound
  constructor
  · have h : (0 : ℚ) ≤ (k : ℚ) + 1 / 2 := by positivity
    rw [if_pos h]
    have : (k : ℚ) + 1 / 2 + 1 / 2 = (((k : Int) + 1 : Int) : ℚ) := by push_cast; ring
    rw [this, Int.floor_intCast]
  · have h : ¬ (0 : ℚ) ≤ -((k : ℚ) + 1 / 2) := by
      have : (0 : ℚ) < (k : ℚ) + 1 / 2 := by positivity
      linarith
    rw [if_neg h]
    have : - -((k : ℚ) + 1 / 2) + 1 / 2 = (((k : Int) + 1 : Int) : ℚ) := by push_cast; ring
    rw [this, Int.floor_intCast]

/-- Where the bounds convert exactly, `RandomInt` is `Random` on them, rounded, after one draw. -/
theorem RandomInt_eq_round_Random (s : Seed) (min max : Int) (h : min < max)
    (e1 : float64OfInt min = min) (e2 : float64OfInt max = max) :
    Random s min max = (⟨(sfc32 s).1 * ((max : ℚ) - min) + min, none⟩, (sfc32 s).2) ∧
    RandomInt s min max = (⟨mathRound (Random s min max).1.val, none⟩, (sfc32 s).2) := by
  have hq : (min : ℚ) < (max : ℚ) := by exact_mod_cast h
  refine ⟨by rw [Random_of_lt s _ _ hq]; rfl, ?_⟩
  rw [RandomInt_of_lt s min max h (by rw [e1, e2]; exact hq), e1, e2, Random_of_lt s _ _ hq]

/-! ### Determinism -/

theorem lockstep_same (g : Seed) (cs : List Call) : ∀ p ∈ lockstep g g cs, p.1 = p.2 := by
  induction cs generalizing g with
  | nil => intro p hp; cases hp
  | cons c cs ih =>
    intro p hp
    rw [lockstep, List.mem_cons] at hp
    rcases hp with rfl | hp
    · rfl
    · exact ih _ p hp

theorem lockstep_length (g1 g2 : Seed) (cs : List Call) :
    (lockstep g1 g2 cs).length = cs.length := by
  induction cs generalizing g1 g2 with
  | nil => rfl
  | cons c cs ih => simp [lockstep, ih]

/-- C6. Two generators built by `NewSeed` from the same seed string and driven through
the same finite sequence of `Random` / `RandomInt` calls, failing ones included, return
the same value and the same error at every call. -/
theorem C6_same_seed_same_results (s : Str) (cs : List Call) :
    (lockstep (NewSeed s) (NewSeed s) cs).length = cs.length ∧
    ∀ p ∈ lockstep (NewSeed s) (NewSeed s) cs, p.1 = p.2 :=
  ⟨lockstep_length _ _ cs, lockstep_same (NewSeed s) cs⟩

/-! ### Splitting and joining -/

theorem Split_ne_nil (s : Str) : Split s ≠ [] := by
  cases s with
  | nil => simp [Split]
  | cons b rest =>
    unfold Split
    split
    · simp
    · split <;> simp

theorem Split_of_no_space (w : Str) (h : (32 : Fin 256) ∉ w) : Split w = [w] := by
  induction w with
  | nil => rfl
  | cons b rest ih =>
    have hb : b ≠ 32 := fun e => h (by simp [e])
    have hr : (32 : Fin 256) ∉ rest := fun e => h (List.mem_cons_of_mem _ e)
    rw [Split, if_neg hb, ih hr]

theorem Split_append_space (w t : Str) (h : (32 : Fin 256) ∉ w) :
    Split (w ++ 32 :: t) = w :: Split t := by
  induction w with
  | nil => simp [Split]
  | cons b rest ih =>
    have hb : b ≠ 32 := fun e => h (by simp [e])
    have hr : (32 : Fin 256) ∉ rest := fun e => h (List.mem_cons_of_mem _ e)
    rw [List.cons_append, Split, if_neg hb, ih hr]

theorem Split_no_space (s : Str) : ∀ w ∈ Split s, (32 : Fin 256) ∉ w := by
  induction s with
  | nil => intro w hw; simp [Split] at hw; simp [hw]
  | cons b rest ih =>
    intro w hw
    unfold Split at hw
    split at hw
    · rcases List.mem_cons.mp hw with rfl | hw
      · simp
      · exact ih w hw
    · rename_i hb
      split at hw
      · simp at hw; subst hw; simp [Ne.symm hb]
      · rename_i w0 ws heq
        rcases List.mem_cons.mp hw with rfl | hw
        · have := ih w0 (by rw [heq]; simp)
          simp [Ne.symm hb, this]
        · exact ih w (by rw [heq]; exact List.mem_cons_of_mem _ hw)

theorem Split_Join (ws : List Str) (hne : ws ≠ []) (h : ∀ w ∈ ws, (32 : Fin 256) ∉ w) :
    Split (Join ws) = ws := by
  induction ws with
  | nil => exact absurd rfl hne
  | cons w rest ih =>
    cases rest with
    | nil => exact Split_of_no_space w (h w (by simp))
    | cons w1 ws =>
      rw [Join, Split_append_space _ _ (h w (by simp)), ih (by simp)
        (fun x hx => h x (List.mem_cons_of_mem _ hx))]

theorem Join_Split (s : Str) : Join (Split s) = s := by
  induction s with
  | nil => rfl
  | cons b rest ih =>
    unfold Split
    split
    · rename_i hb
      have hne := Split_ne_nil rest
      cases hs : Split rest with
      | nil => exact absurd hs hne
      | cons w ws => rw [Join, ← hs, ih, hb]; rfl
    · cases hs : Split rest with
      | nil => exact absurd hs (Split_ne_nil rest)
      | cons w ws =>
        simp only
        rw [hs] at ih
        cases ws with
        | nil => simp [Join] at ih ⊢; exact ih
        | cons w1 ws => simp [Join] at ih ⊢; exact ih

/-! ### The word pass -/

theorem replaceAllFrom_eq_spec (p : Pattern) (expand : Str → Str) (s : Str) :
    ∀ skip, replaceAllFrom p expand skip s = specReplaceAll p expand (s.drop skip) := by
  induction s with
  | nil => intro skip; cases skip <;> simp [replaceAllFrom, specReplaceAll]
  | cons b rest ih =>
    intro skip
    cases skip with
    | succ k => simp [replaceAllFrom, ih]
    | zero =>
      rw [replaceAllFrom, List.drop_zero, specReplaceAll]
      by_cases h : p ≠ [] ∧ matchesAt p (b :: rest) = true
      · rw [if_pos h, if_pos h, ih]
        have hp : 0 < p.length := List.length_pos.mpr h.1
        have : (b :: rest).drop p.length = rest.drop (p.length - 1) := by
          obtain ⟨n, hn⟩ : ∃ n, p.length = n + 1 := ⟨p.length - 1, by omega⟩
          rw [hn]; simp
        rw [this]
      · rw [if_neg h, if_neg h, ih, List.drop_zero]

theorem ReplaceAllString_eq_spec (p : Pattern) (expand : Str → Str) (word : Str) :
    ReplaceAllString p expand word = specReplaceAll p expand word := by
  rw [ReplaceAllString, replaceAllFrom_eq_spec, List.drop_zero]

/-- With `wordsModifier = 1` no draw exceeds the modifier: every rule runs. -/
theorem uwuifyWordRules_one (rules : List UwuReplacement) (seed : Seed) (word : Str) :
    uwuifyWordRules 1 rules seed word =
      rules.foldl (fun acc r => ReplaceAllString r.Pattern r.Replacement acc) word := by
  induction rules generalizing seed word with
  | nil => rfl
  | cons r rules ih =>
    have h : ¬ Float64.num (Random seed 0 1).1.val > 1 := by
      rw [Random_zero_one, Float64.one_eq]
      exact fun h1 => absurd ((Float64.num_lt_num _ _).mp h1) (not_lt.mpr (draw_lt_one seed).le)
    rw [uwuifyWordRules]
    simp only [h, if_false, List.foldl_cons]
    exact ih _ _

theorem UwuifyWords_single (u : Uwuifier) (w : Str) (h : (32 : Fin 256) ∉ w) :
    UwuifyWords u w = uwuifyWord u w := by
  rw [UwuifyWords, Split_of_no_space w h]; rfl

theorem WithWords_uwuMap (p : Float64) (u : Uwuifier) : (WithWords p u).uwuMap = u.uwuMap := by
  unfold WithWords SetWordsModifier
  split <;> rfl

theorem WithWords_wordsModifier (p : Float64) (u : Uwuifier) (h : ¬ (p < 0 ∨ p > 1)) :
    (WithWords p u).wordsModifier = p := by
  unfold WithWords SetWordsModifier
  rw [if_neg h]

/-- C7. With `wordsModifier = 1` a space-free word that is neither a handle nor a URI
comes out of `UwuifyWords` with all six rules applied, each globally and in lexicon
order, each on the output of the rule before; the six examples of the test suite are
instances. -/
theorem C7_words_at_one :
    (∀ (u : Uwuifier) (w : Str), u.uwuMap = defaultUwuMap → u.wordsModifier = 1 →
      (32 : Fin 256) ∉ w → isAt w = false → isURI w = false →
      UwuifyWords u w = specUwuifyWord w) ∧
    UwuifyWords (New [WithWords 1]) (str "Tonight") = str "Tonyight" ∧
    UwuifyWords (New [WithWords 1]) (str "Through") = str "Thwough" ∧
    UwuifyWords (New [WithWords 1]) (str "love") = str "wuv" ∧
    UwuifyWords (New [WithWords 1]) (str "remove") = str "wemuv" ∧
    UwuifyWords (New [WithWords 1]) (str "Netherlands") = str "Nyethewwands" ∧
    UwuifyWords (New [WithWords 1]) (str "Stabbed") = str "Stabbed" := by
  refine ⟨?_, by decide!, by decide!, by decide!, by decide!, by decide!, by decide!⟩
  intro u w hmap hmod hsp hat huri
  rw [UwuifyWords_single u w hsp, uwuifyWord, hat, huri, hmap, hmod]
  simp only [Bool.or_self, Bool.false_eq_true, if_false]
  rw [uwuifyWordRules_one]
  simp only [defaultUwuMap, List.foldl_cons, List.foldl_nil, ReplaceAllString_eq_spec]
  rfl

theorem C7_words_at_one_witness :
    (New [WithWords 1]).uwuMap = defaultUwuMap ∧ (New [WithWords 1]).wordsModifier = 1 ∧
    (32 : Fin 256) ∉ str "Struggling" ∧ isAt (str "Struggling") = false ∧
    isURI (str "Struggling") = false ∧
    UwuifyWords (New [WithWords 1]) (str "Struggling") = specUwuifyWord (str "Struggling") :=
  have h1 : (New [WithWords 1]).uwuMap = defaultUwuMap := by
    show (WithWords 1 _).uwuMap = _
    rw [WithWords_uwuMap]
  have h2 : (New [WithWords 1]).wordsModifier = 1 := by
    show (WithWords 1 _).wordsModifier = _
    exact WithWords_wordsModifier 1 _ (by decide!)
  have h3 : (32 : Fin 256) ∉ str "Struggling" := by decide
  have h4 : isAt (str "Struggling") = false := by decide
  have h5 : isURI (str "Struggling") = false := by decide
  ⟨h1, h2, h3, h4, h5, C7_words_at_one.1 _ _ h1 h2 h3 h4 h5⟩

/-- A rule adds no space to a text that has none. -/
theorem replaceAllFrom_no_space (p : Pattern) (expand : Str → Str)
    (hexp : ∀ m : Str, (32 : Fin 256) ∉ m → (32 : Fin 256) ∉ expand m) (s : Str)
    (hs : (32 : Fin 256) ∉ s) : ∀ skip, (32 : Fin 256) ∉ replaceAllFrom p expand skip s := by
  induction s with
  | nil => intro skip; cases skip <;> simp [replaceAllFrom]
  | cons b rest ih =>
    have hb : (32 : Fin 256) ≠ b := fun e => hs (by simp [e])
    have hr : (32 : Fin 256) ∉ rest := fun e => hs (List.mem_cons_of_mem _ e)
    intro skip
    cases skip with
    | succ k => rw [replaceAllFrom]; exact ih hr k
    | zero =>
      rw [replaceAllFrom]
      split
      · rw [List.mem_append, not_or]
        exact ⟨hexp _ (fun e => hs (List.mem_of_mem_take e)), ih hr _⟩
      · rw [List.mem_cons, not_or]
        exact ⟨hb, ih hr 0⟩

theorem defaultUwuMap_no_space :
    ∀ r ∈ defaultUwuMap, ∀ m : Str, (32 : Fin 256) ∉ m → (32 : Fin 256) ∉ r.Replacement m := by
  have hd : ∀ (pre m : Str), (32 : Fin 256) ∉ pre → (32 : Fin 256) ∉ m →
      (32 : Fin 256) ∉ pre ++ m.drop 1 := by
    intro pre m h1 h2
    rw [List.mem_append, not_or]
    exact ⟨h1, fun e => h2 (List.mem_of_mem_drop e)⟩
  intro r hr m hm
  simp only [defaultUwuMap, List.mem_cons, List.mem_singleton, List.not_mem_nil, or_false] at hr
  rcases hr with rfl | rfl | rfl | rfl | rfl | rfl
  · show (32 : Fin 256) ∉ str "uv"; decide
  · show (32 : Fin 256) ∉ str "w"; decide
  · show (32 : Fin 256) ∉ str "W"; decide
  · exact hd (str "ny") m (by decide) hm
  · exact hd (str "Ny") m (by decide) hm
  · exact hd (str "NY") m (by decide) hm

theorem uwuifyWordRules_no_space (p : Float64) (rules : List UwuReplacement)
    (hrules : ∀ r ∈ rules, ∀ m : Str, (32 : Fin 256) ∉ m → (32 : Fin 256) ∉ r.Replacement m)
    (seed : Seed) (word : Str) (hw : (32 : Fin 256) ∉ word) :
    (32 : Fin 256) ∉ uwuifyWordRules p rules seed word := by
  induction rules generalizing seed word with
  | nil => exact hw
  | cons r rules ih =>
    have hrest : ∀ r ∈ rules, ∀ m : Str, (32 : Fin 256) ∉ m → (32 : Fin 256) ∉ r.Replacement m :=
      fun x hx => hrules x (List.mem_cons_of_mem _ hx)
    rw [uwuifyWordRules]
    split
    · exact ih hrest _ _ hw
    · exact ih hrest _ _
        (replaceAllFrom_no_space _ _ (hrules r (by simp)) word hw 0)

theorem uwuifyWord_no_space (u : Uwuifier) (hmap : u.uwuMap = defaultUwuMap) (word : Str)
    (hw : (32 : Fin 256) ∉ word) : (32 : Fin 256) ∉ uwuifyWord u word := by
  unfold uwuifyWord
  split
  · exact hw
  · rw [hmap]; exact uwuifyWordRules_no_space _ _ defaultUwuMap_no_space _ _ hw

theorem uwuifyWord_kept (u : Uwuifier) (word : Str)
    (h : isAt word = true ∨ isURI word = true) : uwuifyWord u word = word := by
  unfold uwuifyWord
  rw [if_pos (by simpa using h)]

/-- The tokens of the output of the word pass are the tokens of the input, each put
through the loop body. -/
theorem Split_UwuifyWords (u : Uwuifier) (hmap : u.uwuMap = defaultUwuMap) (s : Str) :
    Split (UwuifyWords u s) = (Split s).map (uwuifyWord u) := by
  unfold UwuifyWords
  apply Split_Join
  · simpa using Split_ne_nil s
  · intro w hw
    obtain ⟨w0, hw0, rfl⟩ := List.mem_map.mp hw
    exact uwuifyWord_no_space u hmap w0 (Split_no_space s w0 hw0)

/-- C8. Whatever the modifiers and the lexicons, a space-delimited token that begins
with `@` or is a URI stands unchanged, at the same token position, in the output of
`UwuifyWords`, and the output has as many tokens as the input. -/
theorem C8_words_keep_handles_and_uris (u : Uwuifier) (hmap : u.uwuMap = defaultUwuMap)
    (s : Str) (i : Nat) (w : Str) (hw : (Split s)[i]? = some w)
    (hk : isAt w = true ∨ isURI w = true) :
    (Split (UwuifyWords u s))[i]? = some w ∧
      (Split (UwuifyWords u s)).length = (Split s).length := by
  rw [Split_UwuifyWords u hmap s]
  refine ⟨?_, by simp⟩
  rw [List.getElem?_map, hw]
  simp [uwuifyWord_kept u w hk]

theorem C8_words_keep_handles_and_uris_witness :
    (New []).uwuMap = defaultUwuMap ∧
    (Split (str "hello @world https://example.com/world"))[2]? =
      some (str "https://example.com/world") ∧
    (isAt (str "https://example.com/world") = true ∨
      isURI (str "https://example.com/world") = true) ∧
    ((Split (UwuifyWords (New []) (str "hello @world https://example.com/world")))[2]? =
        some (str "https://example.com/world") ∧
      (Split (UwuifyWords (New []) (str "hello @world https://example.com/world"))).length =
        (Split (str "hello @world https://example.com/world")).length) :=
  ⟨rfl, by decide, Or.inr (by decide),
    C8_words_keep_handles_and_uris (New []) rfl _ 2 _ (by decide) (Or.inr (by decide))⟩

/-! ### The sentence pipeline on single tokens -/

/-- A word whose draw lies above the three thresholds leaves the space pass as it came. -/
theorem uwuifySpaceWord_above (U : UnicodeTables) (u : Uwuifier) (first : Bool)
    (prevWord word : Str)
    (hf : u.spacesModifier.Faces < Float64.num (Random (NewSeed word) 0 1).1.val)
    (ha : u.spacesModifier.Actions + u.spacesModifier.Faces <
      Float64.num (Random (NewSeed word) 0 1).1.val)
    (hs : u.spacesModifier.Stutters + (u.spacesModifier.Actions + u.spacesModifier.Faces) <
      Float64.num (Random (NewSeed word) 0 1).1.val) :
    uwuifySpaceWord U u first prevWord word = some word := by
  cases word with
  | nil => rfl
  | cons b rest =>
    unfold uwuifySpaceWord
    simp only
    rw [if_neg (fun h => absurd h.1 (Float64.not_le_of_lt _ _ hf)),
      if_neg (fun h => absurd h.1 (Float64.not_le_of_lt _ _ ha)),
      if_neg (fun h => absurd h.1 (Float64.not_le_of_lt _ _ hs))]

theorem UwuifySpaces_single (U : UnicodeTables) (u : Uwuifier) (w : Str)
    (h : (32 : Fin 256) ∉ w) : UwuifySpaces U u w = uwuifySpaceWord U u true [] w := by
  rw [UwuifySpaces, Split_of_no_space w h, uwuifySpaceLoop]
  cases uwuifySpaceWord U u true [] w with
  | none => rfl
  | some w1 => simp [uwuifySpaceLoop, Join]

/-- C9. With the default configuration the sentence "https://example.com/?" is one
token for which `isURI` is true; the exclamation pass strips its `?` and appends
"!!11", so the token is no part of the output of `UwuifySentence`. -/
theorem C9_uri_rewritten_by_exclamations :
    isURI (str "https://example.com/?") = true ∧
    (∀ U : UnicodeTables, UwuifySentence U (New []) (str "https://example.com/?") =
      some (str "https://example.com/!!11")) ∧
    ¬ (str "https://example.com/?") <:+: (str "https://example.com/!!11") := by
  refine ⟨by decide, ?_, by decide⟩
  intro U
  have h1 : UwuifyExclamations (New []) (UwuifyWords (New []) (str "https://example.com/?")) =
      some (str "https://example.com/!!11") := by decide!
  rw [UwuifySentence, h1, Option.some_bind,
    UwuifySpaces_single U _ _ (by decide)]
  exact uwuifySpaceWord_above U _ _ _ _ (by decide!) (by decide!) (by decide!)

/-- C10. With the three modifiers set to zero the third gating draw of the word
"Lwkluri" is exactly `0`, which does not exceed the modifier `0`: the rule `[RL] -> W`
runs and `UwuifySentence` returns "Wwkluri". -/
theorem C10_zero_modifiers_change_a_word :
    (sfc32 (sfc32 (sfc32 (NewSeed (str "Lwkluri"))).2).2).1 = 0 ∧
    ∀ U : UnicodeTables,
      UwuifySentence U (New [WithWords 0, WithSpaces ⟨0, 0, 0⟩, WithExclamations 0])
        (str "Lwkluri") = some (str "Wwkluri") := by
  refine ⟨by decide!, ?_⟩
  intro U
  have h1 : UwuifyExclamations (New [WithWords 0, WithSpaces ⟨0, 0, 0⟩, WithExclamations 0])
      (UwuifyWords (New [WithWords 0, WithSpaces ⟨0, 0, 0⟩, WithExclamations 0])
        (str "Lwkluri")) = some (str "Wwkluri") := by decide!
  rw [UwuifySentence, h1, Option.some_bind,
    UwuifySpaces_single U _ _ (by decide)]
  exact uwuifySpaceWord_above U _ _ _ _ (by decide!) (by decide!) (by decide!)

/-! ### The composed pass and the setters -/

/-- C13. `UwuifySentence` is the word pass, then the exclamation pass on its output,
then the space pass on that output; a pass that panics ends the call. -/
theorem C13_sentence_is_words_exclamations_spaces (U : UnicodeTables) (u : Uwuifier)
    (s : Str) :
    UwuifySentence U u s =
      match UwuifyExclamations u (UwuifyWords u s) with
      | none => none
      | some afterExclamations => UwuifySpaces U u afterExclamations := by
  unfold UwuifySentence
  cases UwuifyExclamations u (UwuifyWords u s) <;> rfl

theorem SetWordsModifier_spec (u : Uwuifier) (v : Float64) :
    ((SetWordsModifier u v).2 = true ↔ (v < 0 ∨ v > 1)) ∧
    ((SetWordsModifier u v).2 = true → (SetWordsModifier u v).1 = u) ∧
    ((SetWordsModifier u v).2 = false →
      (SetWordsModifier u v).1 = { u with wordsModifier := v }) := by
  unfold SetWordsModifier
  by_cases h : v < 0 ∨ v > 1
  · simp [h]
  · simp [h]

theorem SetExclamationsModifier_spec (u : Uwuifier) (v : Float64) :
    ((SetExclamationsModifier u v).2 = true ↔ (v < 0 ∨ v > 1)) ∧
    ((SetExclamationsModifier u v).2 = true → (SetExclamationsModifier u v).1 = u) ∧
    ((SetExclamationsModifier u v).2 = false →
      (SetExclamationsModifier u v).1 = { u with exclamationsModifier := v }) := by
  unfold SetExclamationsModifier
  by_cases h : v < 0 ∨ v > 1
  · simp [h]
  · simp [h]

theorem SetSpacesModifier_spec (u : Uwuifier) (t : SpacesModifier) :
    ((SetSpacesModifier u t).2 = true ↔
      (t.Faces + t.Actions + t.Stutters < 0 ∨ t.Faces + t.Actions + t.Stutters > 1)) ∧
    ((SetSpacesModifier u t).2 = true → (SetSpacesModifier u t).1 = u) ∧
    ((SetSpacesModifier u t).2 = false →
      (SetSpacesModifier u t).1 = { u with spacesModifier := t }) := by
  unfold SetSpacesModifier
  by_cases h : t.Faces + t.Actions + t.Stutters < 0 ∨ t.Faces + t.Actions + t.Stutters > 1
  · simp [h]
  · simp [h]

/-- The sum `SetSpacesModifier` tests is the `float64` sum, each addition rounded: the
triple `{0, 0.1, 0.9}` is accepted, its sum being `1.0` although the numbers the
`float64` values `0.1` and `0.9` stand for add up to `1 + 2^-55`.  A NaN passes every
setter, both comparisons being false, and is stored. -/
theorem setters_on_float64 :
    (SetSpacesModifier (New []) ⟨0, .num (3602879701896397 / 36028797018963968),
      .num (8106479329266893 / 9007199254740992)⟩).2 = false ∧
    ((0 : Float64) + .num (3602879701896397 / 36028797018963968) +
      .num (8106479329266893 / 9007199254740992) = 1) ∧
    (1 : ℚ) < 0 + 3602879701896397 / 36028797018963968 +
      8106479329266893 / 9007199254740992 ∧
    (SetWordsModifier (New []) .nan).2 = false ∧
    (SetWordsModifier (New []) .nan).1.wordsModifier = .nan ∧
    (SetExclamationsModifier (New []) .nan).2 = false ∧
    (SetSpacesModifier (New []) ⟨.nan, 0, 0⟩).2 = false ∧
    (SetSpacesModifier (New []) ⟨.inf false, .inf true, 0⟩).2 = false := by
  refine ⟨by decide!, by decide!, by norm_num, by decide!, by decide!, by decide!, by decide!,
    by decide!⟩

/-- C14. Each setter returns an error exactly when its value is below `0` or above `1`
(for the spacing triple: its sum, added as the code adds it, in `float64`). A call that
returns an error leaves the whole `Uwuifier` as it was; a call that succeeds stores the
given value in its own modifier and changes nothing else. `New` with one out-of-range
option keeps the defaults `0.9`, `{0.04, 0.02, 0.1}` and `1.0`. -/
theorem C14_setters_validate :
    (∀ (u : Uwuifier) (v : Float64),
      ((SetWordsModifier u v).2 = true ↔ (v < 0 ∨ v > 1)) ∧
      ((SetWordsModifier u v).2 = true → (SetWordsModifier u v).1 = u) ∧
      ((SetWordsModifier u v).2 = false →
        (SetWordsModifier u v).1 = { u with wordsModifier := v })) ∧
    (∀ (u : Uwuifier) (v : Float64),
      ((SetExclamationsModifier u v).2 = true ↔ (v < 0 ∨ v > 1)) ∧
      ((SetExclamationsModifier u v).2 = true → (SetExclamationsModifier u v).1 = u) ∧
      ((SetExclamationsModifier u v).2 = false →
        (SetExclamationsModifier u v).1 = { u with exclamationsModifier := v })) ∧
    (∀ (u : Uwuifier) (t : SpacesModifier),
      ((SetSpacesModifier u t).2 = true ↔
        (t.Faces + t.Actions + t.Stutters < 0 ∨ t.Faces + t.Actions + t.Stutters > 1)) ∧
      ((SetSpacesModifier u t).2 = true → (SetSpacesModifier u t).1 = u) ∧
      ((SetSpacesModifier u t).2 = false →
        (SetSpacesModifier u t).1 = { u with spacesModifier := t })) ∧
    (∀ v : Float64, (v < 0 ∨ v > 1) →
      (New [WithWords v]).wordsModifier = DefaultWords ∧
      (New [WithExclamations v]).exclamationsModifier = DefaultExclamations ∧
      (New [WithWords v]).spacesModifier = DefaultSpaces) ∧
    (∀ t : SpacesModifier,
      (t.Faces + t.Actions + t.Stutters < 0 ∨ t.Faces + t.Actions + t.Stutters > 1) →
      (New [WithSpaces t]).spacesModifier = DefaultSpaces ∧
      (New [WithSpaces t]).wordsModifier = DefaultWords ∧
      (New [WithSpaces t]).exclamationsModifier = DefaultExclamations) := by
  refine ⟨SetWordsModifier_spec, SetExclamationsModifier_spec, SetSpacesModifier_spec, ?_, ?_⟩
  · intro v hv
    have h1 := ((SetWordsModifier_spec (New []) v).2.1) ((SetWordsModifier_spec (New []) v).1.mpr hv)
    have h2 := ((SetExclamationsModifier_spec (New []) v).2.1)
      ((SetExclamationsModifier_spec (New []) v).1.mpr hv)
    have e1 : New [WithWords v] = New [] := h1
    have e2 : New [WithExclamations v] = New [] := h2
    rw [e1, e2]
    exact ⟨rfl, rfl, rfl⟩
  · intro t ht
    have h1 := ((SetSpacesModifier_spec (New []) t).2.1) ((SetSpacesModifier_spec (New []) t).1.mpr ht)
    have e1 : New [WithSpaces t] = New [] := h1
    rw [e1]
    exact ⟨rfl, rfl, rfl⟩

theorem C14_setters_validate_witness :
    ((2 : Float64) < 0 ∨ (2 : Float64) > 1) ∧
    ((New [WithWords 2]).wordsModifier = DefaultWords ∧
      (New [WithExclamations 2]).exclamationsModifier = DefaultExclamations ∧
      (New [WithWords 2]).spacesModifier = DefaultSpaces) :=
  ⟨Or.inr (by decide!), C14_setters_validate.2.2.2.1 2 (Or.inr (by decide!))⟩

/-! ### The spacing configuration -/

/-- The thresholds `UwuifySpaces` computes are `faceThreshold`, `actionThreshold` and
`stutterThreshold` of the stored triple. -/
theorem uwuifySpaceWord_thresholds (U : UnicodeTables) (u : Uwuifier) (first : Bool)
    (prevWord : Str) (b0 : Fin 256) (rest : Str) :
    uwuifySpaceWord U u first prevWord (b0 :: rest) =
      if Float64.num (Random (NewSeed (b0 :: rest)) 0 1).1.val ≤
            faceThreshold u.spacesModifier ∧
          u.Faces.length > 0 ∧ isBreak (b0 :: rest) = false then
        match index u.Faces
            (RandomInt (Random (NewSeed (b0 :: rest)) 0 1).2 0 ((u.Faces.length : Int) - 1)).1.val with
        | none => none
        | some face =>
          some (checkCapital U first prevWord b0.val ((b0 :: rest) ++ 32 :: face))
      else if Float64.num (Random (NewSeed (b0 :: rest)) 0 1).1.val ≤
            actionThreshold u.spacesModifier ∧
          u.Actions.length > 0 ∧ isBreak (b0 :: rest) = false then
        match index u.Actions
            (RandomInt (Random (NewSeed (b0 :: rest)) 0 1).2 0
              ((u.Actions.length : Int) - 1)).1.val with
        | none => none
        | some action =>
          some (checkCapital U first prevWord b0.val ((b0 :: rest) ++ 32 :: action))
      else if Float64.num (Random (NewSeed (b0 :: rest)) 0 1).1.val ≤
            stutterThreshold u.spacesModifier ∧
          isURI (b0 :: rest) = false ∧ isBreak (b0 :: rest) = false then
        if (RandomInt (Random (NewSeed (b0 :: rest)) 0 1).2 0 2).1.val < 0 then none
        else
          some (Repeat (utf8Encode b0.val ++ str "-")
            (RandomInt (Random (NewSeed (b0 :: rest)) 0 1).2 0 2).1.val.toNat ++ (b0 :: rest))
      else some (b0 :: rest) := rfl

theorem Float64.add_swap (a b : Float64) : a + b = b + a := by
  show Float64.add a b = Float64.add b a
  cases a with
  | num p =>
    cases b with
    | num q => simp only [Float64.add]; rw [add_comm]
    | inf n => rfl
    | nan => rfl
  | inf n1 =>
    cases b with
    | num q => rfl
    | inf n2 => cases n1 <;> cases n2 <;> rfl
    | nan => rfl
  | nan => cases b <;> rfl

theorem Float64.nonneg_cases (x : Float64) (h : 0 ≤ x) :
    (∃ q : ℚ, 0 ≤ q ∧ x = Float64.num q) ∨ x = Float64.inf false := by
  rw [Float64.zero_eq] at h
  cases x with
  | num q => exact Or.inl ⟨q, (Float64.num_le_num 0 q).mp h, rfl⟩
  | inf n =>
    cases n with
    | false => exact Or.inr rfl
    | true => exact absurd h Bool.false_ne_true
  | nan => exact absurd h Bool.false_ne_true

/-- Adding a value that is not negative to a `float64` value that is not negative does
not go below it: rounding keeps the order and leaves a `float64` value where it is. -/
theorem Float64.le_add_of_nonneg (a x : Float64) (ha : 0 ≤ a) (hx : 0 ≤ x)
    (hv : x.IsValue) : x ≤ a + x ∧ 0 ≤ a + x ∧ (a + x).IsValue := by
  rcases Float64.nonneg_cases a ha with ⟨p, hp, rfl⟩ | rfl
  · rcases Float64.nonneg_cases x hx with ⟨q, hq, rfl⟩ | rfl
    · have e : Float64.num p + Float64.num q = round64 (p + q) := rfl
      have hvq : round64 q = Float64.num q := hv
      rw [e]
      refine ⟨?_, ?_, round64_isValue _ (by linarith)⟩
      · have := round64_mono q (p + q) hq (by linarith)
        rwa [hvq] at this
      · have := round64_mono 0 (p + q) (le_refl _) (by linarith)
        rwa [round64_zero, ← Float64.zero_eq] at this
    · exact ⟨rfl, rfl, trivial⟩
  · rcases Float64.nonneg_cases x hx with ⟨q, hq, rfl⟩ | rfl
    · exact ⟨rfl, rfl, trivial⟩
    · exact ⟨rfl, rfl, trivial⟩

/-- C15 fails as stated: the triple `{1.5, -1, 0.25}` has sum `0.75` and is accepted,
yet `Actions` is negative, `faceThreshold = 1.5` lies above `1` and above
`actionThreshold = 0.5`. -/
theorem C15_negative_component_accepted :
    (SetSpacesModifier (New []) ⟨.num (3 / 2), .num (-1), .num (1 / 4)⟩).2 = false ∧
    (SetSpacesModifier (New []) ⟨.num (3 / 2), .num (-1), .num (1 / 4)⟩).1.spacesModifier =
      ⟨.num (3 / 2), .num (-1), .num (1 / 4)⟩ ∧
    ¬ (0 ≤ (⟨.num (3 / 2), .num (-1), .num (1 / 4)⟩ : SpacesModifier).Actions) ∧
    ¬ (faceThreshold ⟨.num (3 / 2), .num (-1), .num (1 / 4)⟩ ≤
      actionThreshold ⟨.num (3 / 2), .num (-1), .num (1 / 4)⟩) ∧
    ¬ (faceThreshold ⟨.num (3 / 2), .num (-1), .num (1 / 4)⟩ ≤ 1) := by
  refine ⟨by decide!, by decide!, by decide!, by decide!, by decide!⟩

/-- C15, amended. A triple that `SetSpacesModifier` accepts is stored as given, and its
`float64` sum `(Faces + Actions) + Stutters`, each addition rounded, is neither below `0`
nor above `1`; the components themselves are not checked.  When the three components
are not negative (so none is NaN) and `Faces` is a number a `float64` holds, the
thresholds of `UwuifySpaces` satisfy
`0 ≤ faceThreshold ≤ actionThreshold ≤ stutterThreshold ≤ 1`, and `stutterThreshold` is
the sum the setter tested. -/
theorem C15_accepted_sum_in_range (u : Uwuifier) (t : SpacesModifier)
    (h : (SetSpacesModifier u t).2 = false) :
    (SetSpacesModifier u t).1.spacesModifier = t ∧
    (¬ (t.Faces + t.Actions + t.Stutters < 0) ∧ ¬ (t.Faces + t.Actions + t.Stutters > 1)) ∧
    (t.Faces.IsValue → 0 ≤ t.Faces → 0 ≤ t.Actions → 0 ≤ t.Stutters →
      0 ≤ faceThreshold t ∧ faceThreshold t ≤ actionThreshold t ∧
      actionThreshold t ≤ stutterThreshold t ∧ stutterThreshold t ≤ 1 ∧
      stutterThreshold t = t.Faces + t.Actions + t.Stutters) := by
  have hs := SetSpacesModifier_spec u t
  have hsum : ¬ (t.Faces + t.Actions + t.Stutters < 0 ∨ t.Faces + t.Actions + t.Stutters > 1) := by
    intro hcon
    have := hs.1.mpr hcon
    rw [h] at this
    exact Bool.false_ne_true this
  refine ⟨?_, ⟨fun h1 => hsum (Or.inl h1), fun h1 => hsum (Or.inr h1)⟩, ?_⟩
  · rw [hs.2.2 h]
  · intro hv hF hA hS
    have h1 := Float64.le_add_of_nonneg t.Actions t.Faces hA hF hv
    have h2 := Float64.le_add_of_nonneg t.Stutters (t.Actions + t.Faces) hS h1.2.1 h1.2.2
    have he : stutterThreshold t = t.Faces + t.Actions + t.Stutters := by
      unfold stutterThreshold actionThreshold faceThreshold
      rw [Float64.add_swap t.Stutters, Float64.add_swap t.Actions]
    refine ⟨hF, h1.1, h2.1, ?_, he⟩
    have h3 : ¬ (stutterThreshold t > 1) := by
      rw [he]; exact fun h4 => hsum (Or.inr h4)
    have h4 : 0 ≤ stutterThreshold t := h2.2.1
    rcases Float64.nonneg_cases _ h4 with ⟨q, _, hq⟩ | hq
    · rw [hq, Float64.one_eq] at h3 ⊢
      have : ¬ (1 : ℚ) < q := fun h5 => h3 ((Float64.num_lt_num 1 q).mpr h5)
      exact (Float64.num_le_num q 1).mpr (not_lt.mp this)
    · rw [hq] at h3
      exact absurd (show (1 : Float64) < Float64.inf false from rfl) h3

theorem C15_accepted_sum_in_range_witness :
    (SetSpacesModifier (New []) DefaultSpaces).2 = false ∧
    (SetSpacesModifier (New []) DefaultSpaces).1.spacesModifier = DefaultSpaces ∧
    (0 ≤ faceThreshold DefaultSpaces ∧ faceThreshold DefaultSpaces ≤ actionThreshold DefaultSpaces ∧
      actionThreshold DefaultSpaces ≤ stutterThreshold DefaultSpaces ∧
      stutterThreshold DefaultSpaces ≤ 1 ∧
      stutterThreshold DefaultSpaces =
        DefaultSpaces.Faces + DefaultSpaces.Actions + DefaultSpaces.Stutters) :=
  have h : (SetSpacesModifier (New []) DefaultSpaces).2 = false := by decide!
  ⟨h, (C15_accepted_sum_in_range (New []) DefaultSpaces h).1,
    (C15_accepted_sum_in_range (New []) DefaultSpaces h).2.2
      (show round64 (5764607523034235 / 144115188075855872) = Float64.num _ by decide!)
      (by decide!) (by decide!) (by decide!)⟩

/-! ### The gated word pass -/

theorem afterDraws_succ (g : Seed) (k : Nat) :
    afterDraws g (k + 1) = (sfc32 (afterDraws g k)).2 := by
  unfold afterDraws
  rw [Function.iterate_succ_apply']

/-- The loop over the rules, started on the generator after `k` draws, is the gated fold
from rule number `k + 1` on, for a modifier that is not NaN. -/
theorem uwuifyWordRules_eq_gated (p : Float64) (hp : p ≠ Float64.nan) (g : Seed)
    (rules : List UwuReplacement) :
    ∀ (k : Nat) (word : Str),
      uwuifyWordRules p rules (afterDraws g k) word = specGatedRules p g k rules word := by
  induction rules with
  | nil => intro k word; rfl
  | cons r rules ih =>
    intro k word
    rw [uwuifyWordRules, specGatedRules, Random_zero_one]
    simp only
    rw [← afterDraws_succ]
    by_cases h : Float64.num (nthDraw g k) ≤ p
    · have h' : ¬ Float64.num (sfc32 (afterDraws g k)).1 > p :=
        (Float64.le_iff_not_gt _ p hp).mp h
      rw [if_neg h', if_pos h, ih, ReplaceAllString_eq_spec]
    · have h' : Float64.num (sfc32 (afterDraws g k)).1 > p := by
        by_contra hc
        exact h ((Float64.le_iff_not_gt _ p hp).mpr hc)
      rw [if_pos h', if_neg h, ih]

/-- With the modifier NaN no draw exceeds the modifier: every rule runs. -/
theorem uwuifyWordRules_nan (rules : List UwuReplacement) (seed : Seed) (word : Str) :
    uwuifyWordRules Float64.nan rules seed word =
      rules.foldl (fun acc r => ReplaceAllString r.Pattern r.Replacement acc) word := by
  induction rules generalizing seed word with
  | nil => rfl
  | cons r rules ih =>
    rw [uwuifyWordRules]
    simp only [(Float64.nan_cmp _).2.1, if_false, List.foldl_cons]
    exact ih _ _

/-- C19 fails as stated.  `SetWordsModifier` accepts NaN (`NaN < 0` and `NaN > 1` are
both false) and stores it; no draw is `<=` NaN, so the fold of the claim applies no rule
and leaves "love" as it is, while the code skips a rule only when `draw > NaN`, which
is never: it applies every rule and returns "wuv". -/
theorem C19_nan_modifier_runs_every_rule :
    (SetWordsModifier (New []) Float64.nan).2 = false ∧
    (New [WithWords Float64.nan]).wordsModifier = Float64.nan ∧
    (New [WithWords Float64.nan]).uwuMap = defaultUwuMap ∧
    UwuifyWords (New [WithWords Float64.nan]) (str "love") = str "wuv" ∧
    specGatedRules (New [WithWords Float64.nan]).wordsModifier (NewSeed (str "love")) 0
      defaultUwuMap (str "love") = str "love" ∧
    (32 : Fin 256) ∉ str "love" ∧ isAt (str "love") = false ∧ isURI (str "love") = false := by
  refine ⟨by decide!, by decide!, ?_, by decide!, by decide!, by decide, by decide,
    by decide⟩
  show (WithWords _ _).uwuMap = _
  rw [WithWords_uwuMap]

/-- C19, amended. For every modifier `p` that is not NaN, a space-free word that is
neither a handle nor a URI comes out of `UwuifyWords` as the left fold over the six rules
in which rule `k` runs (globally, on the current text) exactly when draw `k` of the
generator seeded once with the original word is at most `p`; every rule, run or skipped,
takes one draw. -/
theorem C19_words_gated_fold (u : Uwuifier) (w : Str) (hmap : u.uwuMap = defaultUwuMap)
    (hsp : (32 : Fin 256) ∉ w) (hat : isAt w = false) (huri : isURI w = false)
    (hp : u.wordsModifier ≠ Float64.nan) :
    UwuifyWords u w = specGatedRules u.wordsModifier (NewSeed w) 0 defaultUwuMap w := by
  rw [UwuifyWords_single u w hsp, uwuifyWord, hat, huri, hmap]
  simp only [Bool.or_self, Bool.false_eq_true, if_false]
  exact uwuifyWordRules_eq_gated _ hp (NewSeed w) defaultUwuMap 0 w

theorem C19_words_gated_fold_witness :
    ((New []).uwuMap = defaultUwuMap ∧ (32 : Fin 256) ∉ str "love" ∧
      isAt (str "love") = false ∧ isURI (str "love") = false ∧
      (New []).wordsModifier ≠ Float64.nan) ∧
    UwuifyWords (New []) (str "love") =
      specGatedRules (New []).wordsModifier (NewSeed (str "love")) 0 defaultUwuMap
        (str "love") ∧
    (Float64.num (nthDraw (NewSeed (str "love")) 0) ≤ (New []).wordsModifier ∧
      ¬ (Float64.num (nthDraw (NewSeed (str "love")) 1) ≤ (New []).wordsModifier) ∧
      UwuifyWords (New []) (str "love") = str "luv" ∧
      specUwuifyWord (str "love") = str "wuv") :=
  ⟨⟨rfl, by decide, by decide, by decide, by decide⟩,
    C19_words_gated_fold (New []) (str "love") rfl (by decide) (by decide) (by decide)
      (by decide),
    by decide!, by decide!, by decide!, by decide!⟩

/-! ### Percent-escapes -/

theorem incompleteHex1_cons (b : Fin 256) (t : Str) (h : incompleteHex1 t = true) :
    incompleteHex1 (b :: t) = true := by
  cases t with
  | nil => simp [incompleteHex1] at h
  | cons c rest => simp only [incompleteHex1, h, Bool.or_true]

theorem incompleteHex2_cons (b : Fin 256) (t : Str) (h : incompleteHex2 t = true) :
    incompleteHex2 (b :: t) = true := by
  cases t with
  | nil => simp [incompleteHex2] at h
  | cons c rest => simp only [incompleteHex2, h, Bool.or_true]

/-- A `%` that has a byte after it, but not two hexadecimal digits, is found by one of
the two expressions. -/
theorem incompleteHex_of_bad_escape (pre : Str) (b : Fin 256) (rest : Str)
    (h : ¬ (isHexDigit b = true ∧ ∃ c rest1, rest = c :: rest1 ∧ isHexDigit c = true)) :
    incompleteHex1 (pre ++ 37 :: b :: rest) = true ∨
      incompleteHex2 (pre ++ 37 :: b :: rest) = true := by
  induction pre with
  | nil =>
    by_cases hb : isHexDigit b = true
    · right
      cases rest with
      | nil => simp [incompleteHex2, hb]
      | cons c rest1 =>
        have hc : isHexDigit c = false := by
          cases hcv : isHexDigit c with
          | false => rfl
          | true => exact absurd ⟨hb, c, rest1, rfl, hcv⟩ h
        simp [incompleteHex2, hb, hc]
    · left
      simp [incompleteHex1, hb]
  | cons p pre ih =>
    rcases ih with h1 | h2
    · exact Or.inl (incompleteHex1_cons p _ h1)
    · exact Or.inr (incompleteHex2_cons p _ h2)

theorem isURI_false_of_incompleteHex (w : Str)
    (h : incompleteHex1 w = true ∨ incompleteHex2 w = true) : isURI w = false := by
  unfold isURI
  have hh : (incompleteHex1 w || incompleteHex2 w) = true := by
    rcases h with h | h <;> simp [h]
  simp [hh]

/-- C16. `isURI("https://example.com/100%")` is true although the final `%` is followed
by no hexadecimal digit: neither `%[^0-9a-fA-F]` nor `%[0-9a-fA-F]([^0-9a-fA-F]|$)`
matches a `%` that ends the string. A `%` with a byte after it, but not two hexadecimal
digits, is rejected wherever it stands. -/
theorem C16_trailing_percent_accepted :
    isURI (str "https://example.com/100%") = true ∧
    (∀ (pre : Str) (b : Fin 256) (rest : Str),
      ¬ (isHexDigit b = true ∧ ∃ c rest1, rest = c :: rest1 ∧ isHexDigit c = true) →
      isURI (pre ++ 37 :: b :: rest) = false) :=
  ⟨by decide, fun pre b rest h =>
    isURI_false_of_incompleteHex _ (incompleteHex_of_bad_escape pre b rest h)⟩

theorem wellFormed_incompleteHex1 (w : Str) (h : wellFormedEscapes w = true) :
    incompleteHex1 w = false := by
  induction w with
  | nil => rfl
  | cons b t ih =>
    cases t with
    | nil => rfl
    | cons c rest =>
      cases rest with
      | nil =>
        simp only [wellFormedEscapes, Bool.and_eq_true, Bool.or_eq_true, decide_eq_true_eq] at h
        have hb : b ≠ 37 := by simpa using h.1
        simp [incompleteHex1, hb]
      | cons d rest1 =>
        simp only [wellFormedEscapes, Bool.and_eq_true, Bool.or_eq_true, decide_eq_true_eq] at h
        have ht : incompleteHex1 (c :: d :: rest1) = false :=
          ih (by simp only [wellFormedEscapes, Bool.and_eq_true, Bool.or_eq_true,
            decide_eq_true_eq]; exact h.2)
        simp only [incompleteHex1] at ht ⊢
        rw [ht, Bool.or_false]
        rcases h.1 with hb | hb
        · simp [hb]
        · simp [hb.1]

theorem wellFormed_incompleteHex2 (w : Str) (h : wellFormedEscapes w = true) :
    incompleteHex2 w = false := by
  induction w with
  | nil => rfl
  | cons b t ih =>
    cases t with
    | nil => rfl
    | cons c rest =>
      cases rest with
      | nil =>
        simp only [wellFormedEscapes, Bool.and_eq_true, Bool.or_eq_true, decide_eq_true_eq] at h
        have hb : b ≠ 37 := by simpa using h.1
        simp [incompleteHex2, hb]
      | cons d rest1 =>
        simp only [wellFormedEscapes, Bool.and_eq_true, Bool.or_eq_true, decide_eq_true_eq] at h
        have ht : incompleteHex2 (c :: d :: rest1) = false :=
          ih (by simp only [wellFormedEscapes, Bool.and_eq_true, Bool.or_eq_true,
            decide_eq_true_eq]; exact h.2)
        simp only [incompleteHex2] at ht ⊢
        rw [ht, Bool.or_false]
        rcases h.1 with hb | hb
        · simp [hb]
        · simp [hb.2]

/-! ### The URI check against the generic parse -/

theorem str_schemeStops : str ":/?#" = [58, 47, 63, 35] := by decide

theorem str_authorityStops : str "/?#" = [47, 63, 35] := by decide

theorem dropWhile_eq_drop (p : Fin 256 → Bool) (l : Str) :
    l.dropWhile p = l.drop (l.takeWhile p).length := by
  induction l with
  | nil => rfl
  | cons b t ih =>
    by_cases h : p b = true
    · simp [List.dropWhile, List.takeWhile, h, ih]
    · simp [List.dropWhile, List.takeWhile, h]

/-- The run of bytes outside `:/?#` is followed by `:` exactly when the text before the
first `:` has no `/`, `?`, `#`; the two texts are then the same. -/
theorem scheme_run_iff (w : Str) :
    ((w.dropWhile notSchemeStop).head? = some 58 ↔
      ((w.takeWhile (fun b => decide (b ≠ 58))).length < w.length ∧
        (w.takeWhile (fun b => decide (b ≠ 58))).all (fun b => !decide (b ∈ str "/?#")) = true)) ∧
    ((w.dropWhile notSchemeStop).head? = some 58 →
      w.takeWhile notSchemeStop = w.takeWhile (fun b => decide (b ≠ 58)) ∧
      (w.dropWhile notSchemeStop).tail =
        w.drop ((w.takeWhile (fun b => decide (b ≠ 58))).length + 1)) := by
  induction w with
  | nil => simp
  | cons b t ih =>
    by_cases h58 : b = 58
    · subst h58
      have hp : notSchemeStop 58 = false := by decide
      simp [List.dropWhile, List.takeWhile, hp]
    · by_cases hd : b ∈ str "/?#"
      · have hp : notSchemeStop b = false := by
          unfold notSchemeStop
          rw [str_schemeStops]
          rw [str_authorityStops] at hd
          simp only [List.mem_cons, List.mem_singleton, List.not_mem_nil, or_false] at hd
          rcases hd with rfl | rfl | rfl <;> decide
        simp [List.dropWhile, List.takeWhile, hp, h58, hd]
      · have hp : notSchemeStop b = true := by
          unfold notSchemeStop
          rw [str_schemeStops]
          rw [str_authorityStops] at hd
          simp only [List.mem_cons, List.mem_singleton, List.not_mem_nil, or_false, not_or] at hd
          simp [h58, hd.1, hd.2.1, hd.2.2]
        simp only [List.dropWhile, List.takeWhile, hp, h58, ne_eq, not_false_eq_true,
          decide_True, List.length_cons, Nat.add_lt_add_iff_right, List.all_cons, hd,
          decide_False, Bool.not_false, Bool.true_and, List.drop_succ_cons]
        refine ⟨ih.1, fun h => ?_⟩
        have := ih.2 h
        exact ⟨by rw [this.1], this.2⟩

theorem matchesAt_slashes (r : Str) :
    matchesAt [str "/", str "/"] r = HasPrefix r (str "//") := by
  have h1 : str "/" = [47] := by decide
  have h2 : str "//" = [47, 47] := by decide
  rw [h1, h2]
  unfold HasPrefix
  cases r with
  | nil => simp [matchesAt]
  | cons a r1 =>
    cases r1 with
    | nil => simp [matchesAt]
    | cons b r2 =>
      simp only [matchesAt, List.mem_singleton, Bool.and_true, List.length_cons,
        List.length_nil, List.take_succ_cons, List.take_zero]
      by_cases ha : a = 47 <;> by_cases hb : b = 47 <;> simp [ha, hb]

theorem specSchemeShape_eq (scheme : Str) : specSchemeShape scheme = schemeRegex scheme := by
  have h1 : str "+.-" = [43, 46, 45] := by decide
  have h2 : str "+-." = [43, 45, 46] := by decide
  have hf : (fun c : Fin 256 => isAsciiLetter c || decide (48 ≤ c.val ∧ c.val ≤ 57) ||
        decide (c ∈ str "+.-")) =
      (fun c : Fin 256 => isAsciiLetter c || decide (48 ≤ c.val ∧ c.val ≤ 57) ||
        decide (c ∈ str "+-.")) := by
    funext c
    rw [h1, h2]
    congr 1
    simp only [List.mem_cons, List.mem_singleton, List.not_mem_nil, or_false, decide_eq_decide]
    tauto
  cases scheme with
  | nil => rfl
  | cons b rest =>
    unfold specSchemeShape schemeRegex
    simp only
    rw [hf]

theorem scheme_agree (w : Str) :
    (decide (w.takeWhile notSchemeStop ≠ []) &&
        decide ((w.dropWhile notSchemeStop).head? = some 58)) =
      (decide ((w.takeWhile (fun b => decide (b ≠ 58))).length < w.length) &&
        decide (w.takeWhile (fun b => decide (b ≠ 58)) ≠ []) &&
        (w.takeWhile (fun b => decide (b ≠ 58))).all (fun b => !decide (b ∈ str "/?#"))) ∧
    ((decide (w.takeWhile notSchemeStop ≠ []) &&
        decide ((w.dropWhile notSchemeStop).head? = some 58)) = true →
      w.takeWhile notSchemeStop = w.takeWhile (fun b => decide (b ≠ 58)) ∧
      (w.dropWhile notSchemeStop).tail =
        w.drop ((w.takeWhile (fun b => decide (b ≠ 58))).length + 1)) := by
  have hs := scheme_run_iff w
  by_cases hc : (w.dropWhile notSchemeStop).head? = some 58
  · have hiff := hs.1.mp hc
    have heq := hs.2 hc
    refine ⟨?_, fun _ => heq⟩
    rw [heq.1, decide_eq_true hc, decide_eq_true hiff.1, hiff.2, Bool.and_true, Bool.true_and,
      Bool.and_true]
  · have hn : ¬ ((w.takeWhile (fun b => decide (b ≠ 58))).length < w.length ∧
        (w.takeWhile (fun b => decide (b ≠ 58))).all (fun b => !decide (b ∈ str "/?#")) = true) :=
      fun h => hc (hs.1.mpr h)
    refine ⟨?_, fun h => ?_⟩
    · rw [decide_eq_false hc, Bool.and_false]
      by_cases hl : (w.takeWhile (fun b => decide (b ≠ 58))).length < w.length
      · have ha : (w.takeWhile (fun b => decide (b ≠ 58))).all
            (fun b => !decide (b ∈ str "/?#")) = false :=
          eq_false_of_ne_true (fun h => hn ⟨hl, h⟩)
        rw [ha, Bool.and_false]
      · rw [decide_eq_false hl, Bool.false_and, Bool.false_and]
    · rw [decide_eq_false hc, Bool.and_false] at h
      exact absurd h Bool.false_ne_true

/-- The three submatches of `uriRegex` are the components of the generic parse, an
absent component being the empty string. -/
theorem uriSubmatch_eq_specParse (w : Str) :
    (uriSubmatch w).1 = (specParse w).scheme.getD [] ∧
    (uriSubmatch w).2.1 = (specParse w).authority.getD [] ∧
    (uriSubmatch w).2.2 = (specParse w).path := by
  obtain ⟨h1, h2⟩ := scheme_agree w
  rw [h1] at h2
  unfold uriSubmatch specParse
  simp only [matchesAt_slashes, h1]
  have hfa : notAuthorityStop = (fun b => !decide (b ∈ str "/?#")) := rfl
  have hfp : notPathStop = (fun b => !decide (b ∈ str "?#")) := rfl
  rw [hfa, hfp]
  simp only [dropWhile_eq_drop (fun b => !decide (b ∈ str "/?#"))]
  cases hok : (decide ((w.takeWhile (fun b => decide (b ≠ 58))).length < w.length) &&
      decide (w.takeWhile (fun b => decide (b ≠ 58)) ≠ []) &&
      (w.takeWhile (fun b => decide (b ≠ 58))).all (fun b => !decide (b ∈ str "/?#")))
  · rw [hok] at h2
    simp only [Bool.false_eq_true, if_false, Option.getD_none]
    refine ⟨?_, ?_, ?_⟩
    · trivial
    · cases HasPrefix w (str "//") <;> rfl
    · trivial
  · have heq := h2 hok
    rw [heq.1, heq.2]
    simp only [if_true, Option.getD_some]
    refine ⟨?_, ?_, ?_⟩
    · trivial
    · cases HasPrefix (w.drop ((w.takeWhile (fun b => decide (b ≠ 58))).length + 1)) (str "//") <;>
        rfl
    · trivial

theorem isURI_iff_specAccept (w : Str) (hne : w ≠ []) (hlegal : ∀ b ∈ w, isLegalChar b = true)
    (hwf : wellFormedEscapes w = true) : isURI w = true ↔ specAccept w = true := by
  have hany : w.any (fun b => !isLegalChar b) = false := by
    rw [List.any_eq_false]
    intro b hb
    simp [hlegal b hb]
  obtain ⟨e1, e2, e3⟩ := uriSubmatch_eq_specParse w
  unfold isURI specAccept
  rw [if_neg hne, hany, wellFormed_incompleteHex1 w hwf, wellFormed_incompleteHex2 w hwf]
  simp only [e1, e2, e3, specSchemeShape_eq]
  generalize (specParse w).scheme = sc
  generalize (specParse w).authority = au
  generalize (specParse w).path = pa
  cases sc with
  | none => simp
  | some s =>
    cases s with
    | nil => simp
    | cons s0 s1 =>
      cases au with
      | none =>
        cases HasPrefix pa (str "//") <;> cases schemeRegex (s0 :: s1) <;> simp
      | some a =>
        cases a with
        | nil => cases HasPrefix pa (str "//") <;> cases schemeRegex (s0 :: s1) <;> simp
        | cons a0 a1 =>
          cases HasPrefix pa (str "/") <;> cases schemeRegex (s0 :: s1) <;>
            cases pa <;> simp

/-- Unless the authority is present and empty, the acceptance with the empty authority
counted as none is the acceptance of the claim. -/
theorem specAccept_eq_asClaimed (w : Str) (h : (specParse w).authority ≠ some []) :
    specAccept w = specAcceptAsClaimed w := by
  unfold specAccept specAcceptAsClaimed
  cases hs : (specParse w).scheme with
  | none => rfl
  | some scheme =>
    cases ha : (specParse w).authority with
    | none => rfl
    | some a =>
      cases a with
      | nil => exact absurd ha h
      | cons a0 a1 => rfl

theorem isURI_false_of_illegal (w : Str) (b : Fin 256) (hb : b ∈ w)
    (hill : isLegalChar b = false) : isURI w = false := by
  have hany : w.any (fun b => !isLegalChar b) = true := by
    rw [List.any_eq_true]
    exact ⟨b, hb, by simp [hill]⟩
  unfold isURI
  simp [hany]

/-- C17 fails as stated.  In "file:////x" every character is allowed and there is no
percent-escape; the generic parse gives the scheme "file", an authority that is present
and empty (the text between `//` and the next `/`), and the path "//x", which begins
with `/`: the conditions of the claim are met.  `isURI` returns false: it tests
`authority != ""`, takes the empty authority for none, and rejects a path that begins
with `//`. -/
theorem C17_empty_authority_rejected :
    str "file:////x" ≠ [] ∧ (∀ b ∈ str "file:////x", isLegalChar b = true) ∧
    wellFormedEscapes (str "file:////x") = true ∧
    (specParse (str "file:////x")).scheme = some (str "file") ∧
    (specParse (str "file:////x")).authority = some [] ∧
    (specParse (str "file:////x")).path = str "//x" ∧
    specAcceptAsClaimed (str "file:////x") = true ∧
    isURI (str "file:////x") = false := by
  refine ⟨by decide, by decide!, by decide!, by decide!, by decide!, by decide!, by decide!,
    by decide!⟩

/-- C17, amended. On a non-empty string of allowed characters whose percent-escapes are
well-formed, `isURI` is true exactly when the generic parse gives a non-empty scheme of
the shape `[A-Za-z][A-Za-z0-9+.-]*` and, if the authority is present and not empty, a
path that is empty or begins with `/`, and, if the authority is absent or empty, a path
that does not begin with `//`; where the authority is present and not empty, or absent,
this is the acceptance of the claim. The empty string and a string with any other
character are rejected; the four examples evaluate as stated. -/
theorem C17_isURI_generic_parse :
    (∀ w : Str, w ≠ [] → (∀ b ∈ w, isLegalChar b = true) → wellFormedEscapes w = true →
      (isURI w = true ↔ specAccept w = true)) ∧
    (∀ w : Str, (specParse w).authority ≠ some [] → specAccept w = specAcceptAsClaimed w) ∧
    isURI [] = false ∧
    (∀ (w : Str) (b : Fin 256), b ∈ w → isLegalChar b = false → isURI w = false) ∧
    isURI (str "mailto:user@example.com") = true ∧
    isURI (str "file:///path/to/file") = true ∧
    isURI (str "://example.com") = false ∧
    isURI (str "ht tp://invalid.com") = false :=
  ⟨isURI_iff_specAccept, specAccept_eq_asClaimed, rfl, isURI_false_of_illegal, by decide!,
    by decide!, by decide!, by decide!⟩

theorem C17_isURI_generic_parse_witness :
    str "mailto:user@example.com" ≠ [] ∧
    (∀ b ∈ str "mailto:user@example.com", isLegalChar b = true) ∧
    wellFormedEscapes (str "mailto:user@example.com") = true ∧
    (isURI (str "mailto:user@example.com") = true ↔
      specAccept (str "mailto:user@example.com") = true) :=
  ⟨by decide!, by decide!, by decide!,
    C17_isURI_generic_parse.1 (str "mailto:user@example.com") (by decide!) (by decide!)
      (by decide!)⟩

/-! ### Runes and white space -/

theorem decodeRune_ascii (b : Fin 256) (rest : Str) (h : b.val < 128) :
    decodeRune b rest = (b.val, 1) := by
  unfold decodeRune
  simp only
  rw [if_pos h]

theorem RandomInt_in_range (s : Seed) (min max : Int) (h : min < max)
    (e1 : float64OfInt min = min) (e2 : float64OfInt max = max) :
    (RandomInt s min max).1.err = none ∧
      min ≤ (RandomInt s min max).1.val ∧ (RandomInt s min max).1.val ≤ max := by
  have hq : (min : ℚ) < (max : ℚ) := by exact_mod_cast h
  rw [RandomInt_of_lt s min max h (by rw [e1, e2]; exact hq), e1, e2]
  have hr := denormalize_range _ _ _ (draw_nonneg s) (draw_lt_one s) hq
  exact ⟨rfl, mathRound_range _ _ _ hr.1 hr.2.le⟩

theorem RandomInt_same (s : Seed) (n : Int) : (RandomInt s n n).1.val = 0 := by
  unfold RandomInt
  simp

/-- The index `RandomInt(0, len-1)` gives, or the `0` it leaves on failure when the
lexicon has one entry, is within a lexicon that is not empty. -/
theorem index_RandomInt (lexicon : List Str) (s : Seed) (hne : lexicon ≠ [])
    (hlen : lexicon.length ≤ 2 ^ 53) :
    ∃ e ∈ lexicon,
      index lexicon (RandomInt s 0 ((lexicon.length : Int) - 1)).1.val = some e := by
  have hpos : 0 < lexicon.length := List.length_pos.mpr hne
  have hval : 0 ≤ (RandomInt s 0 ((lexicon.length : Int) - 1)).1.val ∧
      (RandomInt s 0 ((lexicon.length : Int) - 1)).1.val ≤ (lexicon.length : Int) - 1 := by
    by_cases h1 : lexicon.length = 1
    · rw [h1]
      have : ((1 : Nat) : Int) - 1 = 0 := by norm_num
      rw [this, RandomInt_same]
      exact ⟨le_refl _, le_refl _⟩
    · have hlt : (0 : Int) < (lexicon.length : Int) - 1 := by omega
      have e1 : float64OfInt 0 = ((0 : Int) : ℚ) := float64OfInt_exact 0 (by decide)
      have e2 : float64OfInt ((lexicon.length : Int) - 1) =
          (((lexicon.length : Int) - 1 : Int) : ℚ) :=
        float64OfInt_exact _ (by omega)
      exact (RandomInt_in_range s 0 _ hlt e1 e2).2
  generalize (RandomInt s 0 ((lexicon.length : Int) - 1)).1.val = v at hval
  unfold index
  rw [if_pos hval.1]
  have hlt : v.toNat < lexicon.length := by omega
  refine ⟨lexicon[v.toNat], List.getElem_mem _, ?_⟩
  rw [List.get?_eq_getElem?, List.getElem?_eq_getElem hlt]

theorem uwuifySpaceLoop_above (U : UnicodeTables) (u : Uwuifier) (ws : List Str)
    (h : ∀ w ∈ ws, drawAbove u w = true) :
    ∀ (first : Bool) (prevWord : Str), uwuifySpaceLoop U u first prevWord ws = some ws := by
  induction ws with
  | nil => intro first prevWord; rfl
  | cons w ws ih =>
    intro first prevWord
    have hw := h w (by simp)
    unfold drawAbove at hw
    simp only [decide_eq_true_eq] at hw
    rw [uwuifySpaceLoop, uwuifySpaceWord_above U u first prevWord w hw.1 hw.2.1 hw.2.2]
    simp only
    rw [ih (fun x hx => h x (List.mem_cons_of_mem _ hx))]

/-- A sentence all of whose tokens draw above the thresholds leaves the space pass as it
came. -/
theorem UwuifySpaces_above (U : UnicodeTables) (u : Uwuifier) (s : Str)
    (h : (Split s).all (drawAbove u) = true) : UwuifySpaces U u s = some s := by
  rw [UwuifySpaces, uwuifySpaceLoop_above U u (Split s) (fun w hw => List.all_eq_true.mp h w hw)]
  simp [Join_Split]

/-- C18. With the default configuration `UwuifySentence("This package is amazing!")`
returns "This package is amazing!?", not the "This package is amazinyg! UwU" of the
package documentation: no rule touches a word (in "amazing" the `n` stands before `g`,
not before a vowel), the exclamation pass replaces the `!` by "!?", and no token draws
a face, an action or a stutter. -/
theorem C18_doc_example_differs :
    (∀ U : UnicodeTables, UwuifySentence U (New []) (str "This package is amazing!") =
      some (str "This package is amazing!?")) ∧
    str "This package is amazing!?" ≠ str "This package is amazinyg! UwU" ∧
    UwuifyWords (New []) (str "This package is amazing!") = str "This package is amazing!" := by
  refine ⟨?_, by decide!, by decide!⟩
  intro U
  have h1 : UwuifyExclamations (New []) (UwuifyWords (New []) (str "This package is amazing!")) =
      some (str "This package is amazing!?") := by decide!
  rw [UwuifySentence, h1, Option.some_bind]
  exact UwuifySpaces_above U _ _ (by decide!)

/-! ### The face band and the stutter band -/

/-- With the spacing triple `{1, 0, 0}` and a face lexicon that is not empty, a token
that is not white space gets one face: the output is the token with the face appended
after a single space, put through `checkCapital`; a white-space token stays. -/
theorem uwuifySpaceWord_faces_one (U : UnicodeTables) (u : Uwuifier)
    (hmod : u.spacesModifier = ⟨1, 0, 0⟩) (hne : u.Faces ≠ []) (hlen : u.Faces.length ≤ 2 ^ 53)
    (first : Bool) (prevWord : Str) (b0 : Fin 256) (rest : Str) :
    (isBreak (b0 :: rest) = true →
      uwuifySpaceWord U u first prevWord (b0 :: rest) = some (b0 :: rest)) ∧
    (isBreak (b0 :: rest) = false →
      ∃ face ∈ u.Faces,
        uwuifySpaceWord U u first prevWord (b0 :: rest) =
          some (checkCapital U first prevWord b0.val ((b0 :: rest) ++ 32 :: face))) := by
  have hle : Float64.num (Random (NewSeed (b0 :: rest)) 0 1).1.val ≤ 1 := by
    rw [Random_zero_one, Float64.one_eq]
    exact (Float64.num_le_num _ _).mpr (draw_lt_one _).le
  have hpos : u.Faces.length > 0 := List.length_pos.mpr hne
  rw [uwuifySpaceWord_thresholds]
  unfold stutterThreshold actionThreshold faceThreshold
  rw [hmod]
  constructor
  · intro hb
    simp [hb]
  · intro hb
    obtain ⟨face, hmem, hface⟩ :=
      index_RandomInt u.Faces (Random (NewSeed (b0 :: rest)) 0 1).2 hne hlen
    refine ⟨face, hmem, ?_⟩
    rw [if_pos ⟨hle, hpos, hb⟩, hface]

theorem checkCapital_cases (U : UnicodeTables) (first : Bool) (prevWord : Str)
    (firstChar : Nat) (word : Str) :
    checkCapital U first prevWord firstChar word = word ∨
      checkCapital U first prevWord firstChar word =
        utf8Encode (ToLower U firstChar) ++ word.drop 1 := by
  unfold checkCapital
  split
  · exact Or.inl rfl
  · split
    · exact Or.inl rfl
    · split
      · exact Or.inr rfl
      · split
        · exact Or.inl rfl
        · split
          · exact Or.inr rfl
          · exact Or.inl rfl

/-- On a first byte that is an ASCII character, lower-casing replaces that byte by its
lower-case letter. -/
theorem utf8Encode_ToLower_ascii (U : UnicodeTables) (b0 : Fin 256) (h : b0.val < 128) :
    utf8Encode (ToLower U b0.val) =
      [if 65 ≤ b0.val ∧ b0.val ≤ 90 then Fin.ofNat (b0.val + 32) else b0] := by
  unfold ToLower
  rw [if_pos h]
  by_cases hu : 65 ≤ b0.val ∧ b0.val ≤ 90
  · rw [if_pos hu, if_pos hu]
    unfold utf8Encode
    rw [if_neg (by omega), if_pos (by omega)]
  · rw [if_neg hu, if_neg hu]
    unfold utf8Encode
    rw [if_neg (by omega), if_pos h]
    congr 1
    apply Fin.ext
    show b0.val % 256 = b0.val
    omega

/-- C12. With the spacing triple `{1, 0, 0}` and the default lexicons `UwuifySpaces`
turns the one-token sentence "École" (bytes `C3 89 63 6F 6C 65`) into the bytes
`C3 A3 89 63 6F 6C 65`, a space and the face "^-^": `string(word[0])` is the first
byte read as the character `Ã`, whose lower case `ã` takes the place of that one byte.
The output token is neither "École" nor "école". -/
theorem C12_first_byte_lowered :
    UwuifySpaces latin1Tables (New [WithSpaces ⟨1, 0, 0⟩]) (str "École") =
      some ([0xC3, 0xA3, 0x89] ++ str "cole ^-^") ∧
    [0xC3, 0xA3, 0x89] ++ str "cole ^-^" ≠ str "École ^-^" ∧
    [0xC3, 0xA3, 0x89] ++ str "cole ^-^" ≠ str "école ^-^" ∧
    isBreak (str "École") = false := by
  refine ⟨by decide!, by decide!, by decide!, by decide!⟩

/-- Where the stutter band is selected the output is the word with `k` copies of
`string(word[0])` and `-` in front, `k = RandomInt(0, 2)` of the generator seeded with
the word, `0 ≤ k ≤ 2`; nothing is appended and `checkCapital` is not called. -/
theorem uwuifySpaceWord_stutter (U : UnicodeTables) (u : Uwuifier) (first : Bool)
    (prevWord : Str) (b0 : Fin 256) (rest : Str)
    (hf : ¬ (Float64.num (Random (NewSeed (b0 :: rest)) 0 1).1.val ≤ faceThreshold u.spacesModifier ∧
      u.Faces.length > 0 ∧ isBreak (b0 :: rest) = false))
    (ha : ¬ (Float64.num (Random (NewSeed (b0 :: rest)) 0 1).1.val ≤ actionThreshold u.spacesModifier ∧
      u.Actions.length > 0 ∧ isBreak (b0 :: rest) = false))
    (hs : Float64.num (Random (NewSeed (b0 :: rest)) 0 1).1.val ≤ stutterThreshold u.spacesModifier ∧
      isURI (b0 :: rest) = false ∧ isBreak (b0 :: rest) = false) :
    (0 ≤ (RandomInt (sfc32 (NewSeed (b0 :: rest))).2 0 2).1.val ∧
      (RandomInt (sfc32 (NewSeed (b0 :: rest))).2 0 2).1.val ≤ 2) ∧
    uwuifySpaceWord U u first prevWord (b0 :: rest) =
      some (Repeat (utf8Encode b0.val ++ str "-")
        (RandomInt (sfc32 (NewSeed (b0 :: rest))).2 0 2).1.val.toNat ++ (b0 :: rest)) := by
  have hr := RandomInt_in_range (sfc32 (NewSeed (b0 :: rest))).2 0 2 (by norm_num)
    (float64OfInt_exact 0 (by decide)) (float64OfInt_exact 2 (by decide))
  refine ⟨hr.2, ?_⟩
  rw [uwuifySpaceWord_thresholds, if_neg hf, if_neg ha, if_pos hs]
  simp only [Random_zero_one]
  rw [if_neg (not_lt.mpr hr.2.1)]

/-- A token for which `isURI` is true never enters the stutter branch: it gets a face,
an action, or stays as it is. -/
theorem uwuifySpaceWord_uri_not_stuttered (U : UnicodeTables) (u : Uwuifier) (first : Bool)
    (prevWord : Str) (word : Str) (huri : isURI word = true) :
    uwuifySpaceWord U u first prevWord word = some word ∨
    uwuifySpaceWord U u first prevWord word = none ∨
    ∃ e, (e ∈ u.Faces ∨ e ∈ u.Actions) ∧
      uwuifySpaceWord U u first prevWord word =
        some (checkCapital U first prevWord (word.headD 0).val (word ++ 32 :: e)) := by
  cases word with
  | nil => exact Or.inl rfl
  | cons b0 rest =>
    rw [uwuifySpaceWord_thresholds]
    split
    · cases hi : index u.Faces _ with
      | none => exact Or.inr (Or.inl rfl)
      | some face =>
        refine Or.inr (Or.inr ⟨face, Or.inl ?_, rfl⟩)
        unfold index at hi
        split at hi
        · exact List.get?_mem hi
        · cases hi
    · split
      · cases hi : index u.Actions _ with
        | none => exact Or.inr (Or.inl rfl)
        | some action =>
          refine Or.inr (Or.inr ⟨action, Or.inr ?_, rfl⟩)
          unfold index at hi
          split at hi
          · exact List.get?_mem hi
          · cases hi
      · rw [if_neg (fun h => by rw [huri] at h; exact Bool.noConfusion h.2.1)]
        exact Or.inl rfl

/-- C20. With the default configuration `UwuifySpaces` turns the one-token sentence
"être" (bytes `C3 AA 74 72 65`, not a URI, not white space), whose draw selects the
stutter band with `k = 2`, into "Ã-Ã-être": the text repeated is `string(word[0])`, the
first byte `C3` read as the character `Ã`, not the first character `ê` of the token. -/
theorem C20_stutter_repeats_first_byte :
    (∀ U : UnicodeTables, UwuifySpaces U (New []) (str "être") = some (str "Ã-Ã-être")) ∧
    (RandomInt (sfc32 (NewSeed (str "être"))).2 0 2).1.val = 2 ∧
    isURI (str "être") = false ∧ isBreak (str "être") = false ∧
    str "Ã-Ã-être" ≠ str "ê-ê-être" := by
  have hk : (RandomInt (sfc32 (NewSeed (str "être"))).2 0 2).1.val = 2 := by decide!
  refine ⟨?_, hk, by decide!, by decide!, by decide!⟩
  intro U
  have hw : str "être" = (0xC3 : Fin 256) :: [0xAA, 0x74, 0x72, 0x65] := by decide
  rw [UwuifySpaces_single U _ _ (by decide)]
  rw [hw] at hk ⊢
  rw [(uwuifySpaceWord_stutter U (New []) true [] 0xC3 [0xAA, 0x74, 0x72, 0x65]
    (by decide!) (by decide!) (by decide!)).2, hk]
  decide

/-! ### The word pass and the exclamation pass, token by token -/

/-- Splitting at a space: the tokens of `a`, then the tokens of `b`. -/
theorem Split_append (a b : Str) : Split (a ++ 32 :: b) = Split a ++ Split b := by
  induction a with
  | nil => simp [Split]
  | cons x a ih =>
    rw [List.cons_append]
    by_cases hx : x = 32
    · rw [Split, if_pos hx, ih, Split, if_pos hx]
      rfl
    · rw [Split, if_neg hx, ih, Split, if_neg hx]
      cases hs : Split a with
      | nil => exact absurd hs (Split_ne_nil a)
      | cons w ws => rfl

theorem Join_append (xs ys : List Str) (hx : xs ≠ []) (hy : ys ≠ []) :
    Join (xs ++ ys) = Join xs ++ 32 :: Join ys := by
  induction xs with
  | nil => exact absurd rfl hx
  | cons w rest ih =>
    cases rest with
    | nil =>
      cases ys with
      | nil => exact absurd rfl hy
      | cons y ys => rfl
    | cons w1 ws =>
      rw [List.cons_append, List.cons_append, Join, ← List.cons_append, ih (by simp), Join]
      simp

theorem mapWords_length (body : Str → Option Str) :
    ∀ (ws out : List Str), mapWords body ws = some out → out.length = ws.length := by
  intro ws
  induction ws with
  | nil => intro out h; simp [mapWords] at h; subst h; rfl
  | cons w ws ih =>
    intro out h
    rw [mapWords] at h
    cases hb : body w with
    | none => rw [hb] at h; cases h
    | some w1 =>
      rw [hb] at h
      cases hm : mapWords body ws with
      | none => rw [hm] at h; cases h
      | some ws1 =>
        rw [hm] at h
        simp only [Option.some.injEq] at h
        subst h
        simp [ih ws1 hm]

theorem mapWords_append (body : Str → Option Str) (xs ys : List Str) :
    mapWords body (xs ++ ys) =
      (mapWords body xs).bind (fun a => (mapWords body ys).map (fun b => a ++ b)) := by
  induction xs with
  | nil =>
    rw [List.nil_append]
    cases hm : mapWords body ys <;> simp [mapWords]
  | cons w ws ih =>
    rw [List.cons_append, mapWords, mapWords, ih]
    cases body w with
    | none => rfl
    | some w1 =>
      cases mapWords body ws with
      | none => rfl
      | some ws1 =>
        cases mapWords body ys with
        | none => rfl
        | some ys1 => rfl

/-- C24. The word pass and the exclamation pass work token by token: for every
configuration and all strings `a` and `b`, `UwuifyWords(a + " " + b)` is
`UwuifyWords(a) + " " + UwuifyWords(b)`, and `UwuifyExclamations(a + " " + b)` is
`UwuifyExclamations(a) + " " + UwuifyExclamations(b)` (it panics exactly when one of the
two does).  On a sentence made of the tokens `ws` each pass returns the tokens
`uwuifyWord u w`, respectively `uwuifyExclamationWord u w`, joined by spaces: what a token
becomes is a function of the configuration and of its own text alone. -/
theorem C24_word_and_exclamation_passes_per_token (u : Uwuifier) (a b : Str) :
    UwuifyWords u (a ++ 32 :: b) = UwuifyWords u a ++ 32 :: UwuifyWords u b ∧
    UwuifyExclamations u (a ++ 32 :: b) =
      (UwuifyExclamations u a).bind
        (fun x => (UwuifyExclamations u b).map (fun y => x ++ 32 :: y)) ∧
    (∀ ws : List Str, ws ≠ [] → (∀ w ∈ ws, (32 : Fin 256) ∉ w) →
      UwuifyWords u (Join ws) = Join (ws.map (uwuifyWord u)) ∧
      UwuifyExclamations u (Join ws) = (mapWords (uwuifyExclamationWord u) ws).map Join) := by
  refine ⟨?_, ?_, ?_⟩
  · unfold UwuifyWords
    rw [Split_append, List.map_append, Join_append]
    · simpa using Split_ne_nil a
    · simpa using Split_ne_nil b
  · unfold UwuifyExclamations
    rw [Split_append, mapWords_append]
    cases ha : mapWords (uwuifyExclamationWord u) (Split a) with
    | none => rfl
    | some xs =>
      cases hb : mapWords (uwuifyExclamationWord u) (Split b) with
      | none => rfl
      | some ys =>
        have hx : xs ≠ [] := by
          intro e
          have := mapWords_length _ _ _ ha
          rw [e] at this
          exact Split_ne_nil a (List.length_eq_zero.mp this.symm)
        have hy : ys ≠ [] := by
          intro e
          have := mapWords_length _ _ _ hb
          rw [e] at this
          exact Split_ne_nil b (List.length_eq_zero.mp this.symm)
        simp only [Option.some_bind, Option.map_some']
        rw [Join_append xs ys hx hy]
  · intro ws hne hsp
    unfold UwuifyWords UwuifyExclamations
    rw [Split_Join ws hne hsp]
    exact ⟨rfl, rfl⟩

/-! ### The space pass on the slice and the space pass token by token -/

theorem index_append_length (done : List Str) (w : Str) (todo : List Str) :
    index (done ++ w :: todo) (done.length : Int) = some w := by
  unfold index
  rw [if_pos (by omega), Int.toNat_ofNat, List.get?_eq_getElem?,
    List.getElem?_append_right (le_refl _)]
  simp

theorem index_append_pred (done : List Str) (p w : Str) (todo : List Str) :
    index ((done ++ [p]) ++ w :: todo) (((done ++ [p]).length : Nat) - 1 : Int) = some p := by
  unfold index
  rw [if_pos (by simp)]
  have : ((((done ++ [p]).length : Nat) : Int) - 1).toNat = done.length := by simp
  rw [this, List.append_assoc, List.get?_eq_getElem?,
    List.getElem?_append_right (le_refl _)]
  simp

theorem byteAt_last (p : Str) (h : p.length > 0) :
    byteAt p ((p.length : Int) - 1) = p.getLast? := by
  unfold byteAt
  rw [if_pos (by omega)]
  have : ((p.length : Int) - 1).toNat = p.length - 1 := by omega
  rw [this, List.getLast?_eq_getElem?]
  simp

theorem lowerFirst_of_ne_nil (U : UnicodeTables) (firstChar : Nat) (word : Str)
    (h : word ≠ []) : lowerFirst U firstChar word =
      some (utf8Encode (ToLower U firstChar) ++ word.drop 1) := by
  unfold lowerFirst sliceFrom
  have : 1 ≤ word.length := List.length_pos.mpr h
  rw [if_pos this]

/-- Read on the slice `done ++ w :: todo` at the index of `w`, the closure `checkCapital`
makes no access out of bounds, and returns what `checkCapital` returns with `done = []`
for `i == 0` and the last word of `done`, as the loop left it, for `words[i-1]`. -/
theorem checkCapitalInPlace_eq (U : UnicodeTables) (done : List Str) (w : Str)
    (todo : List Str) (firstChar : Nat) (word : Str) (h : word ≠ []) :
    checkCapitalInPlace U (done ++ w :: todo) done.length firstChar word =
      some (checkCapital U (decide (done = [])) (done.getLastD []) firstChar word) := by
  unfold checkCapitalInPlace checkCapital
  by_cases h1 : utf8Encode firstChar ≠ utf8Encode (ToUpper U firstChar)
  · rw [if_pos h1, if_pos h1]
  · rw [if_neg h1, if_neg h1]
    by_cases h2 : getCapitalPercentage U word > 1 / 2
    · rw [if_pos h2, if_pos h2]
    · rw [if_neg h2, if_neg h2]
      rcases List.eq_nil_or_concat done with rfl | ⟨d, p, hdp⟩
      · simp [lowerFirst_of_ne_nil U firstChar word h]
      · rw [List.concat_eq_append] at hdp
        subst hdp
        have hi : ¬ (d ++ [p]).length = 0 := by simp
        have hd : decide (d ++ [p] = []) = false := by simp
        rw [if_neg hi, hd, index_append_pred]
        simp only [Bool.false_eq_true, if_false, List.getLastD_concat]
        by_cases hp : p.length > 0
        · rw [if_pos hp, byteAt_last p hp]
          cases hl : p.getLast? with
          | none =>
            rw [List.getLast?_eq_none_iff] at hl
            subst hl
            exact absurd hp (by simp)
          | some lastChar =>
            simp only
            by_cases hm : lastChar ∈ str ".!?-"
            · rw [if_pos hm, if_pos hm, lowerFirst_of_ne_nil U firstChar word h]
            · rw [if_neg hm, if_neg hm]
        · rw [if_neg hp]
          have : p = [] := List.length_eq_zero.mp (by omega)
          subst this
          rfl


theorem set_append_length (done : List Str) (w w1 : Str) (todo : List Str) :
    (done ++ w :: todo).set done.length w1 = done ++ w1 :: todo := by
  induction done with
  | nil => rfl
  | cons d ds ih => simp [ih]

/-- One turn of the loop on the slice `done ++ w :: todo` at the index of `w` stores
what the body `uwuifySpaceWord` returns for `w`, and panics where it does. -/
theorem uwuifySpaceWordInPlace_eq (U : UnicodeTables) (u : Uwuifier) (done : List Str)
    (w : Str) (todo : List Str) :
    uwuifySpaceWordInPlace U u (done ++ w :: todo) done.length =
      (uwuifySpaceWord U u (decide (done = [])) (done.getLastD []) w).map
        (fun w1 => done ++ w1 :: todo) := by
  unfold uwuifySpaceWordInPlace
  rw [index_append_length]
  cases w with
  | nil => rfl
  | cons b0 rest =>
    have hb : byteAt (b0 :: rest) 0 = some b0 := rfl
    have hne : ∀ e : Str, (b0 :: rest) ++ 32 :: e ≠ [] := fun e => by simp
    rw [uwuifySpaceWord_thresholds]
    simp only [if_neg (List.cons_ne_nil b0 rest), hb]
    unfold stutterThreshold actionThreshold faceThreshold
    by_cases hf : Float64.num (Random (NewSeed (b0 :: rest)) 0 1).1.val ≤
        u.spacesModifier.Faces ∧
        u.Faces.length > 0 ∧ isBreak (b0 :: rest) = false
    · simp only [if_pos hf]
      cases index u.Faces _ with
      | none => rfl
      | some face =>
        simp only [checkCapitalInPlace_eq U done (b0 :: rest) todo b0.val _ (hne face),
          set_append_length, Option.map_some']
    · simp only [if_neg hf]
      by_cases ha : Float64.num (Random (NewSeed (b0 :: rest)) 0 1).1.val ≤
          u.spacesModifier.Actions + u.spacesModifier.Faces ∧
          u.Actions.length > 0 ∧ isBreak (b0 :: rest) = false
      · simp only [if_pos ha]
        cases index u.Actions _ with
        | none => rfl
        | some action =>
          simp only [checkCapitalInPlace_eq U done (b0 :: rest) todo b0.val _ (hne action),
            set_append_length, Option.map_some']
      · simp only [if_neg ha]
        by_cases hs : Float64.num (Random (NewSeed (b0 :: rest)) 0 1).1.val ≤
            u.spacesModifier.Stutters + (u.spacesModifier.Actions + u.spacesModifier.Faces) ∧
            isURI (b0 :: rest) = false ∧ isBreak (b0 :: rest) = false
        · simp only [if_pos hs]
          by_cases hc : (RandomInt (Random (NewSeed (b0 :: rest)) 0 1).2 0 2).1.val < 0
          · simp only [if_pos hc]
            rfl
          · simp only [if_neg hc, set_append_length, Option.map_some']
        · simp only [if_neg hs, set_append_length, Option.map_some']

theorem uwuifySpacesInPlaceLoop_eq (U : UnicodeTables) (u : Uwuifier) (todo : List Str) :
    ∀ done : List Str,
      uwuifySpacesInPlaceLoop U u todo.length done.length (done ++ todo) =
        (uwuifySpaceLoop U u (decide (done = [])) (done.getLastD []) todo).map
          (fun ws => done ++ ws) := by
  induction todo with
  | nil => intro done; simp [uwuifySpacesInPlaceLoop, uwuifySpaceLoop]
  | cons w todo ih =>
    intro done
    rw [List.length_cons, uwuifySpacesInPlaceLoop, uwuifySpaceWordInPlace_eq, uwuifySpaceLoop]
    cases hw : uwuifySpaceWord U u (decide (done = [])) (done.getLastD []) w with
    | none => rfl
    | some w1 =>
      have h1 := ih (done ++ [w1])
      simp only [List.length_append, List.length_singleton, List.append_assoc,
        List.singleton_append, List.getLastD_concat] at h1
      have hd : decide (done ++ [w1] = []) = false := by simp
      rw [hd] at h1
      simp only [Option.map_some']
      rw [h1]
      cases uwuifySpaceLoop U u false w1 todo with
      | none => rfl
      | some ws => rfl

/-- The space pass on the slice it rewrites, with its checked accesses, and the space
pass token by token return the same text and panic on the same inputs: no access to
`word[0]`, `word[1:]`, `words[i-1]` or the last byte of the previous word is out of
bounds, and the previous word `checkCapital` reads is the one the loop has stored. -/
theorem UwuifySpacesInPlace_eq (U : UnicodeTables) (u : Uwuifier) (sentence : Str) :
    UwuifySpacesInPlace U u sentence = UwuifySpaces U u sentence := by
  unfold UwuifySpacesInPlace UwuifySpaces
  have h := uwuifySpacesInPlaceLoop_eq U u (Split sentence) []
  have hd : decide (([] : List Str) = []) = true := rfl
  have hl : ([] : List Str).getLastD [] = [] := rfl
  rw [List.length_nil, List.nil_append, hd, hl] at h
  rw [h]
  cases uwuifySpaceLoop U u true [] (Split sentence) with
  | none => rfl
  | some ws => rfl

/-! ### Totality of the passes -/

theorem uwuifyExclamationWord_total (u : Uwuifier) (hne : u.Exclamations ≠ [])
    (hlen : u.Exclamations.length ≤ 2 ^ 53) (w : Str) :
    ∃ out, uwuifyExclamationWord u w = some out := by
  unfold uwuifyExclamationWord
  simp only
  split
  · exact ⟨_, rfl⟩
  · obtain ⟨e, _, he⟩ := index_RandomInt u.Exclamations (Random (NewSeed w) 0 1).2 hne hlen
    rw [he]
    exact ⟨_, rfl⟩

theorem mapWords_some (body : Str → Option Str) (ws : List Str)
    (h : ∀ w, ∃ out, body w = some out) : ∃ out, mapWords body ws = some out := by
  induction ws with
  | nil => exact ⟨_, rfl⟩
  | cons w ws ih =>
    obtain ⟨w1, hw1⟩ := h w
    obtain ⟨ws1, hws1⟩ := ih
    rw [mapWords, hw1, hws1]
    exact ⟨_, rfl⟩

theorem UwuifyExclamations_total (u : Uwuifier) (hne : u.Exclamations ≠ [])
    (hlen : u.Exclamations.length ≤ 2 ^ 53) (s : Str) :
    ∃ out, UwuifyExclamations u s = some out := by
  obtain ⟨ws, hws⟩ := mapWords_some (uwuifyExclamationWord u) (Split s)
    (uwuifyExclamationWord_total u hne hlen)
  rw [UwuifyExclamations, hws]
  exact ⟨_, rfl⟩

theorem uwuifySpaceWord_total (U : UnicodeTables) (u : Uwuifier)
    (hF : u.Faces.length ≤ 2 ^ 53) (hA : u.Actions.length ≤ 2 ^ 53) (first : Bool)
    (prevWord : Str) (w : Str) : ∃ out, uwuifySpaceWord U u first prevWord w = some out := by
  cases w with
  | nil => exact ⟨_, rfl⟩
  | cons b0 rest =>
    rw [uwuifySpaceWord_thresholds]
    split
    · rename_i h
      obtain ⟨e, _, he⟩ := index_RandomInt u.Faces (Random (NewSeed (b0 :: rest)) 0 1).2
        (List.length_pos.mp h.2.1) hF
      rw [he]
      exact ⟨_, rfl⟩
    · split
      · rename_i h
        obtain ⟨e, _, he⟩ := index_RandomInt u.Actions (Random (NewSeed (b0 :: rest)) 0 1).2
          (List.length_pos.mp h.2.1) hA
        rw [he]
        exact ⟨_, rfl⟩
      · split
        · have hr := RandomInt_in_range (Random (NewSeed (b0 :: rest)) 0 1).2 0 2 (by norm_num)
            (float64OfInt_exact 0 (by decide)) (float64OfInt_exact 2 (by decide))
          rw [if_neg (not_lt.mpr hr.2.1)]
          exact ⟨_, rfl⟩
        · exact ⟨_, rfl⟩

theorem uwuifySpaceLoop_total (U : UnicodeTables) (u : Uwuifier)
    (hF : u.Faces.length ≤ 2 ^ 53) (hA : u.Actions.length ≤ 2 ^ 53) (ws : List Str) :
    ∀ (first : Bool) (prevWord : Str), ∃ out, uwuifySpaceLoop U u first prevWord ws = some out := by
  induction ws with
  | nil => intro _ _; exact ⟨_, rfl⟩
  | cons w ws ih =>
    intro first prevWord
    obtain ⟨w1, hw1⟩ := uwuifySpaceWord_total U u hF hA first prevWord w
    obtain ⟨ws1, hws1⟩ := ih false w1
    rw [uwuifySpaceLoop, hw1]
    simp only
    rw [hws1]
    exact ⟨_, rfl⟩

theorem UwuifySpaces_total (U : UnicodeTables) (u : Uwuifier)
    (hF : u.Faces.length ≤ 2 ^ 53) (hA : u.Actions.length ≤ 2 ^ 53) (s : Str) :
    ∃ out, UwuifySpaces U u s = some out := by
  obtain ⟨ws, hws⟩ := uwuifySpaceLoop_total U u hF hA (Split s) true []
  rw [UwuifySpaces, hws]
  exact ⟨_, rfl⟩

/-- With an empty `Exclamations` lexicon the exclamation pass panics on a token that
ends in `!`: `RandomInt(0, -1)` fails, the index stays `0`, and `u.Exclamations[0]` is
out of range. -/
theorem UwuifyExclamations_empty_lexicon :
    UwuifyExclamations { New [] with Exclamations := [] } (str "Hi!") = none := by
  decide!

/-- C25. For every Uwuifier whose `Exclamations` lexicon is not empty (the lexicons
having at most `2^53` entries, so that `len - 1` converts to `float64` exactly; `Faces`
and `Actions` may be empty or have one entry) and every sentence, the passes are total:
`UwuifyExclamations`, `UwuifySpaces` and `UwuifySentence` return a text and never panic
(`UwuifyWords` indexes nothing), so every lexicon index from `RandomInt`, or the `0` left
when `RandomInt` fails, is within the lexicon; and the space pass written on the slice
it rewrites, where `word[0]`, `word[1:]`, `words[i-1]` and the last byte of the previous
word are checked accesses, returns the same text, so none of them is out of bounds. -/
theorem C25_passes_total (U : UnicodeTables) (u : Uwuifier) (s : Str)
    (hne : u.Exclamations ≠ []) (hE : u.Exclamations.length ≤ 2 ^ 53)
    (hF : u.Faces.length ≤ 2 ^ 53) (hA : u.Actions.length ≤ 2 ^ 53) :
    (∃ out, UwuifyExclamations u s = some out) ∧
    (∃ out, UwuifySpacesInPlace U u s = some out ∧ UwuifySpaces U u s = some out) ∧
    (∃ out, UwuifySentence U u s = some out) := by
  refine ⟨UwuifyExclamations_total u hne hE s, ?_, ?_⟩
  · obtain ⟨out, hout⟩ := UwuifySpaces_total U u hF hA s
    exact ⟨out, by rw [UwuifySpacesInPlace_eq, hout], hout⟩
  · obtain ⟨e, he⟩ := UwuifyExclamations_total u hne hE (UwuifyWords u s)
    obtain ⟨out, hout⟩ := UwuifySpaces_total U u hF hA e
    exact ⟨out, by rw [UwuifySentence, he, Option.some_bind, hout]⟩

theorem C25_passes_total_witness :
    (∃ out, UwuifyExclamations { New [] with Faces := [], Actions := [str "*hug*"] }
      (str "Hi there, World!") = some out) ∧
    (∃ out, UwuifySpacesInPlace latin1Tables
        { New [] with Faces := [], Actions := [str "*hug*"] } (str "Hi there, World!") = some out ∧
      UwuifySpaces latin1Tables { New [] with Faces := [], Actions := [str "*hug*"] }
        (str "Hi there, World!") = some out) ∧
    (∃ out, UwuifySentence latin1Tables { New [] with Faces := [], Actions := [str "*hug*"] }
      (str "Hi there, World!") = some out) :=
  C25_passes_total latin1Tables { New [] with Faces := [], Actions := [str "*hug*"] }
    (str "Hi there, World!") (by decide) (by decide) (by decide) (by decide)

/-! ### The generator calls of the passes -/

theorem uwuifyWordRulesLogged_fst (m : Float64) (rules : List UwuReplacement) :
    ∀ (g : Seed) (w : Str), (uwuifyWordRulesLogged m rules g w).1 = uwuifyWordRules m rules g w := by
  induction rules with
  | nil => intro g w; rfl
  | cons r rules ih =>
    intro g w
    rw [uwuifyWordRulesLogged, uwuifyWordRules]
    simp only
    split
    · exact ih _ _
    · exact ih _ _

/-- Without its log, each logged body is the body of the pass. -/
theorem logged_fst (U : UnicodeTables) (u : Uwuifier) (first : Bool) (prevWord w : Str) :
    (uwuifyWordLogged u w).1 = uwuifyWord u w ∧
    (uwuifyExclamationWordLogged u w).1 = uwuifyExclamationWord u w ∧
    (uwuifySpaceWordLogged U u first prevWord w).1 = uwuifySpaceWord U u first prevWord w := by
  refine ⟨?_, ?_, ?_⟩
  · unfold uwuifyWordLogged uwuifyWord
    split
    · rfl
    · exact uwuifyWordRulesLogged_fst _ _ _ _
  · unfold uwuifyExclamationWordLogged uwuifyExclamationWord
    simp only
    split
    · rfl
    · split <;> simp_all
  · cases w with
    | nil => rfl
    | cons b0 rest =>
      unfold uwuifySpaceWordLogged uwuifySpaceWord
      simp only
      split
      · split <;> simp_all
      · split
        · split <;> simp_all
        · split
          · split <;> rfl
          · rfl

theorem uwuifyWordRulesLogged_calls (m : Float64) (rules : List UwuReplacement) :
    ∀ (g : Seed) (w : Str), ∀ e ∈ (uwuifyWordRulesLogged m rules g w).2,
      e.1 = Call.random 0 1 ∧ e.2.err = none := by
  induction rules with
  | nil => intro g w e he; cases he
  | cons r rules ih =>
    intro g w e he
    rw [uwuifyWordRulesLogged] at he
    simp only at he
    rcases List.mem_cons.mp he with rfl | he
    · refine ⟨rfl, ?_⟩
      show (Random g 0 1).1.err = none
      rw [Random_zero_one]
    · split at he
      · exact ih _ _ e he
      · exact ih _ _ e he


theorem RandomInt_index_ok (g : Seed) (n : Nat) (h2 : 2 ≤ n) (hb : n ≤ 2 ^ 53) :
    (Call.randomInt 0 ((n : Int) - 1)).minBelowMax = true ∧
      (RandomInt g 0 ((n : Int) - 1)).1.err = none := by
  have hlt : (0 : Int) < (n : Int) - 1 := by omega
  refine ⟨by simpa [Call.minBelowMax] using hlt, ?_⟩
  exact (RandomInt_in_range g 0 ((n : Int) - 1) hlt (float64OfInt_exact 0 (by decide))
    (float64OfInt_exact _ (by omega))).1

theorem Random_unit_ok (g : Seed) :
    (Call.random 0 1).minBelowMax = true ∧ (Outcome.float (Random g 0 1).1).err = none := by
  refine ⟨by simp [Call.minBelowMax], ?_⟩
  show (Random g 0 1).1.err = none
  rw [Random_zero_one]

/-- C23 fails as stated.  With the one-entry exclamation lexicon `["!!"]` the pass calls
`RandomInt(0, 0)` on the token "Hi!": the call is not made with `min < max` and returns
the error "minimum value cannot equal maximum value", which the pass discards (the
output is "Hi!!").  The same happens in `UwuifySpaces` with the one-entry face lexicon
`["uwu"]` on the token "Do...". -/
theorem C23_one_entry_lexicon_call_fails :
    ((uwuifyExclamationWordLogged { New [] with Exclamations := [str "!!"] } (str "Hi!")).2.map
        (fun e => (e.1, e.1.minBelowMax, e.2.err)) =
      [(Call.random 0 1, true, none),
        (Call.randomInt 0 0, false, some RangeError.cannotEqual)] ∧
     UwuifyExclamations { New [] with Exclamations := [str "!!"] } (str "Hi!") =
      some (str "Hi!!")) ∧
    ((uwuifySpaceWordLogged latin1Tables { New [] with Faces := [str "uwu"] } true []
        (str "Do...")).2.map (fun e => (e.1, e.1.minBelowMax, e.2.err)) =
      [(Call.random 0 1, true, none),
        (Call.randomInt 0 0, false, some RangeError.cannotEqual)] ∧
     UwuifySpaces latin1Tables { New [] with Faces := [str "uwu"] } (str "Do...") =
      some (str "do... uwu")) := by
  refine ⟨⟨by decide!, by decide!⟩, ⟨by decide!, by decide!⟩⟩

/-- C23, amended. For every Uwuifier whose `Faces` and `Actions` lexicons do not have
exactly one entry and whose `Exclamations` lexicon has at least two entries (each lexicon
with at most `2^53` entries, so that `len - 1` converts to `float64` exactly), and for
every token, every `Random` / `RandomInt` call the three passes make for the token is
made with `min < max` and returns no range error. -/
theorem C23_calls_min_below_max (U : UnicodeTables) (u : Uwuifier) (first : Bool)
    (prevWord w : Str)
    (hF : u.Faces.length ≠ 1) (hA : u.Actions.length ≠ 1) (hE : 2 ≤ u.Exclamations.length)
    (hFb : u.Faces.length ≤ 2 ^ 53) (hAb : u.Actions.length ≤ 2 ^ 53)
    (hEb : u.Exclamations.length ≤ 2 ^ 53) :
    (∀ e ∈ (uwuifyWordLogged u w).2, e.1.minBelowMax = true ∧ e.2.err = none) ∧
    (∀ e ∈ (uwuifyExclamationWordLogged u w).2, e.1.minBelowMax = true ∧ e.2.err = none) ∧
    (∀ e ∈ (uwuifySpaceWordLogged U u first prevWord w).2,
      e.1.minBelowMax = true ∧ e.2.err = none) := by
  have two : ∀ (g : Seed) (n : Nat), 2 ≤ n → n ≤ 2 ^ 53 →
      ∀ e ∈ [(Call.random 0 1, Outcome.float (Random (NewSeed w) 0 1).1),
        (Call.randomInt 0 ((n : Int) - 1), Outcome.int (RandomInt g 0 ((n : Int) - 1)).1)],
      e.1.minBelowMax = true ∧ e.2.err = none := by
    intro g n h2 hb e he
    simp only [List.mem_cons, List.mem_singleton, List.not_mem_nil, or_false] at he
    rcases he with rfl | rfl
    · exact Random_unit_ok _
    · exact RandomInt_index_ok g n h2 hb
  have one : ∀ e ∈ [(Call.random 0 1, Outcome.float (Random (NewSeed w) 0 1).1)],
      e.1.minBelowMax = true ∧ e.2.err = none := by
    intro e he
    simp only [List.mem_singleton] at he
    subst he
    exact Random_unit_ok _
  refine ⟨?_, ?_, ?_⟩
  · intro e he
    unfold uwuifyWordLogged at he
    split at he
    · cases he
    · obtain ⟨h1, h2⟩ := uwuifyWordRulesLogged_calls _ _ _ _ e he
      exact ⟨by rw [h1]; simp [Call.minBelowMax], h2⟩
  · intro e he
    unfold uwuifyExclamationWordLogged at he
    simp only at he
    split at he
    · exact one e he
    · split at he
      · exact two _ _ hE hEb e he
      · exact two _ _ hE hEb e he
  · intro e he
    cases w with
    | nil => cases he
    | cons b0 rest =>
      unfold uwuifySpaceWordLogged at he
      simp only at he
      split at he
      · rename_i h
        have h2 : 2 ≤ u.Faces.length := by have := h.2.1; omega
        split at he
        · exact two _ _ h2 hFb e he
        · exact two _ _ h2 hFb e he
      · split at he
        · rename_i h
          have h2 : 2 ≤ u.Actions.length := by have := h.2.1; omega
          split at he
          · exact two _ _ h2 hAb e he
          · exact two _ _ h2 hAb e he
        · split at he
          · have h3 := two (Random (NewSeed (b0 :: rest)) 0 1).2 3 (by norm_num) (by norm_num)
            split at he
            · exact h3 e he
            · exact h3 e he
          · exact one e he

theorem C23_calls_min_below_max_witness :
    ((New [WithSpaces ⟨1, 0, 0⟩]).Faces.length ≠ 1 ∧ (New [WithSpaces ⟨1, 0, 0⟩]).Actions.length ≠ 1 ∧
      2 ≤ (New [WithSpaces ⟨1, 0, 0⟩]).Exclamations.length) ∧
    ((∀ e ∈ (uwuifyWordLogged (New [WithSpaces ⟨1, 0, 0⟩]) (str "Hi!")).2,
        e.1.minBelowMax = true ∧ e.2.err = none) ∧
      (∀ e ∈ (uwuifyExclamationWordLogged (New [WithSpaces ⟨1, 0, 0⟩]) (str "Hi!")).2,
        e.1.minBelowMax = true ∧ e.2.err = none) ∧
      (∀ e ∈ (uwuifySpaceWordLogged latin1Tables (New [WithSpaces ⟨1, 0, 0⟩]) true []
          (str "Hi!")).2, e.1.minBelowMax = true ∧ e.2.err = none)) ∧
    ((uwuifyExclamationWordLogged (New [WithSpaces ⟨1, 0, 0⟩]) (str "Hi!")).2.map
        (fun e => e.1) = [Call.random 0 1, Call.randomInt 0 4] ∧
      (uwuifySpaceWordLogged latin1Tables (New [WithSpaces ⟨1, 0, 0⟩]) true []
        (str "Hi!")).2.map (fun e => e.1) = [Call.random 0 1, Call.randomInt 0 9] ∧
      (uwuifyWordLogged (New [WithSpaces ⟨1, 0, 0⟩]) (str "Hi!")).2.length = 6) :=
  ⟨⟨by decide!, by decide!, by decide!⟩,
    C23_calls_min_below_max latin1Tables (New [WithSpaces ⟨1, 0, 0⟩]) true [] (str "Hi!")
      (by decide!) (by decide!) (by decide!) (by decide!) (by decide!) (by decide!),
    by decide!, by decide!, by decide!⟩

/-! ### Capital letters after a face or an action -/

theorem runesFrom_ascii (s : Str) (h : ∀ b ∈ s, b.val < 128) :
    runesFrom 0 s = s.map (fun b => b.val) := by
  induction s with
  | nil => rfl
  | cons b rest ih =>
    rw [runesFrom, decodeRune_ascii b rest (h b (by simp))]
    show b.val :: runesFrom 0 rest = _
    rw [ih (fun x hx => h x (List.mem_cons_of_mem _ hx))]
    rfl

/-- On a text of ASCII bytes the capital ratio does not consult the tables above ASCII. -/
theorem getCapitalPercentage_ascii (U V : UnicodeTables) (s : Str)
    (h : ∀ b ∈ s, b.val < 128) : getCapitalPercentage U s = getCapitalPercentage V s := by
  have hr : ∀ r ∈ runes s, r < 128 := by
    intro r hr
    rw [runes, runesFrom_ascii s h] at hr
    obtain ⟨b, hb, rfl⟩ := List.mem_map.mp hr
    exact h b hb
  have hl : (runes s).filter (IsLetter U) = (runes s).filter (IsLetter V) :=
    List.filter_congr (fun r hr1 => by unfold IsLetter; rw [if_pos (hr r hr1), if_pos (hr r hr1)])
  have hu : ((runes s).filter (IsLetter V)).filter (IsUpper U) =
      ((runes s).filter (IsLetter V)).filter (IsUpper V) :=
    List.filter_congr (fun r hr1 => by
      have := hr r (List.mem_of_mem_filter hr1)
      unfold IsUpper; rw [if_pos this, if_pos this])
  unfold getCapitalPercentage
  simp only
  rw [hl, hu]

/-- On an ASCII first byte and an ASCII word `checkCapital` does not consult the tables
above ASCII. -/
theorem checkCapital_ascii (U V : UnicodeTables) (first : Bool) (prevWord : Str)
    (firstChar : Nat) (word : Str) (hc : firstChar < 128) (h : ∀ b ∈ word, b.val < 128) :
    checkCapital U first prevWord firstChar word =
      checkCapital V first prevWord firstChar word := by
  have hu : ToUpper U firstChar = ToUpper V firstChar := by
    unfold ToUpper; rw [if_pos hc, if_pos hc]
  have hl : ToLower U firstChar = ToLower V firstChar := by
    unfold ToLower; rw [if_pos hc, if_pos hc]
  unfold checkCapital
  rw [hu, hl, getCapitalPercentage_ascii U V word h]

/-- Where the face band is selected, the word stored is the word with the face appended
after a space, put through `checkCapital`. -/
theorem uwuifySpaceWord_face (U : UnicodeTables) (u : Uwuifier) (first : Bool)
    (prevWord : Str) (b0 : Fin 256) (rest : Str) (face : Str)
    (hf : Float64.num (Random (NewSeed (b0 :: rest)) 0 1).1.val ≤ faceThreshold u.spacesModifier ∧
      u.Faces.length > 0 ∧ isBreak (b0 :: rest) = false)
    (hi : index u.Faces
      (RandomInt (Random (NewSeed (b0 :: rest)) 0 1).2 0 ((u.Faces.length : Int) - 1)).1.val =
        some face) :
    uwuifySpaceWord U u first prevWord (b0 :: rest) =
      some (checkCapital U first prevWord b0.val ((b0 :: rest) ++ 32 :: face)) := by
  rw [uwuifySpaceWord_thresholds, if_pos hf, hi]

/-- Where the action band is selected, the word stored is the word with the action
appended after a space, put through `checkCapital`. -/
theorem uwuifySpaceWord_action (U : UnicodeTables) (u : Uwuifier) (first : Bool)
    (prevWord : Str) (b0 : Fin 256) (rest : Str) (action : Str)
    (hf : ¬ (Float64.num (Random (NewSeed (b0 :: rest)) 0 1).1.val ≤ faceThreshold u.spacesModifier ∧
      u.Faces.length > 0 ∧ isBreak (b0 :: rest) = false))
    (ha : Float64.num (Random (NewSeed (b0 :: rest)) 0 1).1.val ≤ actionThreshold u.spacesModifier ∧
      u.Actions.length > 0 ∧ isBreak (b0 :: rest) = false)
    (hi : index u.Actions
      (RandomInt (Random (NewSeed (b0 :: rest)) 0 1).2 0 ((u.Actions.length : Int) - 1)).1.val =
        some action) :
    uwuifySpaceWord U u first prevWord (b0 :: rest) =
      some (checkCapital U first prevWord b0.val ((b0 :: rest) ++ 32 :: action)) := by
  rw [uwuifySpaceWord_thresholds, if_neg hf, if_pos ha, hi]

/-- On the first token `checkCapital` lower-cases the first byte exactly when it equals
its upper case and the capital ratio of the word it is given, the token with the face or
action already appended, is at most 1/2. -/
theorem checkCapital_first (U : UnicodeTables) (prevWord : Str) (firstChar : Nat)
    (word : Str) :
    checkCapital U true prevWord firstChar word =
      if utf8Encode firstChar = utf8Encode (ToUpper U firstChar) ∧
          getCapitalPercentage U word ≤ 1 / 2 then
        utf8Encode (ToLower U firstChar) ++ word.drop 1
      else word := by
  unfold checkCapital
  by_cases h1 : utf8Encode firstChar = utf8Encode (ToUpper U firstChar)
  · by_cases h2 : getCapitalPercentage U word ≤ 1 / 2
    · rw [if_neg (not_not.mpr h1), if_neg (not_lt.mpr h2), if_pos rfl, if_pos ⟨h1, h2⟩]
    · rw [if_neg (not_not.mpr h1), if_pos (not_le.mp h2), if_neg (fun h => h2 h.2)]
  · rw [if_pos h1, if_neg (fun h => h1 h.1)]

/-- On a later token `checkCapital` lower-cases the first byte exactly when it equals its
upper case, the capital ratio of the word it is given is at most 1/2, and the previous
word it is given ends in one of `.`, `!`, `?`, `-`. -/
theorem checkCapital_later (U : UnicodeTables) (prevWord : Str) (firstChar : Nat)
    (word : Str) :
    checkCapital U false prevWord firstChar word =
      if utf8Encode firstChar = utf8Encode (ToUpper U firstChar) ∧
          getCapitalPercentage U word ≤ 1 / 2 ∧
          ∃ c, prevWord.getLast? = some c ∧ c ∈ str ".!?-" then
        utf8Encode (ToLower U firstChar) ++ word.drop 1
      else word := by
  unfold checkCapital
  by_cases h1 : utf8Encode firstChar = utf8Encode (ToUpper U firstChar)
  · by_cases h2 : getCapitalPercentage U word ≤ 1 / 2
    · rw [if_neg (not_not.mpr h1), if_neg (not_lt.mpr h2), if_neg Bool.false_ne_true]
      cases hl : prevWord.getLast? with
      | none =>
        rw [if_neg]
        rintro ⟨_, _, c, hc, _⟩
        cases hc
      | some lastChar =>
        simp only
        by_cases h3 : lastChar ∈ str ".!?-"
        · rw [if_pos h3, if_pos ⟨h1, h2, lastChar, rfl, h3⟩]
        · rw [if_neg h3, if_neg]
          rintro ⟨_, _, c, hc, hm⟩
          cases hc
          exact h3 hm
    · rw [if_neg (not_not.mpr h1), if_pos (not_le.mp h2), if_neg (fun h => h2 h.2.1)]
  · rw [if_pos h1, if_neg (fun h => h1 h.1)]

theorem uwuifySpaceLoop_two (U : UnicodeTables) (u : Uwuifier) (w1 w2 o1 o2 : Str)
    (h1 : uwuifySpaceWord U u true [] w1 = some o1)
    (h2 : uwuifySpaceWord U u false o1 w2 = some o2) :
    uwuifySpaceLoop U u true [] [w1, w2] = some [o1, o2] := by
  simp [uwuifySpaceLoop, h1, h2]

/-- C21. With the default configuration `UwuifySpaces` turns the one-token sentence
"Do..." into "Do... UwU": the face "UwU" is appended, the first character `D` is
uppercase and the capital ratio of "Do..." is 1/2, yet `D` is not lower-cased, because
the ratio `checkCapital` computes is that of "Do... UwU", 3/5.  In the other direction
"PC," has capital ratio 1 and gets the action "*runs away*"; the ratio of
"PC, *runs away*" is 1/5 and the output is "pC, *runs away*". -/
theorem C21_ratio_counts_appended_text :
    (∀ U : UnicodeTables, UwuifySpaces U (New []) (str "Do...") = some (str "Do... UwU")) ∧
    (∀ U : UnicodeTables, getCapitalPercentage U (str "Do...") = 1 / 2 ∧
      getCapitalPercentage U (str "Do... UwU") = 3 / 5) ∧
    (∀ U : UnicodeTables, UwuifySpaces U (New []) (str "PC,") =
      some (str "pC, *runs away*")) ∧
    (∀ U : UnicodeTables, getCapitalPercentage U (str "PC,") = 1 ∧
      getCapitalPercentage U (str "PC, *runs away*") = 1 / 5) := by
  refine ⟨?_, ?_, ?_, ?_⟩
  · intro U
    have hw : str "Do..." = (68 : Fin 256) :: [111, 46, 46, 46] := by decide
    rw [UwuifySpaces_single U _ _ (by decide), hw,
      uwuifySpaceWord_face U (New []) true [] 68 [111, 46, 46, 46] (str "UwU")
        (by decide!) (by decide!),
      checkCapital_ascii U latin1Tables true [] (68 : Fin 256).val
        (((68 : Fin 256) :: [111, 46, 46, 46]) ++ 32 :: str "UwU") (by decide) (by decide!)]
    decide!
  · intro U
    rw [getCapitalPercentage_ascii U latin1Tables (str "Do...") (by decide!),
      getCapitalPercentage_ascii U latin1Tables (str "Do... UwU") (by decide!)]
    exact ⟨by decide!, by decide!⟩
  · intro U
    have hw : str "PC," = (80 : Fin 256) :: [67, 44] := by decide
    rw [UwuifySpaces_single U _ _ (by decide), hw,
      uwuifySpaceWord_action U (New []) true [] 80 [67, 44] (str "*runs away*")
        (by decide!) (by decide!) (by decide!),
      checkCapital_ascii U latin1Tables true [] (80 : Fin 256).val
        (((80 : Fin 256) :: [67, 44]) ++ 32 :: str "*runs away*") (by decide) (by decide!)]
    decide!
  · intro U
    rw [getCapitalPercentage_ascii U latin1Tables (str "PC,") (by decide!),
      getCapitalPercentage_ascii U latin1Tables (str "PC, *runs away*") (by decide!)]
    exact ⟨by decide!, by decide!⟩

/-- C22. With the default configuration `UwuifySpaces` turns "Look. You." into
"look. *boops your nose* You. *runs away*": the second token gets an action, its first
character `Y` is uppercase, its capital ratio with the action is 1/11, and the token
before it in the input, "Look.", ends in `.`; yet `Y` is not lower-cased, because
`words[i-1]` is read after the loop has stored "look. *boops your nose*" there, which
ends in `*`.  After "Wait.", which the pass leaves as it is, the same token becomes
"you. *runs away*". -/
theorem C22_previous_word_read_as_stored :
    (∀ U : UnicodeTables, UwuifySpaces U (New []) (str "Look. You.") =
      some (str "look. *boops your nose* You. *runs away*")) ∧
    (∀ U : UnicodeTables, UwuifySpacesInPlace U (New []) (str "Look. You.") =
      some (str "look. *boops your nose* You. *runs away*")) ∧
    (∀ U : UnicodeTables, UwuifySpaces U (New []) (str "Wait. You.") =
      some (str "Wait. you. *runs away*")) ∧
    (∀ U : UnicodeTables, getCapitalPercentage U (str "You. *runs away*") = 1 / 11) ∧
    (str "Look.").getLast? = some 46 ∧ (str "Wait.").getLast? = some 46 := by
  have hyou : str "You." = (89 : Fin 256) :: [111, 117, 46] := by decide
  have h2 : ∀ (U : UnicodeTables) (prev : Str),
      uwuifySpaceWord U (New []) false prev (str "You.") =
        some (checkCapital latin1Tables false prev 89 (str "You. *runs away*")) := by
    intro U prev
    rw [hyou, uwuifySpaceWord_action U (New []) false prev 89 [111, 117, 46]
        (str "*runs away*") (by decide!) (by decide!) (by decide!),
      checkCapital_ascii U latin1Tables false prev (89 : Fin 256).val
        (((89 : Fin 256) :: [111, 117, 46]) ++ 32 :: str "*runs away*") (by decide)
        (by decide!)]
    rfl
  have h1 : ∀ U : UnicodeTables, UwuifySpaces U (New []) (str "Look. You.") =
      some (str "look. *boops your nose* You. *runs away*") := by
    intro U
    have hs : Split (str "Look. You.") = [str "Look.", str "You."] := by decide!
    have hw : str "Look." = (76 : Fin 256) :: [111, 111, 107, 46] := by decide
    have hfirst : uwuifySpaceWord U (New []) true [] (str "Look.") =
        some (str "look. *boops your nose*") := by
      rw [hw, uwuifySpaceWord_action U (New []) true [] 76 [111, 111, 107, 46]
          (str "*boops your nose*") (by decide!) (by decide!) (by decide!),
        checkCapital_ascii U latin1Tables true [] (76 : Fin 256).val
          (((76 : Fin 256) :: [111, 111, 107, 46]) ++ 32 :: str "*boops your nose*")
          (by decide) (by decide!)]
      decide!
    have hsecond : uwuifySpaceWord U (New []) false (str "look. *boops your nose*")
        (str "You.") = some (str "You. *runs away*") := by
      rw [h2]
      decide!
    rw [UwuifySpaces, hs, uwuifySpaceLoop_two U _ _ _ _ _ hfirst hsecond]
    decide!
  refine ⟨h1, ?_, ?_, ?_, by decide, by decide⟩
  · intro U
    rw [UwuifySpacesInPlace_eq, h1]
  · intro U
    have hs : Split (str "Wait. You.") = [str "Wait.", str "You."] := by decide!
    have hfirst : uwuifySpaceWord U (New []) true [] (str "Wait.") = some (str "Wait.") :=
      uwuifySpaceWord_above U (New []) true [] (str "Wait.") (by decide!) (by decide!)
        (by decide!)
    have hsecond : uwuifySpaceWord U (New []) false (str "Wait.") (str "You.") =
        some (str "you. *runs away*") := by
      rw [h2]
      decide!
    rw [UwuifySpaces, hs, uwuifySpaceLoop_two U _ _ _ _ _ hfirst hsecond]
    decide!
  · intro U
    rw [getCapitalPercentage_ascii U latin1Tables (str "You. *runs away*") (by decide!)]
    decide!

/-! ### Exact arithmetic and float64 arithmetic in the generator -/

/-- A number `k * 2^z` with `k < 2^53` and `-1074 ≤ z ≤ 971` is a `float64` value. -/
theorem round64_dyadic (k : Nat) (z : Int) (hk : k < 2 ^ 53) (hz : -1074 ≤ z)
    (hz2 : z ≤ 971) : round64 ((k : ℚ) * 2 ^ z) = Float64.num ((k : ℚ) * 2 ^ z) := by
  rcases Nat.eq_zero_or_pos k with h0 | hpos
  · subst h0
    simp [round64_zero]
  · have hkq : (0 : ℚ) < k := by exact_mod_cast hpos
    have hx : (0 : ℚ) < (k : ℚ) * 2 ^ z := mul_pos hkq (two_zpow_pos z)
    have hlt : (k : ℚ) * 2 ^ z < 2 ^ (53 + z) := by
      rw [zpow_add₀ (by norm_num)]
      have : (k : ℚ) < 2 ^ (53 : Int) := by
        rw [zpow_ofNat]
        exact_mod_cast hk
      exact mul_lt_mul_of_pos_right this (two_zpow_pos z)
    have hL : floorLog2 ((k : ℚ) * 2 ^ z) < 53 + z := by
      have h1 := (floorLog2_spec _ hx).1
      have h2 : (2 : ℚ) ^ floorLog2 ((k : ℚ) * 2 ^ z) < 2 ^ (53 + z) := lt_of_le_of_lt h1 hlt
      rwa [zpow_lt_zpow_iff_right₀ (by norm_num)] at h2
    have he : ulpExponent ((k : ℚ) * 2 ^ z) ≤ z := by
      unfold ulpExponent
      omega
    have hn : nearest ((k : ℚ) * 2 ^ z) = (k : ℚ) * 2 ^ z := by
      unfold nearest ulp
      have hq : (k : ℚ) * 2 ^ z / 2 ^ ulpExponent ((k : ℚ) * 2 ^ z) =
          (((k * 2 ^ (z - ulpExponent ((k : ℚ) * 2 ^ z)).toNat : Nat) : Int) : ℚ) := by
        rw [mul_div_assoc, ← zpow_sub₀ (by norm_num), two_zpow_eq_cast _ (by omega)]
        push_cast
        ring
      rw [hq, roundHalfEven_int, ← hq]
      field_simp
    rw [round64_pos _ hx, hn, if_neg]
    rw [not_le]
    have : (2 : ℚ) ^ (53 + z) ≤ 2 ^ ((1024 : Nat) : Int) :=
      zpow_le_zpow_right₀ (by norm_num) (by omega)
    rw [zpow_natCast] at this
    exact lt_of_lt_of_le hlt this

/-- For a draw `t / 2^32` and the bounds `0` and `n ≤ 2^21` (the call `Random(0, 1)` of
the passes, and the calls `RandomInt(0, len - 1)` on a lexicon of up to `2^21 + 1`
entries), `float64` arithmetic rounds nothing: `value*(max-min) + min` computed in
`float64` is the exact value. -/
theorem denormalizeFloat64_exact (s : Seed) (n : Nat) (hn : n ≤ 2 ^ 21) :
    denormalizeFloat64 (Float64.num (sfc32 s).1) (Float64.num 0) (Float64.num n) =
      Float64.num (denormalize (sfc32 s).1 0 n) := by
  have ht := sfc32T_lt s
  have h1 : Float64.sub (Float64.num n) (Float64.num 0) = Float64.num n := by
    show round64 ((n : ℚ) + -0) = _
    have := round64_dyadic n 0 (by omega) (by norm_num) (by norm_num)
    simpa using this
  have hk : sfc32T s * n < 2 ^ 53 := by
    calc sfc32T s * n ≤ sfc32T s * 2 ^ 21 := Nat.mul_le_mul_left _ hn
      _ < 2 ^ 32 * 2 ^ 21 := Nat.mul_lt_mul_of_pos_right ht (by norm_num)
      _ = 2 ^ 53 := by norm_num
  have hprod : (sfc32 s).1 * (n : ℚ) = ((sfc32T s * n : Nat) : ℚ) * 2 ^ (-32 : Int) := by
    unfold sfc32
    push_cast
    rw [zpow_neg]
    norm_num
    ring
  have h2 : Float64.mul (Float64.num (sfc32 s).1) (Float64.num n) =
      Float64.num ((sfc32 s).1 * n) := by
    show round64 ((sfc32 s).1 * (n : ℚ)) = _
    rw [hprod]
    exact round64_dyadic _ _ hk (by norm_num) (by norm_num)
  unfold denormalizeFloat64 denormalize
  rw [h1, h2]
  show round64 ((sfc32 s).1 * (n : ℚ) + 0) = _
  rw [add_zero, sub_zero, add_zero, hprod]
  exact round64_dyadic _ _ hk (by norm_num) (by norm_num)

end Gouwu
